import Mathlib

/-!
# KusionStack operating: claim (PVC) control and the demo reconcile adapter

A shallow embedding of

* `pkg/controllers/collaset/pvccontrol/pvc_control.go`
* `pkg/controllers/demoresourceconsist/demoresourceconsist_controller.go`
* `pkg/webhook/server/generic/collaset/collaset_mutating_handler.go`
* `apis/apps/v1alpha1/defaults.go`

The cluster object store and the expectation tracker are external
collaborators.  They are modelled as arbitrary functions over an abstract
store state `σ`; every call the embedded code issues against them is recorded,
in order, in a list of events returned next to the result.
-/

set_option autoImplicit false

namespace Kusion

/-! ## Go maps -/

/-- A Go `map[string]V`: the entries, every key at most once. -/
abbrev GoMap (V : Type) := List (String × V)

/-- The comma-ok lookup `v, ok := m[k]`. -/
def mapGet {V : Type} : GoMap V → String → Option V
  | [], _ => none
  | (k0, v) :: rest, k => if k0 = k then some v else mapGet rest k

/-- The single-value lookup `m[k]`, which yields the zero value on a missing key. -/
def mapGetD {V : Type} (m : GoMap V) (k : String) (zero : V) : V :=
  match mapGet m k with
  | some v => v
  | none => zero

/-- The assignment `m[k] = v`. -/
def mapSet {V : Type} : GoMap V → String → V → GoMap V
  | [], k, v => [(k, v)]
  | (k0, v0) :: rest, k, v =>
    if k0 = k then (k, v) :: rest else (k0, v0) :: mapSet rest k v

/-- The test `_, ok := m[k]`. -/
def mapHas {V : Type} (m : GoMap V) (k : String) : Bool :=
  (mapGet m k).isSome

/-! ## Data model -/

/-- The fields of `corev1.PersistentVolumeClaim` the controller reads; `Labels = none`
is the nil map, `DeletionTimestamp = none` the nil pointer, `Spec` is opaque. -/
structure PersistentVolumeClaim where
  Name : String
  Namespace : String
  Labels : Option (GoMap String)
  DeletionTimestamp : Option Nat
  Spec : String
  deriving DecidableEq, Repr

/-- Modelled from the spec: the type `PersistentVolumeClaimRetentionPolicyType` is
declared outside the given sources; the spec gives its values,
"RetentionPolicy: per-Employer setting ∈ {Delete, Retain}". -/
inductive PersistentVolumeClaimRetentionPolicyType
  | Delete
  | Retain
  deriving DecidableEq, Repr

/-- The struct `appsv1alpha1.ByPartition`. -/
structure ByPartition where
  Partition : Option Int
  deriving DecidableEq, Repr

/-- The struct `appsv1alpha1.RollingUpdateCollaSetStrategy`; `ByLabel` points to a struct
without fields. -/
structure RollingUpdateCollaSetStrategy where
  ByPartition : Option ByPartition
  ByLabel : Option Unit
  deriving DecidableEq, Repr

/-- The fields of `appsv1alpha1.CollaSet` the claim controller, the defaulting and the
webhook read: the metadata, `Spec.VolumeClaimTemplates`, the when-scaled policy,
`Spec.Selector.MatchLabels` (`none` is the nil map), `Spec.ScaleStrategy.PodToDelete`,
the opaque `Spec.Template.Spec` and the fields of `Spec.UpdateStrategy`. -/
structure CollaSet where
  Name : String
  Namespace : String
  VolumeClaimTemplates : List PersistentVolumeClaim
  WhenScaled : Option PersistentVolumeClaimRetentionPolicyType
  MatchLabels : Option (GoMap String) := none
  PodToDelete : List String := []
  Template : String := ""
  PodUpdatePolicy : String := ""
  RollingUpdate : Option RollingUpdateCollaSetStrategy := none
  deriving DecidableEq, Repr

/-- The claim source of a volume, `corev1.PersistentVolumeClaimVolumeSource`. -/
structure PersistentVolumeClaimVolumeSource where
  ClaimName : String
  ReadOnly : Bool
  deriving DecidableEq, Repr

/-- A pod volume, `corev1.Volume`; every other volume source is the opaque `Other`. -/
structure Volume where
  Name : String
  PersistentVolumeClaim : Option PersistentVolumeClaimVolumeSource
  Other : String
  deriving DecidableEq, Repr

/-- The fields of `metav1.OwnerReference`. -/
structure OwnerReference where
  APIVersion : String
  Kind : String
  Name : String
  UID : String
  deriving DecidableEq, Repr

/-- The fields of `corev1.Pod` the controllers and the webhook read. -/
structure Pod where
  Name : String
  Namespace : String
  Labels : Option (GoMap String)
  DeletionTimestamp : Option Nat
  Volumes : List Volume
  OwnerReferences : List OwnerReference := []
  deriving DecidableEq, Repr

/-- The resource kinds of the expectation tracker, `expectations.ExpectedReosourceType`. -/
inductive ExpectedResourceType
  | Pod
  | Pvc
  deriving DecidableEq, Repr

deriving instance DecidableEq for Except

/-- One call issued against the object store or the expectation tracker by the
claim controller, with what the call returned. -/
inductive PvcEvent
  | Create (claim : PersistentVolumeClaim) (result : Except String PersistentVolumeClaim)
  | Delete (claim : PersistentVolumeClaim) (err : Option String)
  | ExpectCreate (cls : CollaSet) (kind : ExpectedResourceType) (name : String)
      (err : Option String)
  | ExpectDelete (cls : CollaSet) (kind : ExpectedResourceType) (name : String)
      (err : Option String)
  deriving DecidableEq

/-- What `pvc_control.go` uses and the given sources do not define: the label keys of
`appsv1alpha1`, the helpers of `collasetutils`, the object store client and the
expectation tracker.  `range` is the order in which a `for ... range` statement visits
a map, which Go leaves unspecified: any permutation of the entries. -/
structure PvcEnv (σ : Type) where
  PodInstanceIDLabelKey : String
  PvcTemplateHashLabelKey : String
  PvcTmpHash : PersistentVolumeClaim → Except String String
  ExtractPvcTmpName : CollaSet → PersistentVolumeClaim → Except String String
  BuildPvcWithHash : CollaSet → PersistentVolumeClaim → String →
    Except String PersistentVolumeClaim
  PvcPolicyWhenScaled : CollaSet → PersistentVolumeClaimRetentionPolicyType
  Create : σ → PersistentVolumeClaim → Except String PersistentVolumeClaim × σ
  Delete : σ → PersistentVolumeClaim → Option String × σ
  ExpectCreate : σ → CollaSet → ExpectedResourceType → String → Option String × σ
  ExpectDelete : σ → CollaSet → ExpectedResourceType → String → Option String × σ
  range : σ → GoMap PersistentVolumeClaim → GoMap PersistentVolumeClaim
  range_perm : ∀ s m, (range s m).Perm m

/-- The outcome of a run: the returned value, the store afterwards, the calls issued. -/
structure Run (σ α : Type) where
  result : α
  store : σ
  events : List PvcEvent

/-- Put the calls `evs`, issued earlier, in front of those of `r`. -/
def Run.after {σ α : Type} (evs : List PvcEvent) (r : Run σ α) : Run σ α :=
  { r with events := evs ++ r.events }

/-! ## `classifyPodPvcs` -/

/-- Modelled from the spec: `collasetutils.PvcTmpHashMapping` is outside the given
sources.  "For each declared template, compute a stable fingerprint over its spec":
the map from each declared template name to the fingerprint of that template, the
fingerprint itself (`PvcTmpHash`) being a parameter. -/
def PvcTmpHashMapping {σ : Type} (env : PvcEnv σ) :
    List PersistentVolumeClaim → GoMap String → Except String (GoMap String)
  | [], acc => .ok acc
  | pvcTmp :: rest, acc =>
    match env.PvcTmpHash pvcTmp with
    | .error e => .error e
    | .ok hash => PvcTmpHashMapping env rest (mapSet acc pvcTmp.Name hash)

/-- The body of the loop of `classifyPodPvcs` for one existing claim; `continue` leaves
both maps as they are. -/
def classifyStep {σ : Type} (env : PvcEnv σ) (cls : CollaSet) (id : String)
    (newTmpHash : GoMap String) (pvc : PersistentVolumeClaim)
    (newPvcs oldPvcs : GoMap PersistentVolumeClaim) :
    Except String (GoMap PersistentVolumeClaim × GoMap PersistentVolumeClaim) :=
  if pvc.DeletionTimestamp ≠ none then .ok (newPvcs, oldPvcs)
  else
    match pvc.Labels with
    | none => .ok (newPvcs, oldPvcs)
    | some labels =>
      match mapGet labels env.PodInstanceIDLabelKey with
      | none => .ok (newPvcs, oldPvcs)
      | some val =>
        if val ≠ id then .ok (newPvcs, oldPvcs)
        else
          match mapGet labels env.PvcTemplateHashLabelKey with
          | none => .ok (newPvcs, oldPvcs)
          | some hash =>
            match env.ExtractPvcTmpName cls pvc with
            | .error e => .error e
            | .ok pvcTmpName =>
              if mapGetD newTmpHash pvcTmpName "" = hash then
                .ok (mapSet newPvcs pvcTmpName pvc, oldPvcs)
              else
                .ok (newPvcs, mapSet oldPvcs pvcTmpName pvc)

/-- The loop of `classifyPodPvcs` over the existing claims. -/
def classifyLoop {σ : Type} (env : PvcEnv σ) (cls : CollaSet) (id : String)
    (newTmpHash : GoMap String) :
    List PersistentVolumeClaim → GoMap PersistentVolumeClaim → GoMap PersistentVolumeClaim →
    Except String (GoMap PersistentVolumeClaim × GoMap PersistentVolumeClaim)
  | [], newPvcs, oldPvcs => .ok (newPvcs, oldPvcs)
  | pvc :: rest, newPvcs, oldPvcs =>
    match classifyStep env cls id newTmpHash pvc newPvcs oldPvcs with
    | .error e => .error e
    | .ok (n, o) => classifyLoop env cls id newTmpHash rest n o

/-- The function `classifyPodPvcs`: the current (`newPvcs`) and the stale (`oldPvcs`)
claims of instance `id`, each keyed by template name. -/
def classifyPodPvcs {σ : Type} (env : PvcEnv σ) (cls : CollaSet) (id : String)
    (existingPvcs : List PersistentVolumeClaim) :
    Except String (GoMap PersistentVolumeClaim × GoMap PersistentVolumeClaim) :=
  match PvcTmpHashMapping env cls.VolumeClaimTemplates [] with
  | .error e => .error e
  | .ok newTmpHash => classifyLoop env cls id newTmpHash existingPvcs [] []

/-! ## Provisioning -/

/-- The loop of `provisionUpdatedPvc` over the declared templates. -/
def provisionLoop {σ : Type} (env : PvcEnv σ) (cls : CollaSet) (id : String) :
    List PersistentVolumeClaim → GoMap PersistentVolumeClaim → σ →
    Run σ (Except String (GoMap PersistentVolumeClaim))
  | [], updatedPvcs, s => ⟨.ok updatedPvcs, s, []⟩
  | pvcTmp :: rest, updatedPvcs, s =>
    if mapHas updatedPvcs pvcTmp.Name then provisionLoop env cls id rest updatedPvcs s
    else
      match env.BuildPvcWithHash cls pvcTmp id with
      | .error e => ⟨.error e, s, []⟩
      | .ok claim =>
        match env.Create s claim with
        | (.error e, s1) =>
          ⟨.error ("fail to create pvc for id " ++ id ++ ": " ++ e), s1,
            [PvcEvent.Create claim (.error e)]⟩
        | (.ok created, s1) =>
          match env.ExpectCreate s1 cls ExpectedResourceType.Pvc created.Name with
          | (some e, s2) =>
            ⟨.error e, s2,
              [PvcEvent.Create claim (.ok created),
               PvcEvent.ExpectCreate cls ExpectedResourceType.Pvc created.Name (some e)]⟩
          | (none, s2) =>
            (provisionLoop env cls id rest (mapSet updatedPvcs pvcTmp.Name created) s2).after
              [PvcEvent.Create claim (.ok created),
               PvcEvent.ExpectCreate cls ExpectedResourceType.Pvc created.Name none]

/-- The function `provisionUpdatedPvc`.  `c.Create` fills in the object it is given,
so the claim kept in the map, and whose name is expected, is the created one. -/
def provisionUpdatedPvc {σ : Type} (env : PvcEnv σ) (cls : CollaSet) (id : String)
    (existingPvcs : List PersistentVolumeClaim) (s : σ) :
    Run σ (Except String (GoMap PersistentVolumeClaim)) :=
  match classifyPodPvcs env cls id existingPvcs with
  | .error e => ⟨.error e, s, []⟩
  | .ok (updatedPvcs, _) => provisionLoop env cls id cls.VolumeClaimTemplates updatedPvcs s

/-- The volume `CreatePodPvcs` mounts for template `name` and claim `pvc`. -/
def claimVolume (name : String) (pvc : PersistentVolumeClaim) : Volume :=
  { Name := name
    PersistentVolumeClaim := some { ClaimName := pvc.Name, ReadOnly := false }
    Other := "" }

/-- The method `CreatePodPvcs`; the pod is updated in place, so it is returned. -/
def CreatePodPvcs {σ : Type} (env : PvcEnv σ) (cls : CollaSet) (pod : Pod)
    (existingPvcs : List PersistentVolumeClaim) (s : σ) : Run σ (Option String × Pod) :=
  match mapGet (pod.Labels.getD []) env.PodInstanceIDLabelKey with
  | none => ⟨(none, pod), s, []⟩
  | some id =>
    match provisionUpdatedPvc env cls id existingPvcs s with
    | ⟨.error e, s1, evs⟩ => ⟨(some e, pod), s1, evs⟩
    | ⟨.ok pvcsMap, s1, evs⟩ =>
      let newVolumes := (env.range s1 pvcsMap).map (fun kv => claimVolume kv.1 kv.2)
      let kept := pod.Volumes.filter (fun v => !mapHas pvcsMap v.Name)
      ⟨(none, { pod with Volumes := newVolumes ++ kept }), s1, evs⟩

/-! ## Deletion -/

/-- The method `DeletePodPvcs`, as a loop over the claims. -/
def DeletePodPvcs {σ : Type} (env : PvcEnv σ) (cls : CollaSet) (pod : Pod) :
    List PersistentVolumeClaim → σ → Run σ (Option String)
  | [], s => ⟨none, s, []⟩
  | pvc :: rest, s =>
    if pvc.Labels = none ∨ pod.Labels = none then DeletePodPvcs env cls pod rest s
    else if mapGetD (pvc.Labels.getD []) env.PodInstanceIDLabelKey ""
        ≠ mapGetD (pod.Labels.getD []) env.PodInstanceIDLabelKey "" then
      DeletePodPvcs env cls pod rest s
    else
      match env.Delete s pvc with
      | (some e, s1) => ⟨some e, s1, [PvcEvent.Delete pvc (some e)]⟩
      | (none, s1) =>
        match env.ExpectDelete s1 cls ExpectedResourceType.Pvc pvc.Name with
        | (some e, s2) =>
          ⟨some e, s2,
            [PvcEvent.Delete pvc none,
             PvcEvent.ExpectDelete cls ExpectedResourceType.Pvc pvc.Name (some e)]⟩
        | (none, s2) =>
          (DeletePodPvcs env cls pod rest s2).after
            [PvcEvent.Delete pvc none,
             PvcEvent.ExpectDelete cls ExpectedResourceType.Pvc pvc.Name none]

/-- The loop of `deleteUnclaimedPvcs` over the entries of `oldPvcs`, in the order the
`range` statement visits them. -/
def deleteUnclaimedLoop {σ : Type} (env : PvcEnv σ) (cls : CollaSet)
    (expectedNames : List String) :
    List (String × PersistentVolumeClaim) → σ → Run σ (Option String)
  | [], s => ⟨none, s, []⟩
  | (pvcTmpName, pvc) :: rest, s =>
    if pvcTmpName ∈ expectedNames then deleteUnclaimedLoop env cls expectedNames rest s
    else
      match env.Delete s pvc with
      | (some e, s1) => ⟨some e, s1, [PvcEvent.Delete pvc (some e)]⟩
      | (none, s1) =>
        match env.ExpectDelete s1 cls ExpectedResourceType.Pvc pvc.Name with
        | (some e, s2) =>
          ⟨some e, s2,
            [PvcEvent.Delete pvc none,
             PvcEvent.ExpectDelete cls ExpectedResourceType.Pvc pvc.Name (some e)]⟩
        | (none, s2) =>
          (deleteUnclaimedLoop env cls expectedNames rest s2).after
            [PvcEvent.Delete pvc none,
             PvcEvent.ExpectDelete cls ExpectedResourceType.Pvc pvc.Name none]

/-- The function `deleteUnclaimedPvcs`. -/
def deleteUnclaimedPvcs {σ : Type} (env : PvcEnv σ) (cls : CollaSet)
    (oldPvcs : GoMap PersistentVolumeClaim) (s : σ) : Run σ (Option String) :=
  deleteUnclaimedLoop env cls (cls.VolumeClaimTemplates.map (·.Name)) (env.range s oldPvcs) s

/-- The loop of `deleteOldPvcs` over the entries of `oldPvcs`. -/
def deleteOldLoop {σ : Type} (env : PvcEnv σ) (cls : CollaSet)
    (newPvcs : GoMap PersistentVolumeClaim) :
    List (String × PersistentVolumeClaim) → σ → Run σ (Option String)
  | [], s => ⟨none, s, []⟩
  | (pvcTmpName, pvc) :: rest, s =>
    if !mapHas newPvcs pvcTmpName then deleteOldLoop env cls newPvcs rest s
    else
      match env.Delete s pvc with
      | (some e, s1) => ⟨some e, s1, [PvcEvent.Delete pvc (some e)]⟩
      | (none, s1) =>
        match env.ExpectDelete s1 cls ExpectedResourceType.Pvc pvc.Name with
        | (some e, s2) =>
          ⟨some e, s2,
            [PvcEvent.Delete pvc none,
             PvcEvent.ExpectDelete cls ExpectedResourceType.Pvc pvc.Name (some e)]⟩
        | (none, s2) =>
          (deleteOldLoop env cls newPvcs rest s2).after
            [PvcEvent.Delete pvc none,
             PvcEvent.ExpectDelete cls ExpectedResourceType.Pvc pvc.Name none]

/-- The function `deleteOldPvcs`. -/
def deleteOldPvcs {σ : Type} (env : PvcEnv σ) (cls : CollaSet)
    (newPvcs oldPvcs : GoMap PersistentVolumeClaim) (s : σ) : Run σ (Option String) :=
  deleteOldLoop env cls newPvcs (env.range s oldPvcs) s

/-- The method `DeletePodUnusedPvcs`. -/
def DeletePodUnusedPvcs {σ : Type} (env : PvcEnv σ) (cls : CollaSet) (pod : Pod)
    (existingPvcs : List PersistentVolumeClaim) (s : σ) : Run σ (Option String) :=
  match pod.Labels with
  | none => ⟨none, s, []⟩
  | some labels =>
    match mapGet labels env.PodInstanceIDLabelKey with
    | none => ⟨none, s, []⟩
    | some id =>
      match classifyPodPvcs env cls id existingPvcs with
      | .error e => ⟨some e, s, []⟩
      | .ok (newPvcs, oldPvcs) =>
        match deleteUnclaimedPvcs env cls oldPvcs s with
        | ⟨some e, s1, evs⟩ => ⟨some e, s1, evs⟩
        | ⟨none, s1, evs⟩ =>
          if env.PvcPolicyWhenScaled cls = PersistentVolumeClaimRetentionPolicyType.Retain then
            ⟨none, s1, evs⟩
          else
            (deleteOldPvcs env cls newPvcs oldPvcs s1).after evs


/-! ## The demo reconcile adapter -/

/-- The adapter's own extra status of an employee, `PodExtraStatus`. -/
structure PodExtraStatus where
  TrafficOn : Bool
  TrafficWeight : Int
  deriving DecidableEq, Repr

/-- A value of the `interface{}` field `ExtraStatus`, as far as a type assertion to
`PodExtraStatus` can tell. -/
inductive ExtraStatusValue
  | PodExtraStatus (v : PodExtraStatus)
  | Other
  deriving DecidableEq, Repr

/-- The fields of `resourceconsist.PodEmployeeStatuses` the adapter reads. -/
structure PodEmployeeStatuses where
  LifecycleReady : Bool
  ExtraStatus : ExtraStatusValue
  deriving DecidableEq, Repr

/-- What `GetEmployeeStatuses()` returns, an `interface{}`, as far as a type assertion
to `resourceconsist.PodEmployeeStatuses` can tell. -/
inductive EmployeeStatusesValue
  | PodEmployeeStatuses (v : PodEmployeeStatuses)
  | Other
  deriving DecidableEq, Repr

/-- A value of the interface `resourceconsist.IEmployeeStatus`: the nil interface, or an
implementation, given by what its three methods return. -/
inductive IEmployeeStatus
  | nil
  | Status (EmployeeId EmployeeName : String) (EmployeeStatuses : EmployeeStatusesValue)
  deriving DecidableEq, Repr

/-- The employer, a `client.Object`: its kind, its metadata and, for a Service, the
selector. `Annotations = none` is the nil map. -/
structure Employer where
  Kind : String
  Namespace : String
  Name : String
  Annotations : Option (GoMap String)
  Selector : GoMap String
  deriving DecidableEq, Repr

/-- One call issued against the object store by the adapter, with what it returned. -/
inductive AdapterEvent
  | Get (ns name : String) (result : Except String Pod)
  | UpdatePod (pod : Pod) (err : Option String)
  | UpdateEmployer (employer : Employer) (err : Option String)
  deriving DecidableEq

/-- The object store client of the adapter. -/
structure AdapterEnv (σ : Type) where
  Get : σ → String → String → Except String Pod × σ
  UpdatePod : σ → Pod → Option String × σ
  UpdateEmployer : σ → Employer → Option String × σ

/-- What `CreateEmployees`, `UpdateEmployees` and `DeleteEmployees` return; a nil slice
is the empty list, a nil error is `none`. -/
structure Employees where
  succeeded : List IEmployeeStatus
  failed : List IEmployeeStatus
  err : Option String
  deriving DecidableEq, Repr

/-- A call of the adapter that returned: the values returned, the employer object as
the call left it, the store afterwards and the calls issued against the store. -/
structure AdapterRun (σ : Type) where
  result : Employees
  employer : Option Employer
  store : σ
  events : List AdapterEvent

/-- A call either aborts with a run-time panic or returns. -/
inductive Outcome (α : Type)
  | panic
  | returned (a : α)

/-- Put the calls `evs`, issued earlier, in front of those of a run. -/
def Outcome.after {σ : Type} (evs : List AdapterEvent) :
    Outcome (AdapterRun σ) → Outcome (AdapterRun σ)
  | .panic => .panic
  | .returned r => .returned { r with events := evs ++ r.events }

/-- The Go call `strings.Join(names, ",")`. -/
def stringsJoin (names : List String) : String :=
  String.intercalate "," names

/-- The Go call `strings.Split(s, ",")` on the characters of `s`. -/
def stringsSplitChars : List Char → List String
  | [] => [""]
  | c :: cs =>
    match stringsSplitChars cs with
    | [] => [String.mk [c]]
    | w :: ws => if c = ',' then "" :: w :: ws else String.mk (c :: w.data) :: ws

/-- The Go call `strings.Split(s, ",")`. -/
def stringsSplit (s : String) : List String :=
  stringsSplitChars s.data

/-- The names `employee.GetEmployeeName()` of a list of employees; calling the method on
the nil interface panics. -/
def employeeNames : List IEmployeeStatus → Option (List String)
  | [] => some []
  | IEmployeeStatus.nil :: _ => none
  | IEmployeeStatus.Status _ name _ :: rest =>
    match employeeNames rest with
    | none => none
    | some names => some (name :: names)

/-- The method `CreateEmployees`. -/
def CreateEmployees {σ : Type} (env : AdapterEnv σ) (employer : Option Employer)
    (toCreate : List IEmployeeStatus) (s : σ) : Outcome (AdapterRun σ) :=
  match employer with
  | none => .returned ⟨⟨[], [], some "employer is nil"⟩, none, s, []⟩
  | some emp =>
    if toCreate.length = 0 then .returned ⟨⟨toCreate, [], none⟩, some emp, s, []⟩
    else
      match employeeNames toCreate with
      | none => .panic
      | some toAddNames =>
        match emp.Annotations with
        | none => .panic
        | some anno =>
          let added :=
            if mapGetD anno "demo-added-pods" "" = "" then stringsJoin toAddNames
            else mapGetD anno "demo-added-pods" "" ++ "," ++ stringsJoin toAddNames
          let emp1 := { emp with Annotations := some (mapSet anno "demo-added-pods" added) }
          match env.UpdateEmployer s emp1 with
          | (some e, s1) =>
            .returned ⟨⟨[], [], some e⟩, some emp1, s1, [AdapterEvent.UpdateEmployer emp1 (some e)]⟩
          | (none, s1) =>
            .returned ⟨⟨toCreate, [], none⟩, some emp1, s1, [AdapterEvent.UpdateEmployer emp1 none]⟩

/-- The loop of `UpdateEmployees`; `succUpdate` and `failUpdate` are the two slices
made with the length of `toUpdate`, filled up to `succUpdateIdx` and `failUpdateIdx`. -/
def updateLoop {σ : Type} (env : AdapterEnv σ) (emp : Employer) :
    List IEmployeeStatus → List IEmployeeStatus → List IEmployeeStatus → Nat → Nat → σ →
    Outcome (AdapterRun σ)
  | [], succUpdate, failUpdate, succUpdateIdx, failUpdateIdx, s =>
    .returned ⟨⟨succUpdate.take succUpdateIdx, failUpdate.take failUpdateIdx, none⟩,
      some emp, s, []⟩
  | employee :: rest, succUpdate, failUpdate, succUpdateIdx, failUpdateIdx, s =>
    match employee with
    | IEmployeeStatus.nil => .panic
    | IEmployeeStatus.Status _ name statuses =>
      match env.Get s emp.Namespace name with
      | (got, s1) =>
        match statuses with
        | EmployeeStatusesValue.Other => .panic
        | EmployeeStatusesValue.PodEmployeeStatuses podEmployeeStatus =>
          match got with
          | .error e =>
            .returned ⟨⟨succUpdate, failUpdate, some e⟩, some emp, s1,
              [AdapterEvent.Get emp.Namespace name (.error e)]⟩
          | .ok pod =>
            match podEmployeeStatus.ExtraStatus with
            | ExtraStatusValue.Other => .panic
            | ExtraStatusValue.PodExtraStatus extraStatus =>
              match pod.Labels with
              | none => .panic
              | some labels =>
                let labels1 :=
                  if extraStatus.TrafficOn then mapSet labels "demo-traffic-on" "true"
                  else labels
                let labels2 :=
                  mapSet labels1 "demo-traffic-weight" (toString extraStatus.TrafficWeight)
                let pod1 := { pod with Labels := some labels2 }
                match env.UpdatePod s1 pod1 with
                | (some e, s2) =>
                  (updateLoop env emp rest succUpdate (failUpdate.set failUpdateIdx employee)
                    succUpdateIdx (failUpdateIdx + 1) s2).after
                    [AdapterEvent.Get emp.Namespace name (.ok pod),
                     AdapterEvent.UpdatePod pod1 (some e)]
                | (none, s2) =>
                  (updateLoop env emp rest (succUpdate.set succUpdateIdx employee) failUpdate
                    (succUpdateIdx + 1) failUpdateIdx s2).after
                    [AdapterEvent.Get emp.Namespace name (.ok pod),
                     AdapterEvent.UpdatePod pod1 none]

/-- The method `UpdateEmployees`. -/
def UpdateEmployees {σ : Type} (env : AdapterEnv σ) (employer : Option Employer)
    (toUpdate : List IEmployeeStatus) (s : σ) : Outcome (AdapterRun σ) :=
  match employer with
  | none => .returned ⟨⟨[], [], some "employer is nil"⟩, none, s, []⟩
  | some emp =>
    if toUpdate.length = 0 then .returned ⟨⟨toUpdate, [], none⟩, some emp, s, []⟩
    else
      updateLoop env emp toUpdate (List.replicate toUpdate.length IEmployeeStatus.nil)
        (List.replicate toUpdate.length IEmployeeStatus.nil) 0 0 s

/-- The method `DeleteEmployees`. -/
def DeleteEmployees {σ : Type} (env : AdapterEnv σ) (employer : Option Employer)
    (toDelete : List IEmployeeStatus) (s : σ) : Outcome (AdapterRun σ) :=
  match employer with
  | none => .returned ⟨⟨[], [], some "employer is nil"⟩, none, s, []⟩
  | some emp =>
    if toDelete.length = 0 then .returned ⟨⟨toDelete, [], none⟩, some emp, s, []⟩
    else
      match employeeNames toDelete with
      | none => .panic
      | some toDeleteNames =>
        let addedPodNames :=
          (stringsSplit (mapGetD (emp.Annotations.getD []) "demo-added-pods" "")).filter
            (fun added => !decide (added ∈ toDeleteNames))
        match emp.Annotations with
        | none => .panic
        | some anno =>
          let emp1 :=
            { emp with
              Annotations := some (mapSet anno "demo-added-pods" (stringsJoin addedPodNames)) }
          match env.UpdateEmployer s emp1 with
          | (some e, s1) =>
            .returned ⟨⟨[], [], some e⟩, some emp1, s1, [AdapterEvent.UpdateEmployer emp1 (some e)]⟩
          | (none, s1) =>
            .returned ⟨⟨toDelete, [], none⟩, some emp1, s1, [AdapterEvent.UpdateEmployer emp1 none]⟩

/-! ## The observing methods of the adapter -/

/-- The method `(*metav1.Time).IsZero` on a deletion timestamp: true for the nil pointer
and for the zero time, the time `0`. -/
def IsZero (t : Option Nat) : Bool :=
  match t with
  | none => true
  | some n => n == 0

/-- What the observing methods use besides the store client of `AdapterEnv`: the list
call of the client, `resourceconsist.GetCommonPodEmployeeStatus`, which the given
sources do not define, `errors.IsNotFound` on the errors of the store, and the value
`strconv.Atoi` returns (its error is discarded by the caller). -/
structure ObserverEnv (σ : Type) extends AdapterEnv σ where
  List : σ → String → GoMap String → Except String (List Pod) × σ
  GetCommonPodEmployeeStatus : Pod → Except String PodEmployeeStatuses
  IsNotFound : String → Bool
  Atoi : String → Int

/-- A call of an observing method: the statuses or the error returned, the store
afterwards and the pod reads issued against the store. -/
structure ObserveRun (σ : Type) where
  result : Except String (List IEmployeeStatus)
  store : σ
  events : List AdapterEvent

/-- The status `GetExpectEmployeeStatus` builds for a pod with the common statuses
`employeeStatuses`: traffic is expected on, at weight 100, exactly when the pod is
lifecycle-ready. -/
def expectStatus (pod : Pod) (employeeStatuses : PodEmployeeStatuses) : IEmployeeStatus :=
  IEmployeeStatus.Status pod.Name pod.Name
    (EmployeeStatusesValue.PodEmployeeStatuses
      { employeeStatuses with
        ExtraStatus := ExtraStatusValue.PodExtraStatus
          (if employeeStatuses.LifecycleReady then { TrafficOn := true, TrafficWeight := 100 }
           else { TrafficOn := false, TrafficWeight := 0 }) })

/-- The loop of `GetExpectEmployeeStatus` over the pods listed. -/
def expectLoop {σ : Type} (env : ObserverEnv σ) :
    List Pod → Except String (List IEmployeeStatus)
  | [] => .ok []
  | pod :: rest =>
    if !IsZero pod.DeletionTimestamp then expectLoop env rest
    else
      match env.GetCommonPodEmployeeStatus pod with
      | .error e => .error e
      | .ok employeeStatuses =>
        match expectLoop env rest with
        | .error e => .error e
        | .ok expected => .ok (expectStatus pod employeeStatuses :: expected)

/-- The method `GetExpectEmployeeStatus`; the employer is a `*corev1.Service` when its
kind is `Service`. -/
def GetExpectEmployeeStatus {σ : Type} (env : ObserverEnv σ) (employer : Option Employer)
    (s : σ) : ObserveRun σ :=
  match employer with
  | none => ⟨.error "expect employer kind is Service", s, []⟩
  | some svc =>
    if svc.Kind ≠ "Service" then ⟨.error "expect employer kind is Service", s, []⟩
    else
      match env.List s svc.Namespace svc.Selector with
      | (.error e, s1) => ⟨.error e, s1, []⟩
      | (.ok podList, s1) => ⟨expectLoop env podList, s1, []⟩

/-- The status `GetCurrentEmployeeStatus` builds for the pod read under `podName`, with
the common statuses `employeeStatus`: the traffic state is read off the labels. -/
def currentStatus {σ : Type} (env : ObserverEnv σ) (podName : String) (pod : Pod)
    (employeeStatus : PodEmployeeStatuses) : IEmployeeStatus :=
  IEmployeeStatus.Status podName podName
    (EmployeeStatusesValue.PodEmployeeStatuses
      { employeeStatus with
        ExtraStatus := ExtraStatusValue.PodExtraStatus
          { TrafficOn := decide (mapGetD (pod.Labels.getD []) "demo-traffic-on" "" = "true")
            TrafficWeight :=
              if mapGetD (pod.Labels.getD []) "demo-traffic-weight" "" ≠ "" then
                env.Atoi (mapGetD (pod.Labels.getD []) "demo-traffic-weight" "")
              else 0 } })

/-- The loop of `GetCurrentEmployeeStatus` over the names listed in the annotation. -/
def currentLoop {σ : Type} (env : ObserverEnv σ) (ns : String) :
    List String → σ → ObserveRun σ
  | [], s => ⟨.ok [], s, []⟩
  | podName :: rest, s =>
    match env.Get s ns podName with
    | (.error e, s1) =>
      if env.IsNotFound e then
        { currentLoop env ns rest s1 with
          events := AdapterEvent.Get ns podName (.error e) :: (currentLoop env ns rest s1).events }
      else ⟨.error e, s1, [AdapterEvent.Get ns podName (.error e)]⟩
    | (.ok pod, s1) =>
      match env.GetCommonPodEmployeeStatus pod with
      | .error e => ⟨.error e, s1, [AdapterEvent.Get ns podName (.ok pod)]⟩
      | .ok employeeStatus =>
        match (currentLoop env ns rest s1).result with
        | .error e =>
          ⟨.error e, (currentLoop env ns rest s1).store,
            AdapterEvent.Get ns podName (.ok pod) :: (currentLoop env ns rest s1).events⟩
        | .ok current =>
          ⟨.ok (currentStatus env podName pod employeeStatus :: current),
            (currentLoop env ns rest s1).store,
            AdapterEvent.Get ns podName (.ok pod) :: (currentLoop env ns rest s1).events⟩

/-- The method `GetCurrentEmployeeStatus`. -/
def GetCurrentEmployeeStatus {σ : Type} (env : ObserverEnv σ) (employer : Option Employer)
    (s : σ) : ObserveRun σ :=
  match employer with
  | none => ⟨.error "expect employer kind is Service", s, []⟩
  | some svc =>
    if svc.Kind ≠ "Service" then ⟨.error "expect employer kind is Service", s, []⟩
    else if mapGetD (svc.Annotations.getD []) "demo-added-pods" "" = "" then ⟨.ok [], s, []⟩
    else
      currentLoop env svc.Namespace
        (stringsSplit (mapGetD (svc.Annotations.getD []) "demo-added-pods" "")) s

/-! ## `IsPodPvcTmpChanged` -/

/-- The first loop of `IsPodPvcTmpChanged`: the map `existingPvcHash` from claim name to
template-hash label. -/
def existingPvcHashLoop {σ : Type} (env : PvcEnv σ) (pod : Pod) :
    List PersistentVolumeClaim → GoMap String → GoMap String
  | [], existingPvcHash => existingPvcHash
  | pvc :: rest, existingPvcHash =>
    if pvc.Labels = none ∨ pod.Labels = none then
      existingPvcHashLoop env pod rest existingPvcHash
    else if mapGetD (pod.Labels.getD []) env.PodInstanceIDLabelKey ""
        ≠ mapGetD (pvc.Labels.getD []) env.PodInstanceIDLabelKey "" then
      existingPvcHashLoop env pod rest existingPvcHash
    else
      match mapGet (pvc.Labels.getD []) env.PvcTemplateHashLabelKey with
      | none => existingPvcHashLoop env pod rest existingPvcHash
      | some hash => existingPvcHashLoop env pod rest (mapSet existingPvcHash pvc.Name hash)

/-- The second loop of `IsPodPvcTmpChanged`, over the volumes of the pod. -/
def mountedChangedLoop (newHashMapping existingPvcHash : GoMap String) : List Volume → Bool
  | [] => false
  | volume :: rest =>
    match volume.PersistentVolumeClaim with
    | none => mountedChangedLoop newHashMapping existingPvcHash rest
    | some source =>
      if source.ClaimName = "" then mountedChangedLoop newHashMapping existingPvcHash rest
      else if mapGetD newHashMapping volume.Name "" ≠ mapGetD existingPvcHash source.ClaimName ""
      then true
      else mountedChangedLoop newHashMapping existingPvcHash rest

/-- The function `IsPodPvcTmpChanged`: the value and the error it returns. -/
def IsPodPvcTmpChanged {σ : Type} (env : PvcEnv σ) (cls : CollaSet) (pod : Pod)
    (existingPvcs : List PersistentVolumeClaim) : Bool × Option String :=
  match PvcTmpHashMapping env cls.VolumeClaimTemplates [] with
  | .error e => (false, some e)
  | .ok newHashMapping =>
    (mountedChangedLoop newHashMapping (existingPvcHashLoop env pod existingPvcs []) pod.Volumes,
     none)

/-! ## `SetPvcsOwnerRef` -/

/-- What `SetPvcsOwnerRef` uses of `refmanagerutil`, which the given sources do not
define: the error of `NewRefManager`, if any, and `ClaimOwned`, which returns the
candidates it adopted. -/
structure RefEnv (σ : Type) where
  NewRefManager : CollaSet → Option String
  ClaimOwned : σ → CollaSet → List PersistentVolumeClaim →
    Except String (List PersistentVolumeClaim) × σ

/-- What `SetPvcsOwnerRef` returns, a slice of pointers, `none` the nil pointer, and an
error, with the store afterwards. -/
structure OwnerRefs (σ : Type) where
  claims : List (Option PersistentVolumeClaim)
  err : Option String
  store : σ

/-- The loop `for i, mt := range claims { claimPvcs[i] = mt }` from index `i` on; an
index outside `claimPvcs` panics, `none`. -/
def setClaims : List PersistentVolumeClaim → Nat → List (Option PersistentVolumeClaim) →
    Option (List (Option PersistentVolumeClaim))
  | [], _, claimPvcs => some claimPvcs
  | mt :: rest, i, claimPvcs =>
    if i < claimPvcs.length then setClaims rest (i + 1) (claimPvcs.set i (some mt))
    else none

/-- The method `SetPvcsOwnerRef`; `claimPvcs` is made with the length of `pvcs`, every
entry the nil pointer. -/
def SetPvcsOwnerRef {σ : Type} (env : RefEnv σ) (cls : CollaSet)
    (pvcs : List PersistentVolumeClaim) (s : σ) : Outcome (OwnerRefs σ) :=
  match cls.MatchLabels with
  | none => .returned ⟨List.replicate pvcs.length none, none, s⟩
  | some _ =>
    match env.NewRefManager cls with
    | some e =>
      .returned ⟨List.replicate pvcs.length none, some ("fail to create ref manager: " ++ e), s⟩
    | none =>
      match env.ClaimOwned s cls pvcs with
      | (.error e, s1) => .returned ⟨List.replicate pvcs.length none, some e, s1⟩
      | (.ok claims, s1) =>
        match setClaims claims 0 (List.replicate pvcs.length none) with
        | none => .panic
        | some claimPvcs => .returned ⟨claimPvcs, none, s1⟩

/-! ## The mutating webhook of CollaSet -/

/-- The fields of `admission.Request` the handler reads: the operation and the raw
object. -/
structure Request where
  Operation : String
  Raw : String
  deriving DecidableEq, Repr

/-- The fields of `admission.Response`: the decision, the code and the message of the
result, and the patch, if any. -/
structure Response where
  Allowed : Bool
  Code : Nat
  Message : String
  Patches : Option String
  deriving DecidableEq, Repr

/-- The response `admission.Allowed(reason)` of controller-runtime: allowed, with the
code 200 and no patch. -/
def admission.Allowed (reason : String) : Response :=
  { Allowed := true, Code := 200, Message := reason, Patches := none }

/-- The response `admission.Errored(code, err)` of controller-runtime: not allowed, with
the code and the message of the error. -/
def admission.Errored (code : Nat) (err : String) : Response :=
  { Allowed := false, Code := code, Message := err, Patches := none }

/-- What the handler uses and the given sources do not define: the decoder, the
defaulting of a pod spec by Kubernetes, the name of the in-place update policy,
`json.Marshal`, the client, `errors.IsNotFound` and `admission.PatchResponseFromRaw`. -/
structure WebhookEnv (σ : Type) where
  Decode : Request → Except String CollaSet
  SetDefaults_PodSpec : String → String
  CollaSetInPlaceIfPossiblePodUpdateStrategyType : String
  Marshal : CollaSet → Except String String
  Get : σ → String → String → Except String Pod × σ
  IsNotFound : String → Bool
  PatchResponseFromRaw : String → String → Response

/-- The function `SetDefaultPodSpec` of `defaults.go`, on the opaque pod spec: every
default it sets is one of Kubernetes. -/
def SetDefaultPodSpec {σ : Type} (env : WebhookEnv σ) (cls : CollaSet) : CollaSet :=
  { cls with Template := env.SetDefaults_PodSpec cls.Template }

/-- The function `SetDefaultCollaSetUpdateStrategy` of `defaults.go`. -/
def SetDefaultCollaSetUpdateStrategy {σ : Type} (env : WebhookEnv σ) (cls : CollaSet) :
    CollaSet :=
  let cls1 :=
    if cls.PodUpdatePolicy = "" then
      { cls with PodUpdatePolicy := env.CollaSetInPlaceIfPossiblePodUpdateStrategyType }
    else cls
  let rollingUpdate : RollingUpdateCollaSetStrategy :=
    match cls1.RollingUpdate with
    | none => { ByPartition := none, ByLabel := none }
    | some r => r
  if rollingUpdate.ByPartition = none ∧ rollingUpdate.ByLabel = none then
    { cls1 with
      RollingUpdate := some { rollingUpdate with ByPartition := some { Partition := none } } }
  else { cls1 with RollingUpdate := some rollingUpdate }

/-- The function `SetDefaultCollaSet` of `defaults.go`, which the handler calls under
the name `SetDetaultCollaSet`. -/
def SetDefaultCollaSet {σ : Type} (env : WebhookEnv σ) (cls : CollaSet) : CollaSet :=
  SetDefaultCollaSetUpdateStrategy env (SetDefaultPodSpec env cls)

/-- A call of the handler: the response, the store afterwards and the pod reads issued
against the store. -/
structure HandleRun (σ : Type) where
  response : Response
  store : σ
  events : List AdapterEvent

/-- The inner loop of the handler over the owner references of a pod. -/
def ownedLoop (cls : CollaSet) : List OwnerReference → Bool → Bool
  | [], owned => owned
  | ref :: rest, owned => ownedLoop cls rest (if ref.Name = cls.Name then true else owned)

/-- The loop of the handler over `cls.Spec.ScaleStrategy.PodToDelete`; `final` is the
response returned after the loop. -/
def podToDeleteLoop {σ : Type} (env : WebhookEnv σ) (cls : CollaSet) (final : Response) :
    List String → σ → HandleRun σ
  | [], s => ⟨final, s, []⟩
  | podName :: rest, s =>
    match env.Get s cls.Namespace podName with
    | (.error e, s1) =>
      if env.IsNotFound e then
        ⟨admission.Errored 400 ("no found Pod named " ++ podName ++ " to delete"), s1,
          [AdapterEvent.Get cls.Namespace podName (.error e)]⟩
      else
        ⟨admission.Errored 500 ("failed to find Pod " ++ podName ++ ": " ++ e), s1,
          [AdapterEvent.Get cls.Namespace podName (.error e)]⟩
    | (.ok pod, s1) =>
      if !ownedLoop cls pod.OwnerReferences false then
        ⟨admission.Errored 400
            ("not allwed to delete pod " ++ podName ++ " which is not owned by collaset " ++
              cls.Name), s1,
          [AdapterEvent.Get cls.Namespace podName (.ok pod)]⟩
      else
        { podToDeleteLoop env cls final rest s1 with
          events := AdapterEvent.Get cls.Namespace podName (.ok pod) ::
            (podToDeleteLoop env cls final rest s1).events }

/-- The method `MutatingHandler.Handle`; `CREATE` and `UPDATE` are the values of
`admissionv1.Create` and `admissionv1.Update`. -/
def Handle {σ : Type} (env : WebhookEnv σ) (req : Request) (s : σ) : HandleRun σ :=
  if req.Operation ≠ "UPDATE" ∧ req.Operation ≠ "CREATE" then ⟨admission.Allowed "", s, []⟩
  else
    match env.Decode req with
    | .error e => ⟨admission.Errored 400 e, s, []⟩
    | .ok decoded =>
      match env.Marshal (SetDefaultCollaSet env decoded) with
      | .error e => ⟨admission.Errored 500 e, s, []⟩
      | .ok marshalled =>
        podToDeleteLoop env (SetDefaultCollaSet env decoded)
          (env.PatchResponseFromRaw req.Raw marshalled)
          (SetDefaultCollaSet env decoded).PodToDelete s

/-! ## Specification-side notions -/

/-- The last element of a list that satisfies `p`. -/
def lastMatch {α : Type} (p : α → Bool) : List α → Option α
  | [] => none
  | a :: rest =>
    match lastMatch p rest with
    | some b => some b
    | none => if p a then some a else none

/-- The template-hash label of a claim that is eligible for instance `id`: not
terminating, carrying the instance-id label with value `id` and a template-hash label. -/
def eligibleHash {σ : Type} (env : PvcEnv σ) (id : String) (pvc : PersistentVolumeClaim) :
    Option String :=
  if pvc.DeletionTimestamp ≠ none then none
  else
    match pvc.Labels with
    | none => none
    | some labels =>
      if mapGet labels env.PodInstanceIDLabelKey = some id then
        mapGet labels env.PvcTemplateHashLabelKey
      else none

/-- An eligible claim of template name `k` whose hash is the live hash of `k`. -/
def isCurrent {σ : Type} (env : PvcEnv σ) (cls : CollaSet) (id : String)
    (newTmpHash : GoMap String) (k : String) (pvc : PersistentVolumeClaim) : Bool :=
  match eligibleHash env id pvc with
  | none => false
  | some hash =>
    decide (env.ExtractPvcTmpName cls pvc = .ok k) && decide (mapGetD newTmpHash k "" = hash)

/-- An eligible claim of template name `k` whose hash is not the live hash of `k`. -/
def isStale {σ : Type} (env : PvcEnv σ) (cls : CollaSet) (id : String)
    (newTmpHash : GoMap String) (k : String) (pvc : PersistentVolumeClaim) : Bool :=
  match eligibleHash env id pvc with
  | none => false
  | some hash =>
    decide (env.ExtractPvcTmpName cls pvc = .ok k) && !decide (mapGetD newTmpHash k "" = hash)

/-- The store creates among the calls issued, oldest first: the claim submitted and
what the store returned. -/
def createsOf : List PvcEvent → List (PersistentVolumeClaim × Except String PersistentVolumeClaim)
  | [] => []
  | PvcEvent.Create claim result :: rest => (claim, result) :: createsOf rest
  | _ :: rest => createsOf rest

/-- The claims for which a store delete was issued, oldest first. -/
def deletesOf : List PvcEvent → List PersistentVolumeClaim
  | [] => []
  | PvcEvent.Delete claim _ :: rest => claim :: deletesOf rest
  | _ :: rest => deletesOf rest

/-- Expectations follow successes: the calls are a sequence of successful store
mutations, each directly followed by the one matching expectation call (owner `cls`,
kind Pvc, the name of the mutated claim), possibly ended by one failed store mutation. -/
def expectedAfterSuccess (cls : CollaSet) : List PvcEvent → Bool
  | [] => true
  | PvcEvent.Create _ (.ok created) :: PvcEvent.ExpectCreate c kind name _ :: rest =>
    decide (c = cls) && decide (kind = ExpectedResourceType.Pvc) && decide (name = created.Name)
      && expectedAfterSuccess cls rest
  | PvcEvent.Delete pvc none :: PvcEvent.ExpectDelete c kind name _ :: rest =>
    decide (c = cls) && decide (kind = ExpectedResourceType.Pvc) && decide (name = pvc.Name)
      && expectedAfterSuccess cls rest
  | [PvcEvent.Create _ (.error _)] => true
  | [PvcEvent.Delete _ (some _)] => true
  | _ => false

/-- A store mutation: a create or a delete. -/
def isMutation : PvcEvent → Bool
  | PvcEvent.Create _ _ => true
  | PvcEvent.Delete _ _ => true
  | _ => false

/-- A store mutation that succeeded. -/
def isSuccess : PvcEvent → Bool
  | PvcEvent.Create _ (.ok _) => true
  | PvcEvent.Delete _ none => true
  | _ => false

/-- An expectation call. -/
def isExpectation : PvcEvent → Bool
  | PvcEvent.ExpectCreate _ _ _ _ => true
  | PvcEvent.ExpectDelete _ _ _ _ => true
  | _ => false

/-- The call `e` is the expectation for the claim of the store mutation `ev`: the same
action, kind Pvc and the name of the claim (for a create, the name the store gave it). -/
def expects (e ev : PvcEvent) : Bool :=
  match ev, e with
  | PvcEvent.Create _ (.ok created), PvcEvent.ExpectCreate _ kind name _ =>
    decide (kind = ExpectedResourceType.Pvc) && decide (name = created.Name)
  | PvcEvent.Create claim (.error _), PvcEvent.ExpectCreate _ kind name _ =>
    decide (kind = ExpectedResourceType.Pvc) && decide (name = claim.Name)
  | PvcEvent.Delete pvc _, PvcEvent.ExpectDelete _ kind name _ =>
    decide (kind = ExpectedResourceType.Pvc) && decide (name = pvc.Name)
  | _, _ => false

/-- Every store mutation finds its expectation among the calls issued before it;
`seen` are the calls issued so far. -/
def expectationFirstFrom (seen : List PvcEvent) : List PvcEvent → Bool
  | [] => true
  | ev :: rest =>
    (!isMutation ev || seen.any (fun e => expects e ev))
      && expectationFirstFrom (seen ++ [ev]) rest

/-- The expectation of every store mutation is recorded before the mutation is issued. -/
def expectationFirst (evs : List PvcEvent) : Bool :=
  expectationFirstFrom [] evs

/-- The expectation of every successful store mutation is the very next call, and every
expectation call comes directly after the successful store mutation it is for; `prev`
is the call issued last. -/
def expectationNextFrom (prev : Option PvcEvent) : List PvcEvent → Bool
  | [] => true
  | ev :: rest =>
    (!isSuccess ev ||
      (match rest with
       | e :: _ => expects e ev
       | [] => false))
    && (!isExpectation ev ||
      (match prev with
       | some m => isSuccess m && expects ev m
       | none => false))
    && expectationNextFrom (some ev) rest

/-- The expectations are recorded right after the successful store mutations. -/
def expectationNext (evs : List PvcEvent) : Bool :=
  expectationNextFrom none evs

/-- Repeated sync cycles: `DeletePodUnusedPvcs` is called once for each observed list of
claims, each call starting from the store the one before left; the calls of all cycles. -/
def DeletePodUnusedPvcsCycles {σ : Type} (env : PvcEnv σ) (cls : CollaSet) (pod : Pod) :
    List (List PersistentVolumeClaim) → σ → List PvcEvent
  | [], _ => []
  | existingPvcs :: later, s =>
    (DeletePodUnusedPvcs env cls pod existingPvcs s).events ++
      DeletePodUnusedPvcsCycles env cls pod later (DeletePodUnusedPvcs env cls pod existingPvcs s).store

/-- Delete the claims of a list in order, recording the expectation after each
successful delete and stopping at the first error: what the three deleting loops do
with the claims they do not skip. -/
def deleteEach {σ : Type} (env : PvcEnv σ) (cls : CollaSet) :
    List PersistentVolumeClaim → σ → Run σ (Option String)
  | [], s => ⟨none, s, []⟩
  | pvc :: rest, s =>
    match env.Delete s pvc with
    | (some e, s1) => ⟨some e, s1, [PvcEvent.Delete pvc (some e)]⟩
    | (none, s1) =>
      match env.ExpectDelete s1 cls ExpectedResourceType.Pvc pvc.Name with
      | (some e, s2) =>
        ⟨some e, s2,
          [PvcEvent.Delete pvc none,
           PvcEvent.ExpectDelete cls ExpectedResourceType.Pvc pvc.Name (some e)]⟩
      | (none, s2) =>
        (deleteEach env cls rest s2).after
          [PvcEvent.Delete pvc none,
           PvcEvent.ExpectDelete cls ExpectedResourceType.Pvc pvc.Name none]

/-- The claims `DeletePodPvcs` does not skip. -/
def sameInstance {σ : Type} (env : PvcEnv σ) (pod : Pod) (pvc : PersistentVolumeClaim) : Bool :=
  !decide (pvc.Labels = none ∨ pod.Labels = none) &&
    decide (mapGetD (pvc.Labels.getD []) env.PodInstanceIDLabelKey ""
      = mapGetD (pod.Labels.getD []) env.PodInstanceIDLabelKey "")

/-- The instance id of a pod: the value of its instance-id label. -/
def podInstanceID {σ : Type} (env : PvcEnv σ) (pod : Pod) : Option String :=
  match pod.Labels with
  | none => none
  | some labels => mapGet labels env.PodInstanceIDLabelKey

/-- The template name under which the code files a claim as stale: the claim is eligible
for instance `id` and the comparison of `classifyPodPvcs`, `newTmpHash[pvcTmpName] == hash`
with the single-value lookup, fails. This is the classification of the code, not that of
the specification: an undeclared template name is looked up as the empty string. -/
def staleName {σ : Type} (env : PvcEnv σ) (cls : CollaSet) (id : String)
    (newTmpHash : GoMap String) (pvc : PersistentVolumeClaim) : Option String :=
  match eligibleHash env id pvc with
  | none => none
  | some hash =>
    match env.ExtractPvcTmpName cls pvc with
    | .error _ => none
    | .ok k => if mapGetD newTmpHash k "" = hash then none else some k

/-- The template name under which the code files a claim as current: the claim is
eligible for instance `id` and the comparison of `classifyPodPvcs`,
`newTmpHash[pvcTmpName] == hash` with the single-value lookup, holds. This is the
classification of the code, not that of the specification: an undeclared template name
is looked up as the empty string. -/
def currentName {σ : Type} (env : PvcEnv σ) (cls : CollaSet) (id : String)
    (newTmpHash : GoMap String) (pvc : PersistentVolumeClaim) : Option String :=
  match eligibleHash env id pvc with
  | none => none
  | some hash =>
    match env.ExtractPvcTmpName cls pvc with
    | .error _ => none
    | .ok k => if mapGetD newTmpHash k "" = hash then some k else none

/-- The template name of a claim that is current by the specification: the claim is
eligible for instance `id`, a template of its name is declared, and its hash is the live
hash of that template. -/
def liveCurrentName {σ : Type} (env : PvcEnv σ) (cls : CollaSet) (id : String)
    (newTmpHash : GoMap String) (pvc : PersistentVolumeClaim) : Option String :=
  match eligibleHash env id pvc with
  | none => none
  | some hash =>
    match env.ExtractPvcTmpName cls pvc with
    | .error _ => none
    | .ok k => if mapGet newTmpHash k = some hash then some k else none

/-- The template name of a claim that is stale by the specification: the claim is
eligible for instance `id` and either no template of its name is declared or its hash
differs from the live hash of that template. -/
def liveStaleName {σ : Type} (env : PvcEnv σ) (cls : CollaSet) (id : String)
    (newTmpHash : GoMap String) (pvc : PersistentVolumeClaim) : Option String :=
  match eligibleHash env id pvc with
  | none => none
  | some hash =>
    match env.ExtractPvcTmpName cls pvc with
    | .error _ => none
    | .ok k => if mapGet newTmpHash k = some hash then none else some k

/-- The employee is not the nil interface, its statuses are `PodEmployeeStatuses` and
its extra status is a `PodExtraStatus`. -/
def wellTyped : IEmployeeStatus → Bool
  | IEmployeeStatus.Status _ _ (EmployeeStatusesValue.PodEmployeeStatuses
      ⟨_, ExtraStatusValue.PodExtraStatus _⟩) => true
  | _ => false

/-- The name `GetEmployeeName()` of an employee, the empty name for the nil interface. -/
def employeeName : IEmployeeStatus → String
  | IEmployeeStatus.Status _ name _ => name
  | IEmployeeStatus.nil => ""

/-- The outcomes of the pod updates issued, oldest first: `true` for a success. -/
def updateOutcomes : List AdapterEvent → List Bool
  | [] => []
  | AdapterEvent.UpdatePod _ err :: rest => err.isNone :: updateOutcomes rest
  | _ :: rest => updateOutcomes rest

/-- The names of the pods read from the store, oldest first. -/
def readNames : List AdapterEvent → List String
  | [] => []
  | AdapterEvent.Get _ name _ :: rest => name :: readNames rest
  | _ :: rest => readNames rest

/-- The elements of a list whose flag, at the same position, is `b`. -/
def pick {α : Type} (b : Bool) : List α → List Bool → List α
  | a :: l, f :: fs => if f = b then a :: pick b l fs else pick b l fs
  | _, _ => []

/-- What a call returned, when it returned. -/
def Outcome.result? {σ : Type} : Outcome (AdapterRun σ) → Option Employees
  | .panic => none
  | .returned r => some r.result

/-- The claims `deleteUnclaimedPvcs` does not skip, in the order it visits them. -/
def unclaimedOf {σ : Type} (env : PvcEnv σ) (cls : CollaSet)
    (oldPvcs : GoMap PersistentVolumeClaim) (s : σ) : List PersistentVolumeClaim :=
  ((env.range s oldPvcs).filter
    (fun kv => !decide (kv.1 ∈ cls.VolumeClaimTemplates.map (·.Name)))).map Prod.snd

/-- The claims `deleteOldPvcs` does not skip, in the order it visits them. -/
def replacedOf {σ : Type} (env : PvcEnv σ) (newPvcs oldPvcs : GoMap PersistentVolumeClaim)
    (s : σ) : List PersistentVolumeClaim :=
  ((env.range s oldPvcs).filter (fun kv => mapHas newPvcs kv.1)).map Prod.snd

/-- The value of the annotation `demo-added-pods` of an employer, the empty string when
the employer, the annotation map or the annotation is missing. -/
def addedPods (employer : Option Employer) : String :=
  match employer with
  | none => ""
  | some emp => mapGetD (emp.Annotations.getD []) "demo-added-pods" ""

/-- The statuses of the pods read successfully, oldest first, where `st` gives the common
statuses of a pod. -/
def foundStatuses {σ : Type} (env : ObserverEnv σ) (st : Pod → PodEmployeeStatuses) :
    List AdapterEvent → List IEmployeeStatus
  | [] => []
  | AdapterEvent.Get _ name (.ok pod) :: rest =>
    currentStatus env name pod (st pod) :: foundStatuses env st rest
  | _ :: rest => foundStatuses env st rest

/-- The claim carries the instance-id label with the value `id`. -/
def carriesInstance {σ : Type} (env : PvcEnv σ) (id : String) (pvc : PersistentVolumeClaim) :
    Bool :=
  match pvc.Labels with
  | none => false
  | some labels => decide (mapGet labels env.PodInstanceIDLabelKey = some id)

/-- The template-hash label of a claim, if it carries one. -/
def hashLabel {σ : Type} (env : PvcEnv σ) (pvc : PersistentVolumeClaim) : Option String :=
  match pvc.Labels with
  | none => none
  | some labels => mapGet labels env.PvcTemplateHashLabelKey

/-- The template-hash label of the claim named `claimName`, looked up among the existing
claims that carry the instance id `id` and a hash label, the last of them when there are
several; the empty string when there is none. -/
def mountedHash {σ : Type} (env : PvcEnv σ) (id : String)
    (existing : List PersistentVolumeClaim) (claimName : String) : String :=
  match lastMatch
      (fun pvc => carriesInstance env id pvc && (hashLabel env pvc).isSome &&
        decide (pvc.Name = claimName)) existing with
  | some pvc => (hashLabel env pvc).getD ""
  | none => ""

/-- The volume mounts a claim with a non-empty claim name, and the live hash of the
template named like the volume, the empty string when none is declared, differs from the
hash label of the mounted claim. -/
def volumeChanged {σ : Type} (env : PvcEnv σ) (newHashMapping : GoMap String) (id : String)
    (existing : List PersistentVolumeClaim) (volume : Volume) : Bool :=
  match volume.PersistentVolumeClaim with
  | none => false
  | some source =>
    decide (source.ClaimName ≠ "") &&
      decide (mapGetD newHashMapping volume.Name "" ≠
        mountedHash env id existing source.ClaimName)

/-! ## A concrete environment -/

/-- The characters of `cs` after the leading characters `ps`, when it starts with them. -/
def dropLeading : List Char → List Char → Option (List Char)
  | [], cs => some cs
  | _ :: _, [] => none
  | p :: ps, c :: cs => if p = c then dropLeading ps cs else none

/-- The template name in a claim name of the form `<set>-<template>-<suffix>`. -/
def exampleExtract (cls : CollaSet) (pvc : PersistentVolumeClaim) : Except String String :=
  match (pvc.Name.data.reverse.dropWhile (fun c => c ≠ '-')) with
  | [] => .error "pvc has no postfix"
  | _ :: front =>
    match dropLeading (cls.Name.data ++ ['-']) front.reverse with
    | none => .error "malformed pvc name"
    | some tmp => .ok (String.mk tmp)

/-- An example environment over a store that counts the calls it served.  The hash of
a template is its spec; a claim is built with the name `<set>-<template>-`, to which
the store appends a suffix; deleting a claim named in `failDelete` fails, and so does
recording an expectation for a name in `failExpect`. -/
def exampleEnv (failDelete failExpect : List String) : PvcEnv Nat where
  PodInstanceIDLabelKey := "collaset.kusionstack.io/instance-id"
  PvcTemplateHashLabelKey := "collaset.kusionstack.io/pvc-template-hash"
  PvcTmpHash := fun pvcTmp => .ok pvcTmp.Spec
  ExtractPvcTmpName := exampleExtract
  BuildPvcWithHash := fun cls pvcTmp id =>
    .ok { Name := cls.Name ++ "-" ++ pvcTmp.Name ++ "-"
          Namespace := cls.Namespace
          Labels := some [("collaset.kusionstack.io/instance-id", id),
                          ("collaset.kusionstack.io/pvc-template-hash", pvcTmp.Spec)]
          DeletionTimestamp := none
          Spec := pvcTmp.Spec }
  PvcPolicyWhenScaled := fun cls =>
    cls.WhenScaled.getD PersistentVolumeClaimRetentionPolicyType.Delete
  Create := fun s claim => (.ok { claim with Name := claim.Name ++ "x" }, s + 1)
  Delete := fun s pvc =>
    (if pvc.Name ∈ failDelete then some "delete refused" else none, s + 1)
  ExpectCreate := fun s _ _ name =>
    (if name ∈ failExpect then some "expectation refused" else none, s)
  ExpectDelete := fun s _ _ name =>
    (if name ∈ failExpect then some "expectation refused" else none, s)
  range := fun _ m => m
  range_perm := fun _ _ => List.Perm.refl _

/-- The example environment with a store that refuses every create. -/
def exampleRefusingEnv : PvcEnv Nat :=
  { exampleEnv [] [] with Create := fun s _ => (.error "create refused", s + 1) }

/-- A template `name` with spec `spec`. -/
def exampleTemplate (name spec : String) : PersistentVolumeClaim :=
  { Name := name, Namespace := "", Labels := none, DeletionTimestamp := none, Spec := spec }

/-- A claim `name` of instance `id` made from a template with spec `hash`. -/
def exampleClaim (name id hash : String) : PersistentVolumeClaim :=
  { Name := name
    Namespace := "default"
    Labels := some [("collaset.kusionstack.io/instance-id", id),
                    ("collaset.kusionstack.io/pvc-template-hash", hash)]
    DeletionTimestamp := none
    Spec := hash }

/-- The CollaSet `web` with the given templates and when-scaled policy. -/
def exampleSet (templates : List PersistentVolumeClaim)
    (whenScaled : Option PersistentVolumeClaimRetentionPolicyType) : CollaSet :=
  { Name := "web", Namespace := "default", VolumeClaimTemplates := templates,
    WhenScaled := whenScaled }

/-- The pod of instance `0`. -/
def examplePod : Pod :=
  { Name := "web-0"
    Namespace := "default"
    Labels := some [("collaset.kusionstack.io/instance-id", "0")]
    DeletionTimestamp := none
    Volumes := [] }

/-- An example store for the adapter, counting the updates it served: every pod can be
read and has the label map `labels`; the update of a pod named in `failNames` fails,
and so does every update from the `failFrom`-th on. -/
def exampleAdapterEnv (labels : Option (GoMap String)) (failNames : List String)
    (failFrom : Nat) : AdapterEnv Nat where
  Get := fun s ns name =>
    (.ok { Name := name, Namespace := ns, Labels := labels, DeletionTimestamp := none,
           Volumes := [] }, s)
  UpdatePod := fun s pod =>
    (if pod.Name ∈ failNames ∨ failFrom ≤ s then some "update refused" else none, s + 1)
  UpdateEmployer := fun s _ => (none, s + 1)

/-- An example store whose reads all fail. -/
def exampleUnreadableEnv : AdapterEnv Nat where
  Get := fun s _ _ => (.error "connection refused", s)
  UpdatePod := fun s _ => (none, s + 1)
  UpdateEmployer := fun s _ => (none, s + 1)

/-- The employee `name` with traffic switched on at weight 100. -/
def exampleEmployee (name : String) : IEmployeeStatus :=
  IEmployeeStatus.Status name name
    (EmployeeStatusesValue.PodEmployeeStatuses
      { LifecycleReady := true
        ExtraStatus := ExtraStatusValue.PodExtraStatus { TrafficOn := true, TrafficWeight := 100 } })

/-- The Service `demo`. -/
def exampleService : Employer :=
  { Kind := "Service", Namespace := "default", Name := "demo", Annotations := some [],
    Selector := [("app", "demo")] }

/-- A pod that carries labels but no instance id. -/
def exampleUnlabelledPod : Pod :=
  { Name := "batch-0", Namespace := "default", Labels := some [("app", "batch")],
    DeletionTimestamp := none, Volumes := [] }

/-- A claim `name` that carries labels but no instance id. -/
def exampleForeignClaim (name : String) : PersistentVolumeClaim :=
  { Name := name, Namespace := "default", Labels := some [("app", "db")],
    DeletionTimestamp := none, Spec := "" }

/-- The pod of instance `0`, mounting the claim `web-data-a` as `data` next to a volume
`config` of another kind. -/
def exampleMountedPod : Pod :=
  { examplePod with
    Volumes :=
      [{ Name := "data"
         PersistentVolumeClaim := some { ClaimName := "web-data-a", ReadOnly := false }
         Other := "" },
       { Name := "config", PersistentVolumeClaim := none, Other := "configMap" }] }

/-- The pod `exampleMountedPod` with the volumes `logs` and `data` mounting the claims
`web-logs-b` and `web-data-x`, followed by the volume `config`. -/
def exampleRemountedPod : Pod :=
  { examplePod with
    Volumes :=
      [{ Name := "logs"
         PersistentVolumeClaim := some { ClaimName := "web-logs-b", ReadOnly := false }
         Other := "" },
       { Name := "data"
         PersistentVolumeClaim := some { ClaimName := "web-data-x", ReadOnly := false }
         Other := "" },
       { Name := "config", PersistentVolumeClaim := none, Other := "configMap" }] }

/-- The pod `name` of the namespace `default` with the label map `labels`. -/
def examplePodNamed (name : String) (labels : Option (GoMap String)) : Pod :=
  { Name := name, Namespace := "default", Labels := labels, DeletionTimestamp := none,
    Volumes := [] }

/-- An example environment of the observing methods over the pods `pods`: a pod is read
by name, a missing pod named in `unreachable` fails with a connection error and any
other missing pod is not found; the common statuses of a pod named in `broken` cannot be
computed, and a pod is lifecycle-ready unless named in `unready`. -/
def exampleObserverEnv (pods : List Pod) (unreachable broken unready : List String) :
    ObserverEnv Nat where
  Get := fun s _ name =>
    match pods.find? (fun p => decide (p.Name = name)) with
    | some pod => (.ok pod, s)
    | none => (.error (if name ∈ unreachable then "connection refused" else "not found"), s)
  UpdatePod := fun s _ => (none, s + 1)
  UpdateEmployer := fun s _ => (none, s + 1)
  List := fun s _ _ => (.ok pods, s)
  GetCommonPodEmployeeStatus := fun pod =>
    if pod.Name ∈ broken then .error "no status"
    else .ok { LifecycleReady := decide (pod.Name ∉ unready), ExtraStatus := ExtraStatusValue.Other }
  IsNotFound := fun e => decide (e = "not found")
  Atoi := fun v => if v = "100" then 100 else 0

/-- The employee `name` with traffic switched off at weight 0. -/
def exampleIdleEmployee (name : String) : IEmployeeStatus :=
  IEmployeeStatus.Status name name
    (EmployeeStatusesValue.PodEmployeeStatuses
      { LifecycleReady := false
        ExtraStatus := ExtraStatusValue.PodExtraStatus { TrafficOn := false, TrafficWeight := 0 } })

/-- The employee `name` whose statuses are not `PodEmployeeStatuses`. -/
def exampleForeignEmployee (name : String) : IEmployeeStatus :=
  IEmployeeStatus.Status name name EmployeeStatusesValue.Other

/-- The employee `name` whose extra status is not a `PodExtraStatus`. -/
def exampleBareEmployee (name : String) : IEmployeeStatus :=
  IEmployeeStatus.Status name name
    (EmployeeStatusesValue.PodEmployeeStatuses
      { LifecycleReady := true, ExtraStatus := ExtraStatusValue.Other })

/-- The Service `demo` whose annotation `demo-added-pods` has the value `added`. -/
def exampleServiceListing (added : String) : Employer :=
  { exampleService with Annotations := some [("demo-added-pods", added)] }

/-- The pod `name` of the namespace `default`, without labels, being deleted since the
time `t`. -/
def exampleTerminatingPod (name : String) (t : Nat) : Pod :=
  { Name := name, Namespace := "default", Labels := none, DeletionTimestamp := some t,
    Volumes := [] }

/-- The common statuses of a pod in `exampleObserverEnv` when none is broken. -/
def exampleStatuses (unready : List String) (pod : Pod) : PodEmployeeStatuses :=
  { LifecycleReady := decide (pod.Name ∉ unready), ExtraStatus := ExtraStatusValue.Other }

/-- An example ownership manager over a store that counts the calls it served: it can
always be created, and it adopts the candidates named in `adopted`. -/
def exampleRefEnv (adopted : List String) : RefEnv Nat where
  NewRefManager := fun _ => none
  ClaimOwned := fun s _ pvcs => (.ok (pvcs.filter (fun pvc => decide (pvc.Name ∈ adopted))), s + 1)

/-- The CollaSet `web` with the selector `app = web`. -/
def exampleSelectingSet : CollaSet :=
  { exampleSet [] none with MatchLabels := some [("app", "web")] }

/-- The CollaSet `web` that names the pods `names` to delete. -/
def exampleScalingSet (names : List String) : CollaSet :=
  { exampleSet [] none with PodToDelete := names }

/-- The pod `name` of the namespace `default` with one owner reference, to the object
`owner` of kind `kind`. -/
def exampleOwnedPod (name kind owner : String) : Pod :=
  { Name := name, Namespace := "default", Labels := none, DeletionTimestamp := none,
    Volumes := [],
    OwnerReferences := [{ APIVersion := "apps/v1", Kind := kind, Name := owner, UID := "1" }] }

/-- An example environment of the webhook: every request decodes to `cls`, the store
holds the pods `pods`, a missing pod named in `unreachable` fails with a connection
error and any other missing pod is not found; the patch is the marshalled object. -/
def exampleWebhookEnv (cls : CollaSet) (pods : List Pod) (unreachable : List String) :
    WebhookEnv Nat where
  Decode := fun _ => .ok cls
  SetDefaults_PodSpec := fun spec => spec
  CollaSetInPlaceIfPossiblePodUpdateStrategyType := "InPlaceIfPossible"
  Marshal := fun c => .ok c.Name
  Get := fun s _ name =>
    match pods.find? (fun p => decide (p.Name = name)) with
    | some pod => (.ok pod, s)
    | none => (.error (if name ∈ unreachable then "connection refused" else "not found"), s)
  IsNotFound := fun e => decide (e = "not found")
  PatchResponseFromRaw := fun _ marshalled =>
    { Allowed := true, Code := 200, Message := "", Patches := some marshalled }

/-- A pod without an instance id, with the label map `labels`, that mounts the claim
`web-data-a` as the volume `data`. -/
def exampleStrayPod (labels : Option (GoMap String)) : Pod :=
  { Name := "batch-0", Namespace := "default", Labels := labels, DeletionTimestamp := none,
    Volumes :=
      [{ Name := "data"
         PersistentVolumeClaim := some { ClaimName := "web-data-a", ReadOnly := false }
         Other := "" }] }

/-- The claim `name` that carries the template-hash label `hash` and no instance id. -/
def exampleStrayClaim (name hash : String) : PersistentVolumeClaim :=
  { Name := name, Namespace := "default",
    Labels := some [("collaset.kusionstack.io/pvc-template-hash", hash)],
    DeletionTimestamp := none, Spec := hash }

/-! ## Lemmas on maps -/

theorem mapGet_mapSet_self {V : Type} (m : GoMap V) (k : String) (v : V) :
    mapGet (mapSet m k v) k = some v := by
  induction m with
  | nil => simp [mapSet, mapGet]
  | cons kv rest ih =>
    obtain ⟨k0, v0⟩ := kv
    by_cases h : k0 = k
    · simp [mapSet, mapGet, h]
    · simp [mapSet, mapGet, h, ih]

theorem mapGet_mapSet_ne {V : Type} (m : GoMap V) (k k1 : String) (v : V) (hne : k1 ≠ k) :
    mapGet (mapSet m k v) k1 = mapGet m k1 := by
  induction m with
  | nil => simp [mapSet, mapGet, Ne.symm hne]
  | cons kv rest ih =>
    obtain ⟨k0, v0⟩ := kv
    by_cases h : k0 = k
    · subst h
      simp [mapSet, mapGet, Ne.symm hne]
    · by_cases h1 : k0 = k1
      · subst h1
        simp [mapSet, mapGet, h]
      · simp [mapSet, mapGet, h, h1, ih]

theorem mapGet_mapSet {V : Type} (m : GoMap V) (k k1 : String) (v : V) :
    mapGet (mapSet m k v) k1 = if k1 = k then some v else mapGet m k1 := by
  by_cases h : k1 = k
  · subst h; simp [mapGet_mapSet_self]
  · simp [h, mapGet_mapSet_ne m k k1 v h]

theorem mem_of_mapGet {V : Type} (m : GoMap V) (k : String) (v : V)
    (h : mapGet m k = some v) : (k, v) ∈ m := by
  induction m with
  | nil => simp [mapGet] at h
  | cons kv rest ih =>
    obtain ⟨k0, v0⟩ := kv
    by_cases h0 : k0 = k
    · subst h0
      simp [mapGet] at h
      simp [h]
    · simp [mapGet, h0] at h
      exact List.mem_cons_of_mem _ (ih h)

theorem mapGet_eq_none_of_not_mem_keys {V : Type} (m : GoMap V) (k : String)
    (h : k ∉ m.map Prod.fst) : mapGet m k = none := by
  induction m with
  | nil => rfl
  | cons kv rest ih =>
    obtain ⟨k0, v0⟩ := kv
    simp at h
    have h0 : ¬ k0 = k := fun e => h.1 e.symm
    simp [mapGet, h0]
    apply ih
    simpa using h.2

theorem mapGet_of_mem {V : Type} (m : GoMap V) (k : String) (v : V)
    (hnd : (m.map Prod.fst).Nodup) (h : (k, v) ∈ m) : mapGet m k = some v := by
  induction m with
  | nil => simp at h
  | cons kv rest ih =>
    obtain ⟨k0, v0⟩ := kv
    simp at hnd
    rcases List.mem_cons.mp h with h1 | h1
    · cases h1
      simp [mapGet]
    · have hne : ¬ k0 = k := by
        intro e
        subst e
        exact hnd.1 v h1
      simp [mapGet, hne]
      exact ih hnd.2 h1

theorem keys_mapSet {V : Type} (m : GoMap V) (k : String) (v : V) :
    (mapSet m k v).map Prod.fst = if k ∈ m.map Prod.fst then m.map Prod.fst
      else m.map Prod.fst ++ [k] := by
  induction m with
  | nil => simp [mapSet]
  | cons kv rest ih =>
    obtain ⟨k0, v0⟩ := kv
    by_cases h : k0 = k
    · subst h
      simp [mapSet]
    · have h2 : ¬ k = k0 := fun e => h e.symm
      simp only [mapSet, h, if_false, List.map_cons, ih, List.mem_cons, h2, false_or]
      split <;> simp

theorem nodup_keys_mapSet {V : Type} (m : GoMap V) (k : String) (v : V)
    (hnd : (m.map Prod.fst).Nodup) : ((mapSet m k v).map Prod.fst).Nodup := by
  rw [keys_mapSet]
  split
  · exact hnd
  · rename_i h
    rw [List.nodup_append]
    refine ⟨hnd, List.nodup_singleton k, ?_⟩
    intro a ha hb
    simp at hb
    subst hb
    exact h ha

theorem mapHas_iff {V : Type} (m : GoMap V) (k : String) :
    mapHas m k = true ↔ ∃ v, mapGet m k = some v := by
  unfold mapHas
  cases mapGet m k <;> simp

theorem mapHas_eq_false_iff {V : Type} (m : GoMap V) (k : String) :
    mapHas m k = false ↔ mapGet m k = none := by
  unfold mapHas
  cases mapGet m k <;> simp

/-! ## Lemmas on `lastMatch` -/

theorem lastMatch_some {α : Type} (p : α → Bool) (l : List α) (b : α)
    (h : lastMatch p l = some b) : b ∈ l ∧ p b = true := by
  induction l with
  | nil => simp [lastMatch] at h
  | cons a rest ih =>
    unfold lastMatch at h
    cases hr : lastMatch p rest with
    | some c =>
      rw [hr] at h
      simp at h
      subst h
      exact ⟨List.mem_cons_of_mem _ (ih hr).1, (ih hr).2⟩
    | none =>
      rw [hr] at h
      by_cases hp : p a = true
      · simp [hp] at h
        subst h
        exact ⟨List.mem_cons_self _ _, hp⟩
      · simp [hp] at h

theorem lastMatch_isSome {α : Type} (p : α → Bool) (l : List α) (a : α)
    (ha : a ∈ l) (hp : p a = true) : ∃ b, lastMatch p l = some b := by
  induction l with
  | nil => simp at ha
  | cons a0 rest ih =>
    unfold lastMatch
    cases hr : lastMatch p rest with
    | some c => exact ⟨c, rfl⟩
    | none =>
      rcases List.mem_cons.mp ha with h1 | h1
      · subst h1
        exact ⟨a, by simp [hp]⟩
      · obtain ⟨b, hb⟩ := ih h1
        rw [hr] at hb
        cases hb

theorem lastMatch_eq_none {α : Type} (p : α → Bool) (l : List α)
    (h : ∀ a ∈ l, p a = false) : lastMatch p l = none := by
  cases hr : lastMatch p l with
  | none => rfl
  | some b =>
    have := lastMatch_some p l b hr
    rw [h b this.1] at this
    simp at this

theorem lastMatch_unique {α : Type} (p : α → Bool) (l : List α) (a : α)
    (ha : a ∈ l) (hp : p a = true) (huniq : ∀ b ∈ l, p b = true → b = a) :
    lastMatch p l = some a := by
  obtain ⟨b, hb⟩ := lastMatch_isSome p l a ha hp
  have := lastMatch_some p l b hb
  rw [hb, huniq b this.1 this.2]

/-! ## Lemmas on `classifyPodPvcs` -/

theorem lastMatch_cons_or {α : Type} (p : α → Bool) (a : α) (l : List α) (z : Option α) :
    (lastMatch p (a :: l)).or z = (lastMatch p l).or (if p a then some a else z) := by
  cases hl : lastMatch p l with
  | some b => simp [lastMatch, hl]
  | none =>
    by_cases hp : p a = true <;> simp [lastMatch, hl, hp]

/-- The loop body in terms of the specification-side predicates. -/
theorem classifyStep_eq {σ : Type} (env : PvcEnv σ) (cls : CollaSet) (id : String)
    (H : GoMap String) (pvc : PersistentVolumeClaim)
    (n o : GoMap PersistentVolumeClaim) :
    classifyStep env cls id H pvc n o =
      match eligibleHash env id pvc with
      | none => .ok (n, o)
      | some hash =>
        match env.ExtractPvcTmpName cls pvc with
        | .error e => .error e
        | .ok k =>
          if mapGetD H k "" = hash then .ok (mapSet n k pvc, o) else .ok (n, mapSet o k pvc) := by
  unfold classifyStep eligibleHash
  by_cases hd : pvc.DeletionTimestamp = none
  · simp only [hd, ne_eq, not_true_eq_false, if_false]
    cases pvc.Labels with
    | none => rfl
    | some labels =>
      simp only
      cases hi : mapGet labels env.PodInstanceIDLabelKey with
      | none => rfl
      | some val =>
        by_cases hv : val = id
        · subst hv
          simp only [ne_eq, not_true_eq_false, if_false, if_true]
        · simp [hv]
  · simp [hd]

theorem classifyStep_get {σ : Type} (env : PvcEnv σ) (cls : CollaSet) (id : String)
    (H : GoMap String) (pvc : PersistentVolumeClaim)
    (n0 o0 n o : GoMap PersistentVolumeClaim)
    (h : classifyStep env cls id H pvc n0 o0 = .ok (n, o)) (k : String) :
    mapGet n k = (if isCurrent env cls id H k pvc then some pvc else mapGet n0 k) ∧
    mapGet o k = (if isStale env cls id H k pvc then some pvc else mapGet o0 k) ∧
    ((n0.map Prod.fst).Nodup → (n.map Prod.fst).Nodup) ∧
    ((o0.map Prod.fst).Nodup → (o.map Prod.fst).Nodup) := by
  rw [classifyStep_eq] at h
  unfold isCurrent isStale
  cases he : eligibleHash env id pvc with
  | none =>
    rw [he] at h
    simp only [Except.ok.injEq, Prod.mk.injEq] at h
    obtain ⟨rfl, rfl⟩ := h
    simp
  | some hash =>
    rw [he] at h
    simp only at h
    cases hx : env.ExtractPvcTmpName cls pvc with
    | error e => rw [hx] at h; simp at h
    | ok k1 =>
      rw [hx] at h
      simp only at h
      by_cases hh : mapGetD H k1 "" = hash
      · simp only [hh, if_true, Except.ok.injEq, Prod.mk.injEq] at h
        obtain ⟨rfl, rfl⟩ := h
        refine ⟨?_, ?_, nodup_keys_mapSet _ _ _, fun x => x⟩
        · rw [mapGet_mapSet]
          by_cases hk : k = k1
          · subst hk; simp [hh]
          · have hk2 : ¬ k1 = k := fun e => hk e.symm
            simp [hk, hk2]
        · by_cases hk : k1 = k
          · subst hk; simp [hh]
          · simp [hk]
      · simp only [hh, if_false, Except.ok.injEq, Prod.mk.injEq] at h
        obtain ⟨rfl, rfl⟩ := h
        refine ⟨?_, ?_, fun x => x, nodup_keys_mapSet _ _ _⟩
        · by_cases hk : k1 = k
          · subst hk; simp [hh]
          · simp [hk]
        · rw [mapGet_mapSet]
          by_cases hk : k = k1
          · subst hk; simp [hh]
          · have hk2 : ¬ k1 = k := fun e => hk e.symm
            simp [hk, hk2]

/-- What the loop of `classifyPodPvcs` leaves under each key: the last claim of the
list in that class, or what was there before. -/
theorem classifyLoop_get {σ : Type} (env : PvcEnv σ) (cls : CollaSet) (id : String)
    (H : GoMap String) (l : List PersistentVolumeClaim) :
    ∀ (n0 o0 n o : GoMap PersistentVolumeClaim),
    classifyLoop env cls id H l n0 o0 = .ok (n, o) → ∀ k : String,
    mapGet n k = (lastMatch (isCurrent env cls id H k) l).or (mapGet n0 k) ∧
    mapGet o k = (lastMatch (isStale env cls id H k) l).or (mapGet o0 k) := by
  induction l with
  | nil =>
    intro n0 o0 n o h k
    simp only [classifyLoop, Except.ok.injEq, Prod.mk.injEq] at h
    obtain ⟨rfl, rfl⟩ := h
    simp [lastMatch]
  | cons pvc rest ih =>
    intro n0 o0 n o h k
    unfold classifyLoop at h
    cases hs : classifyStep env cls id H pvc n0 o0 with
    | error e => rw [hs] at h; simp at h
    | ok p =>
      obtain ⟨n1, o1⟩ := p
      rw [hs] at h
      simp only at h
      have h1 := classifyStep_get env cls id H pvc n0 o0 n1 o1 hs k
      have h2 := ih n1 o1 n o h k
      rw [lastMatch_cons_or, lastMatch_cons_or, h2.1, h2.2, h1.1, h1.2.1]
      exact ⟨rfl, rfl⟩

theorem classifyLoop_nodup {σ : Type} (env : PvcEnv σ) (cls : CollaSet) (id : String)
    (H : GoMap String) (l : List PersistentVolumeClaim) :
    ∀ (n0 o0 n o : GoMap PersistentVolumeClaim),
    classifyLoop env cls id H l n0 o0 = .ok (n, o) →
    ((n0.map Prod.fst).Nodup → (n.map Prod.fst).Nodup) ∧
    ((o0.map Prod.fst).Nodup → (o.map Prod.fst).Nodup) := by
  induction l with
  | nil =>
    intro n0 o0 n o h
    simp only [classifyLoop, Except.ok.injEq, Prod.mk.injEq] at h
    obtain ⟨rfl, rfl⟩ := h
    exact ⟨fun x => x, fun x => x⟩
  | cons pvc rest ih =>
    intro n0 o0 n o h
    unfold classifyLoop at h
    cases hs : classifyStep env cls id H pvc n0 o0 with
    | error e => rw [hs] at h; simp at h
    | ok p =>
      obtain ⟨n1, o1⟩ := p
      rw [hs] at h
      simp only at h
      have h1 := classifyStep_get env cls id H pvc n0 o0 n1 o1 hs ""
      have h2 := ih n1 o1 n o h
      exact ⟨fun hn => h2.1 (h1.2.2.1 hn), fun ho => h2.2 (h1.2.2.2 ho)⟩

/-- A successful classification read off the list of existing claims. -/
theorem classifyPodPvcs_ok {σ : Type} (env : PvcEnv σ) (cls : CollaSet) (id : String)
    (existing : List PersistentVolumeClaim) (n o : GoMap PersistentVolumeClaim)
    (h : classifyPodPvcs env cls id existing = .ok (n, o)) :
    ∃ H, PvcTmpHashMapping env cls.VolumeClaimTemplates [] = .ok H ∧
      (∀ k, mapGet n k = lastMatch (isCurrent env cls id H k) existing) ∧
      (∀ k, mapGet o k = lastMatch (isStale env cls id H k) existing) ∧
      (n.map Prod.fst).Nodup ∧ (o.map Prod.fst).Nodup := by
  unfold classifyPodPvcs at h
  cases hH : PvcTmpHashMapping env cls.VolumeClaimTemplates [] with
  | error e => rw [hH] at h; simp at h
  | ok H =>
    rw [hH] at h
    simp only at h
    have hg := classifyLoop_get env cls id H existing [] [] n o h
    have hn := classifyLoop_nodup env cls id H existing [] [] n o h
    refine ⟨H, rfl, fun k => ?_, fun k => ?_, hn.1 (by simp), hn.2 (by simp)⟩
    · rw [(hg k).1]; simp [mapGet, Option.or_none]
    · rw [(hg k).2]; simp [mapGet, Option.or_none]

/-! ## Lemmas on the order of the calls -/

@[simp] theorem Run.after_events {σ α : Type} (evs : List PvcEvent) (r : Run σ α) :
    (r.after evs).events = evs ++ r.events := rfl

@[simp] theorem Run.after_result {σ α : Type} (evs : List PvcEvent) (r : Run σ α) :
    (r.after evs).result = r.result := rfl

@[simp] theorem Run.after_store {σ α : Type} (evs : List PvcEvent) (r : Run σ α) :
    (r.after evs).store = r.store := rfl

theorem expectedAfterSuccess_create (cls : CollaSet) (claim created : PersistentVolumeClaim)
    (err : Option String) (rest : List PvcEvent) :
    expectedAfterSuccess cls
      (PvcEvent.Create claim (.ok created) ::
        PvcEvent.ExpectCreate cls ExpectedResourceType.Pvc created.Name err :: rest)
      = expectedAfterSuccess cls rest := by
  simp [expectedAfterSuccess]

theorem expectedAfterSuccess_delete (cls : CollaSet) (pvc : PersistentVolumeClaim)
    (err : Option String) (rest : List PvcEvent) :
    expectedAfterSuccess cls
      (PvcEvent.Delete pvc none ::
        PvcEvent.ExpectDelete cls ExpectedResourceType.Pvc pvc.Name err :: rest)
      = expectedAfterSuccess cls rest := by
  simp [expectedAfterSuccess]

/-- The calls of the loop of `provisionUpdatedPvc`: expectations follow successes, and a
failed create ends the loop with the error of the store, wrapped. -/
theorem provisionLoop_expected {σ : Type} (env : PvcEnv σ) (cls : CollaSet) (id : String)
    (ts : List PersistentVolumeClaim) :
    ∀ (m : GoMap PersistentVolumeClaim) (s : σ),
    expectedAfterSuccess cls (provisionLoop env cls id ts m s).events = true ∧
    ∀ claim e, PvcEvent.Create claim (.error e) ∈ (provisionLoop env cls id ts m s).events →
      (provisionLoop env cls id ts m s).result
        = .error ("fail to create pvc for id " ++ id ++ ": " ++ e) := by
  induction ts with
  | nil =>
    intro m s
    simp [provisionLoop, expectedAfterSuccess]
  | cons t rest ih =>
    intro m s
    unfold provisionLoop
    by_cases hm : mapHas m t.Name = true
    · simp only [hm, if_true]
      exact ih m s
    · simp only [hm, Bool.false_eq_true, if_false]
      cases hb : env.BuildPvcWithHash cls t id with
      | error e => simp [expectedAfterSuccess]
      | ok claim =>
        simp only
        rcases hc : env.Create s claim with ⟨res, s1⟩
        cases res with
        | error e =>
          simp only [expectedAfterSuccess, List.mem_singleton, PvcEvent.Create.injEq, true_and]
          intro c e1 h
          simp only [Except.error.injEq] at h
          rw [h.2]
        | ok created =>
          simp only
          rcases he : env.ExpectCreate s1 cls ExpectedResourceType.Pvc created.Name with ⟨r, s2⟩
          cases r with
          | some e =>
            simp only [expectedAfterSuccess_create]
            simp [expectedAfterSuccess]
          | none =>
            simp only [Run.after_events, Run.after_result, List.cons_append, List.nil_append,
              expectedAfterSuccess_create]
            refine ⟨(ih _ s2).1, ?_⟩
            intro c e1 h
            simp only [List.mem_cons, PvcEvent.Create.injEq] at h
            rcases h with h | h | h
            · simp at h
            · simp at h
            · exact (ih _ s2).2 c e1 h

/-! ## Lemmas on the deleting loops -/

theorem deleteUnclaimedLoop_eq {σ : Type} (env : PvcEnv σ) (cls : CollaSet)
    (names : List String) (l : List (String × PersistentVolumeClaim)) :
    ∀ s : σ, deleteUnclaimedLoop env cls names l s
      = deleteEach env cls ((l.filter (fun kv => !decide (kv.1 ∈ names))).map Prod.snd) s := by
  induction l with
  | nil => intro s; rfl
  | cons kv rest ih =>
    intro s
    obtain ⟨k, pvc⟩ := kv
    unfold deleteUnclaimedLoop
    by_cases hk : k ∈ names
    · simp only [hk, if_true, List.filter_cons, decide_True, Bool.not_true, Bool.false_eq_true,
        if_false]
      exact ih s
    · simp only [hk, if_false, List.filter_cons, decide_False, Bool.not_false, if_true,
        List.map_cons]
      unfold deleteEach
      rcases env.Delete s pvc with ⟨r, s1⟩
      cases r with
      | some e => rfl
      | none =>
        simp only
        rcases env.ExpectDelete s1 cls ExpectedResourceType.Pvc pvc.Name with ⟨r2, s2⟩
        cases r2 with
        | some e => rfl
        | none =>
          simp only
          rw [ih s2]

theorem deleteOldLoop_eq {σ : Type} (env : PvcEnv σ) (cls : CollaSet)
    (newPvcs : GoMap PersistentVolumeClaim) (l : List (String × PersistentVolumeClaim)) :
    ∀ s : σ, deleteOldLoop env cls newPvcs l s
      = deleteEach env cls ((l.filter (fun kv => mapHas newPvcs kv.1)).map Prod.snd) s := by
  induction l with
  | nil => intro s; rfl
  | cons kv rest ih =>
    intro s
    obtain ⟨k, pvc⟩ := kv
    unfold deleteOldLoop
    cases hk : mapHas newPvcs k with
    | false =>
      simp only [Bool.not_false, if_true, List.filter_cons, hk, Bool.false_eq_true, if_false]
      exact ih s
    | true =>
      simp only [Bool.not_true, Bool.false_eq_true, if_false, List.filter_cons, hk, if_true,
        List.map_cons]
      unfold deleteEach
      rcases env.Delete s pvc with ⟨r, s1⟩
      cases r with
      | some e => rfl
      | none =>
        simp only
        rcases env.ExpectDelete s1 cls ExpectedResourceType.Pvc pvc.Name with ⟨r2, s2⟩
        cases r2 with
        | some e => rfl
        | none =>
          simp only
          rw [ih s2]

theorem DeletePodPvcs_eq {σ : Type} (env : PvcEnv σ) (cls : CollaSet) (pod : Pod)
    (l : List PersistentVolumeClaim) :
    ∀ s : σ, DeletePodPvcs env cls pod l s
      = deleteEach env cls (l.filter (sameInstance env pod)) s := by
  induction l with
  | nil => intro s; rfl
  | cons pvc rest ih =>
    intro s
    unfold DeletePodPvcs
    by_cases h1 : pvc.Labels = none ∨ pod.Labels = none
    · simp only [h1, if_true, List.filter_cons, sameInstance, decide_True, Bool.not_true,
        Bool.false_and, Bool.false_eq_true, if_false]
      exact ih s
    · by_cases h2 : mapGetD (pvc.Labels.getD []) env.PodInstanceIDLabelKey ""
          = mapGetD (pod.Labels.getD []) env.PodInstanceIDLabelKey ""
      · simp only [h1, if_false, h2, ne_eq, not_true_eq_false, List.filter_cons, sameInstance,
          decide_False, Bool.not_false, decide_True, Bool.and_self, if_true]
        unfold deleteEach
        rcases env.Delete s pvc with ⟨r, s1⟩
        cases r with
        | some e => rfl
        | none =>
          simp only
          rcases env.ExpectDelete s1 cls ExpectedResourceType.Pvc pvc.Name with ⟨r2, s2⟩
          cases r2 with
          | some e => rfl
          | none =>
            simp only
            rw [ih s2]
      · simp only [h1, if_false, h2, ne_eq, not_false_eq_true, if_true, List.filter_cons,
          sameInstance, decide_False, Bool.not_false, Bool.and_false, Bool.false_eq_true]
        exact ih s

/-- The calls of `deleteEach`: expectations follow successes, and a failed delete ends
the loop with the error of the store. -/
theorem deleteEach_expected {σ : Type} (env : PvcEnv σ) (cls : CollaSet)
    (l : List PersistentVolumeClaim) :
    ∀ s : σ, expectedAfterSuccess cls (deleteEach env cls l s).events = true ∧
      ∀ pvc e, PvcEvent.Delete pvc (some e) ∈ (deleteEach env cls l s).events →
        (deleteEach env cls l s).result = some e := by
  induction l with
  | nil => intro s; simp [deleteEach, expectedAfterSuccess]
  | cons pvc rest ih =>
    intro s
    unfold deleteEach
    rcases env.Delete s pvc with ⟨r, s1⟩
    cases r with
    | some e =>
      simp only [expectedAfterSuccess, List.mem_singleton, PvcEvent.Delete.injEq, true_and]
      intro c e1 h
      simp only [Option.some.injEq] at h
      rw [h.2]
    | none =>
      simp only
      rcases env.ExpectDelete s1 cls ExpectedResourceType.Pvc pvc.Name with ⟨r2, s2⟩
      cases r2 with
      | some e =>
        simp only [expectedAfterSuccess_delete]
        simp [expectedAfterSuccess]
      | none =>
        simp only [Run.after_events, Run.after_result, List.cons_append, List.nil_append,
          expectedAfterSuccess_delete]
        refine ⟨(ih s2).1, ?_⟩
        intro c e1 h
        simp only [List.mem_cons, PvcEvent.Delete.injEq] at h
        rcases h with h | h | h
        · simp at h
        · simp at h
        · exact (ih s2).2 c e1 h

theorem deletesOf_append (a b : List PvcEvent) :
    deletesOf (a ++ b) = deletesOf a ++ deletesOf b := by
  induction a with
  | nil => rfl
  | cons ev rest ih =>
    cases ev <;> simp [deletesOf, ih]

/-- The deletes `deleteEach` issues are for the first claims of the list, in order. -/
theorem deleteEach_deletes_prefix {σ : Type} (env : PvcEnv σ) (cls : CollaSet)
    (l : List PersistentVolumeClaim) :
    ∀ s : σ, ∃ n, deletesOf (deleteEach env cls l s).events = l.take n := by
  induction l with
  | nil => intro s; exact ⟨0, rfl⟩
  | cons pvc rest ih =>
    intro s
    unfold deleteEach
    rcases env.Delete s pvc with ⟨r, s1⟩
    cases r with
    | some e => exact ⟨1, by simp [deletesOf]⟩
    | none =>
      simp only
      rcases env.ExpectDelete s1 cls ExpectedResourceType.Pvc pvc.Name with ⟨r2, s2⟩
      cases r2 with
      | some e => exact ⟨1, by simp [deletesOf]⟩
      | none =>
        obtain ⟨n, hn⟩ := ih s2
        exact ⟨n + 1, by simp [deletesOf, hn]⟩

theorem deleteEach_deletes_mem {σ : Type} (env : PvcEnv σ) (cls : CollaSet)
    (l : List PersistentVolumeClaim) (s : σ) (pvc : PersistentVolumeClaim)
    (h : pvc ∈ deletesOf (deleteEach env cls l s).events) : pvc ∈ l := by
  obtain ⟨n, hn⟩ := deleteEach_deletes_prefix env cls l s
  rw [hn] at h
  exact List.mem_of_mem_take h

/-- When no delete and no expectation fails, `deleteEach` deletes the whole list. -/
theorem deleteEach_deletes_all {σ : Type} (env : PvcEnv σ) (cls : CollaSet)
    (hdel : ∀ s pvc, (env.Delete s pvc).1 = none)
    (hexp : ∀ s c kind name, (env.ExpectDelete s c kind name).1 = none)
    (l : List PersistentVolumeClaim) :
    ∀ s : σ, deletesOf (deleteEach env cls l s).events = l ∧
      (deleteEach env cls l s).result = none := by
  induction l with
  | nil => intro s; exact ⟨rfl, rfl⟩
  | cons pvc rest ih =>
    intro s
    unfold deleteEach
    have h1 := hdel s pvc
    rcases hd : env.Delete s pvc with ⟨r, s1⟩
    rw [hd] at h1
    simp only at h1
    subst h1
    simp only
    have h2 := hexp s1 cls ExpectedResourceType.Pvc pvc.Name
    rcases he : env.ExpectDelete s1 cls ExpectedResourceType.Pvc pvc.Name with ⟨r2, s2⟩
    rw [he] at h2
    simp only at h2
    subst h2
    simp [deletesOf, (ih s2).1, (ih s2).2]

/-! ## Lemmas on provisioning -/

theorem forall₂_exists_of_mem {α β : Type} (R : α → β → Prop) (l1 : List α) (l2 : List β)
    (h : List.Forall₂ R l1 l2) (a : α) (ha : a ∈ l1) : ∃ b ∈ l2, R a b := by
  induction h with
  | nil => simp at ha
  | cons hab _ ih =>
    rcases List.mem_cons.mp ha with h1 | h1
    · subst h1
      exact ⟨_, List.mem_cons_self _ _, hab⟩
    · obtain ⟨b, hb, hr⟩ := ih h1
      exact ⟨b, List.mem_cons_of_mem _ hb, hr⟩

theorem createsOf_cons_pair (cls : CollaSet) (claim created : PersistentVolumeClaim)
    (name : String) (err : Option String) (rest : List PvcEvent) :
    createsOf (PvcEvent.Create claim (.ok created) ::
      PvcEvent.ExpectCreate cls ExpectedResourceType.Pvc name err :: rest)
      = (claim, .ok created) :: createsOf rest := by
  simp [createsOf]

/-- A successful run of the loop of `provisionUpdatedPvc`, started with the map `m`:
the entries of `m` are kept, every template name ends up with an entry, and the creates
issued are, in order, those for a sublist `used` of the templates whose names are
pairwise distinct and absent from `m`. -/
theorem provisionLoop_ok {σ : Type} (env : PvcEnv σ) (cls : CollaSet) (id : String)
    (ts : List PersistentVolumeClaim) :
    ∀ (m : GoMap PersistentVolumeClaim) (s : σ) (m1 : GoMap PersistentVolumeClaim),
    (provisionLoop env cls id ts m s).result = .ok m1 →
    (∀ k c, mapGet m k = some c → mapGet m1 k = some c) ∧
    (∀ t ∈ ts, mapHas m1 t.Name = true) ∧
    ((m.map Prod.fst).Nodup → (m1.map Prod.fst).Nodup) ∧
    ∃ used : List PersistentVolumeClaim,
      used.Sublist ts ∧ (used.map (·.Name)).Nodup ∧
      (∀ t ∈ used, mapGet m t.Name = none) ∧
      (∀ t ∈ ts, mapGet m t.Name = none → ∃ u ∈ used, u.Name = t.Name) ∧
      List.Forall₂
        (fun t cr => env.BuildPvcWithHash cls t id = .ok cr.1 ∧
          ∃ created, cr.2 = .ok created ∧ mapGet m1 t.Name = some created)
        used (createsOf (provisionLoop env cls id ts m s).events) := by
  induction ts with
  | nil =>
    intro m s m1 h
    simp only [provisionLoop, Except.ok.injEq] at h
    subst h
    exact ⟨fun _ _ h => h, by simp, fun h => h, [], List.Sublist.refl _, by simp, by simp,
      by simp, by simp [provisionLoop, createsOf]⟩
  | cons t rest ih =>
    intro m s m1 h
    unfold provisionLoop at h ⊢
    by_cases hm : mapHas m t.Name = true
    · simp only [hm, if_true] at h ⊢
      obtain ⟨ha, hb, hn, used, hsub, hnd, hnone, hcov, hf⟩ := ih m s m1 h
      refine ⟨ha, ?_, hn, used, List.Sublist.cons _ hsub, hnd, hnone, ?_, hf⟩
      · intro t1 ht1
        rcases List.mem_cons.mp ht1 with e | e
        · subst e
          obtain ⟨v, hv⟩ := (mapHas_iff m t1.Name).mp hm
          exact (mapHas_iff m1 t1.Name).mpr ⟨v, ha _ _ hv⟩
        · exact hb t1 e
      · intro t1 ht1 hnone1
        rcases List.mem_cons.mp ht1 with e | e
        · subst e
          obtain ⟨v, hv⟩ := (mapHas_iff m t1.Name).mp hm
          rw [hv] at hnone1
          cases hnone1
        · exact hcov t1 e hnone1
    · simp only [hm, Bool.false_eq_true, if_false] at h ⊢
      have hmn : mapGet m t.Name = none := by
        apply (mapHas_eq_false_iff m t.Name).mp
        simpa using hm
      cases hbuild : env.BuildPvcWithHash cls t id with
      | error e => rw [hbuild] at h; simp at h
      | ok claim =>
        rw [hbuild] at h
        simp only at h ⊢
        rcases hc : env.Create s claim with ⟨res, s1⟩
        rw [hc] at h
        cases res with
        | error e => simp at h
        | ok created =>
          simp only at h ⊢
          rcases he : env.ExpectCreate s1 cls ExpectedResourceType.Pvc created.Name with ⟨r, s2⟩
          rw [he] at h
          cases r with
          | some e => simp at h
          | none =>
            simp only [Run.after_result] at h
            simp only [Run.after_events, List.cons_append, List.nil_append, createsOf_cons_pair]
            obtain ⟨ha, hb, hn, used, hsub, hnd, hnone, hcov, hf⟩ :=
              ih (mapSet m t.Name created) s2 m1 h
            have hself : mapGet m1 t.Name = some created :=
              ha _ _ (mapGet_mapSet_self m t.Name created)
            have hback : ∀ k, mapGet (mapSet m t.Name created) k = none →
                k ≠ t.Name ∧ mapGet m k = none := by
              intro k hk
              rw [mapGet_mapSet] at hk
              by_cases hkt : k = t.Name
              · simp [hkt] at hk
              · simp only [hkt, if_false] at hk
                exact ⟨hkt, hk⟩
            refine ⟨?_, ?_, fun hnd0 => hn (nodup_keys_mapSet _ _ _ hnd0), t :: used,
              List.Sublist.cons₂ _ hsub, ?_, ?_, ?_, ?_⟩
            · intro k c hk
              have hkt : k ≠ t.Name := by
                intro e
                rw [e, hmn] at hk
                cases hk
              apply ha
              rw [mapGet_mapSet_ne _ _ _ _ hkt]
              exact hk
            · intro t1 ht1
              rcases List.mem_cons.mp ht1 with e | e
              · subst e
                exact (mapHas_iff m1 t1.Name).mpr ⟨created, hself⟩
              · exact hb t1 e
            · simp only [List.map_cons, List.nodup_cons]
              refine ⟨?_, hnd⟩
              intro hin
              obtain ⟨u, hu, hname⟩ := List.mem_map.mp hin
              exact (hback _ (hnone u hu)).1 hname
            · intro u hu
              rcases List.mem_cons.mp hu with e | e
              · subst e
                exact hmn
              · exact (hback _ (hnone u e)).2
            · intro t1 ht1 hnone1
              by_cases hname : t1.Name = t.Name
              · exact ⟨t, List.mem_cons_self _ _, hname.symm⟩
              · rcases List.mem_cons.mp ht1 with e | e
                · subst e
                  exact absurd rfl hname
                · have : mapGet (mapSet m t.Name created) t1.Name = none := by
                    rw [mapGet_mapSet_ne _ _ _ _ hname]
                    exact hnone1
                  obtain ⟨u, hu, hun⟩ := hcov t1 e this
                  exact ⟨u, List.mem_cons_of_mem _ hu, hun⟩
            · exact List.Forall₂.cons ⟨hbuild, created, rfl, hself⟩ hf

/-! ## Lemmas on `DeletePodUnusedPvcs` -/

theorem isStale_iff {σ : Type} (env : PvcEnv σ) (cls : CollaSet) (id : String)
    (H : GoMap String) (k : String) (pvc : PersistentVolumeClaim) :
    isStale env cls id H k pvc = true ↔ staleName env cls id H pvc = some k := by
  unfold isStale staleName
  cases eligibleHash env id pvc with
  | none => simp
  | some hash =>
    simp only
    cases hx : env.ExtractPvcTmpName cls pvc with
    | error e => simp
    | ok k1 =>
      by_cases hk : k1 = k
      · subst hk
        by_cases hh : mapGetD H k1 "" = hash <;> simp [hh]
      · by_cases hh : mapGetD H k1 "" = hash <;> simp [hh, hk]

theorem isCurrent_iff {σ : Type} (env : PvcEnv σ) (cls : CollaSet) (id : String)
    (H : GoMap String) (k : String) (pvc : PersistentVolumeClaim) :
    isCurrent env cls id H k pvc = true ↔ currentName env cls id H pvc = some k := by
  unfold isCurrent currentName
  cases eligibleHash env id pvc with
  | none => simp
  | some hash =>
    simp only
    cases hx : env.ExtractPvcTmpName cls pvc with
    | error e => simp
    | ok k1 =>
      by_cases hk : k1 = k
      · subst hk
        by_cases hh : mapGetD H k1 "" = hash <;> simp [hh]
      · by_cases hh : mapGetD H k1 "" = hash <;> simp [hh, hk]

theorem staleName_extract {σ : Type} (env : PvcEnv σ) (cls : CollaSet) (id : String)
    (H : GoMap String) (k : String) (pvc : PersistentVolumeClaim)
    (h : staleName env cls id H pvc = some k) : env.ExtractPvcTmpName cls pvc = .ok k := by
  unfold staleName at h
  cases he : eligibleHash env id pvc with
  | none => rw [he] at h; simp at h
  | some hash =>
    rw [he] at h
    simp only at h
    cases hx : env.ExtractPvcTmpName cls pvc with
    | error e => rw [hx] at h; simp at h
    | ok k1 =>
      rw [hx] at h
      simp only at h
      by_cases hh : mapGetD H k1 "" = hash
      · simp [hh] at h
      · simp only [hh, if_false, Option.some.injEq] at h
        rw [h]

/-- The entries of the stale set of a successful classification. -/
theorem mem_oldPvcs_iff {σ : Type} (env : PvcEnv σ) (cls : CollaSet) (id : String)
    (existing : List PersistentVolumeClaim) (H : GoMap String)
    (n o : GoMap PersistentVolumeClaim)
    (hH : PvcTmpHashMapping env cls.VolumeClaimTemplates [] = .ok H)
    (hc : classifyPodPvcs env cls id existing = .ok (n, o)) (k : String)
    (pvc : PersistentVolumeClaim) :
    (k, pvc) ∈ o ↔ lastMatch (isStale env cls id H k) existing = some pvc := by
  obtain ⟨H1, hH1, _, hold, _, hnd⟩ := classifyPodPvcs_ok env cls id existing n o hc
  rw [hH] at hH1
  cases hH1
  rw [← hold k]
  exact ⟨mapGet_of_mem o k pvc hnd, mem_of_mapGet o k pvc⟩

/-- The entries of the current set of a successful classification. -/
theorem mem_newPvcs_iff {σ : Type} (env : PvcEnv σ) (cls : CollaSet) (id : String)
    (existing : List PersistentVolumeClaim) (H : GoMap String)
    (n o : GoMap PersistentVolumeClaim)
    (hH : PvcTmpHashMapping env cls.VolumeClaimTemplates [] = .ok H)
    (hc : classifyPodPvcs env cls id existing = .ok (n, o)) (k : String)
    (pvc : PersistentVolumeClaim) :
    (k, pvc) ∈ n ↔ lastMatch (isCurrent env cls id H k) existing = some pvc := by
  obtain ⟨H1, hH1, hnew, _, hnd, _⟩ := classifyPodPvcs_ok env cls id existing n o hc
  rw [hH] at hH1
  cases hH1
  rw [← hnew k]
  exact ⟨mapGet_of_mem n k pvc hnd, mem_of_mapGet n k pvc⟩

theorem mem_unclaimedOf {σ : Type} (env : PvcEnv σ) (cls : CollaSet)
    (oldPvcs : GoMap PersistentVolumeClaim) (s : σ) (pvc : PersistentVolumeClaim) :
    pvc ∈ unclaimedOf env cls oldPvcs s ↔
      ∃ k, (k, pvc) ∈ oldPvcs ∧ k ∉ cls.VolumeClaimTemplates.map (·.Name) := by
  unfold unclaimedOf
  simp only [List.mem_map, List.mem_filter, (env.range_perm s oldPvcs).mem_iff,
    Bool.not_eq_eq_eq_not, Bool.not_true, decide_eq_false_iff_not, Prod.exists,
    exists_and_right, exists_eq_right]

theorem mem_replacedOf {σ : Type} (env : PvcEnv σ)
    (newPvcs oldPvcs : GoMap PersistentVolumeClaim) (s : σ) (pvc : PersistentVolumeClaim) :
    pvc ∈ replacedOf env newPvcs oldPvcs s ↔
      ∃ k, (k, pvc) ∈ oldPvcs ∧ mapHas newPvcs k = true := by
  unfold replacedOf
  simp only [List.mem_map, List.mem_filter, (env.range_perm s oldPvcs).mem_iff,
    Prod.exists, exists_and_right, exists_eq_right]

theorem deleteUnclaimedPvcs_eq {σ : Type} (env : PvcEnv σ) (cls : CollaSet)
    (oldPvcs : GoMap PersistentVolumeClaim) (s : σ) :
    deleteUnclaimedPvcs env cls oldPvcs s
      = deleteEach env cls (unclaimedOf env cls oldPvcs s) s := by
  unfold deleteUnclaimedPvcs unclaimedOf
  rw [deleteUnclaimedLoop_eq]

theorem deleteOldPvcs_eq {σ : Type} (env : PvcEnv σ) (cls : CollaSet)
    (newPvcs oldPvcs : GoMap PersistentVolumeClaim) (s : σ) :
    deleteOldPvcs env cls newPvcs oldPvcs s
      = deleteEach env cls (replacedOf env newPvcs oldPvcs s) s := by
  unfold deleteOldPvcs replacedOf
  rw [deleteOldLoop_eq]

/-- The method `DeletePodUnusedPvcs` once the pod has an instance id and the
classification succeeded: two runs of `deleteEach`. -/
theorem DeletePodUnusedPvcs_eq {σ : Type} (env : PvcEnv σ) (cls : CollaSet) (pod : Pod)
    (existing : List PersistentVolumeClaim) (s : σ) (id : String)
    (n o : GoMap PersistentVolumeClaim)
    (hid : podInstanceID env pod = some id)
    (hc : classifyPodPvcs env cls id existing = .ok (n, o)) :
    DeletePodUnusedPvcs env cls pod existing s =
      if (deleteEach env cls (unclaimedOf env cls o s) s).result ≠ none
          ∨ env.PvcPolicyWhenScaled cls = PersistentVolumeClaimRetentionPolicyType.Retain then
        deleteEach env cls (unclaimedOf env cls o s) s
      else
        (deleteEach env cls
          (replacedOf env n o (deleteEach env cls (unclaimedOf env cls o s) s).store)
          (deleteEach env cls (unclaimedOf env cls o s) s).store).after
          (deleteEach env cls (unclaimedOf env cls o s) s).events := by
  unfold DeletePodUnusedPvcs podInstanceID at *
  cases hl : pod.Labels with
  | none => rw [hl] at hid; simp at hid
  | some labels =>
    rw [hl] at hid
    simp only at hid ⊢
    rw [hid]
    simp only [hc, deleteUnclaimedPvcs_eq, deleteOldPvcs_eq]
    generalize deleteEach env cls (unclaimedOf env cls o s) s = r
    obtain ⟨res, s1, evs⟩ := r
    cases res with
    | some e => simp
    | none =>
      by_cases hp : env.PvcPolicyWhenScaled cls = PersistentVolumeClaimRetentionPolicyType.Retain
      · simp [hp]
      · simp [hp]

/-- Every claim `DeletePodUnusedPvcs` issues a delete for is an entry of the stale set
of the classification for the pod's instance, either under a template name that is not
declared or, unless the policy is Retain, under one that has a current claim. -/
theorem DeletePodUnusedPvcs_deletes {σ : Type} (env : PvcEnv σ) (cls : CollaSet) (pod : Pod)
    (existing : List PersistentVolumeClaim) (s : σ) (pvc : PersistentVolumeClaim)
    (h : pvc ∈ deletesOf (DeletePodUnusedPvcs env cls pod existing s).events) :
    ∃ id n o k, podInstanceID env pod = some id ∧
      classifyPodPvcs env cls id existing = .ok (n, o) ∧ (k, pvc) ∈ o ∧
      (k ∉ cls.VolumeClaimTemplates.map (·.Name) ∨
        (env.PvcPolicyWhenScaled cls ≠ PersistentVolumeClaimRetentionPolicyType.Retain ∧
          mapHas n k = true)) := by
  cases hid : podInstanceID env pod with
  | none =>
    exfalso
    unfold DeletePodUnusedPvcs at h
    unfold podInstanceID at hid
    cases hl : pod.Labels with
    | none => rw [hl] at h; simp [deletesOf] at h
    | some labels =>
      rw [hl] at h hid
      simp only at h hid
      rw [hid] at h
      simp [deletesOf] at h
  | some id =>
    cases hc : classifyPodPvcs env cls id existing with
    | error e =>
      exfalso
      unfold DeletePodUnusedPvcs at h
      unfold podInstanceID at hid
      cases hl : pod.Labels with
      | none => rw [hl] at h; simp [deletesOf] at h
      | some labels =>
        rw [hl] at h hid
        simp only at h hid
        rw [hid] at h
        simp only [hc] at h
        simp [deletesOf] at h
    | ok p =>
      obtain ⟨n, o⟩ := p
      rw [DeletePodUnusedPvcs_eq env cls pod existing s id n o hid hc] at h
      split at h
      · have hm := deleteEach_deletes_mem env cls _ s pvc h
        obtain ⟨k, hk, hnot⟩ := (mem_unclaimedOf env cls o s pvc).mp hm
        exact ⟨id, n, o, k, rfl, hc, hk, Or.inl hnot⟩
      · rename_i hcond
        simp only [not_or] at hcond
        simp only [Run.after_events, deletesOf_append, List.mem_append] at h
        rcases h with h | h
        · have hm := deleteEach_deletes_mem env cls _ s pvc h
          obtain ⟨k, hk, hnot⟩ := (mem_unclaimedOf env cls o s pvc).mp hm
          exact ⟨id, n, o, k, rfl, hc, hk, Or.inl hnot⟩
        · have hm := deleteEach_deletes_mem env cls _ _ pvc h
          obtain ⟨k, hk, hhas⟩ := (mem_replacedOf env n o _ pvc).mp hm
          exact ⟨id, n, o, k, rfl, hc, hk, Or.inr ⟨hcond.2, hhas⟩⟩

/-- When no delete and no expectation fails, `DeletePodUnusedPvcs` issues a delete for
every stale entry whose template name is not declared and, unless the policy is Retain,
for every stale entry whose template name has a current claim. -/
theorem DeletePodUnusedPvcs_deletes_all {σ : Type} (env : PvcEnv σ) (cls : CollaSet)
    (pod : Pod) (existing : List PersistentVolumeClaim) (s : σ) (id : String)
    (n o : GoMap PersistentVolumeClaim)
    (hid : podInstanceID env pod = some id)
    (hc : classifyPodPvcs env cls id existing = .ok (n, o))
    (hdel : ∀ s pvc, (env.Delete s pvc).1 = none)
    (hexp : ∀ s c kind name, (env.ExpectDelete s c kind name).1 = none)
    (k : String) (pvc : PersistentVolumeClaim) (hk : (k, pvc) ∈ o)
    (hcase : k ∉ cls.VolumeClaimTemplates.map (·.Name) ∨
      (env.PvcPolicyWhenScaled cls ≠ PersistentVolumeClaimRetentionPolicyType.Retain ∧
        mapHas n k = true)) :
    pvc ∈ deletesOf (DeletePodUnusedPvcs env cls pod existing s).events := by
  rw [DeletePodUnusedPvcs_eq env cls pod existing s id n o hid hc]
  have h1 := deleteEach_deletes_all env cls hdel hexp (unclaimedOf env cls o s) s
  split
  · rename_i hcond
    rw [h1.1]
    rcases hcase with hcase | hcase
    · exact (mem_unclaimedOf env cls o s pvc).mpr ⟨k, hk, hcase⟩
    · rcases hcond with hcond | hcond
      · exact absurd h1.2 hcond
      · exact absurd hcond hcase.1
  · simp only [Run.after_events, deletesOf_append, List.mem_append]
    rcases hcase with hcase | hcase
    · left
      rw [h1.1]
      exact (mem_unclaimedOf env cls o s pvc).mpr ⟨k, hk, hcase⟩
    · right
      rw [(deleteEach_deletes_all env cls hdel hexp _ _).1]
      exact (mem_replacedOf env n o _ pvc).mpr ⟨k, hk, hcase.2⟩

theorem mem_oldPvcs_extract {σ : Type} (env : PvcEnv σ) (cls : CollaSet) (id : String)
    (existing : List PersistentVolumeClaim) (n o : GoMap PersistentVolumeClaim)
    (hc : classifyPodPvcs env cls id existing = .ok (n, o)) (k : String)
    (pvc : PersistentVolumeClaim) (hk : (k, pvc) ∈ o) :
    pvc ∈ existing ∧ env.ExtractPvcTmpName cls pvc = .ok k := by
  obtain ⟨H, hH, _, _, _, _⟩ := classifyPodPvcs_ok env cls id existing n o hc
  have hl := (mem_oldPvcs_iff env cls id existing H n o hH hc k pvc).mp hk
  have hs := lastMatch_some _ _ _ hl
  exact ⟨hs.1, staleName_extract env cls id H k pvc ((isStale_iff env cls id H k pvc).mp hs.2)⟩

theorem currentName_or_staleName {σ : Type} (env : PvcEnv σ) (cls : CollaSet) (id : String)
    (H : GoMap String) (pvc : PersistentVolumeClaim) (hash k : String)
    (he : eligibleHash env id pvc = some hash) (hx : env.ExtractPvcTmpName cls pvc = .ok k) :
    (mapGetD H k "" = hash ∧ currentName env cls id H pvc = some k ∧
        staleName env cls id H pvc = none) ∨
    (mapGetD H k "" ≠ hash ∧ staleName env cls id H pvc = some k ∧
        currentName env cls id H pvc = none) := by
  unfold currentName staleName
  rw [he]
  simp only [hx]
  by_cases hh : mapGetD H k "" = hash
  · left; simp [hh]
  · right; simp [hh]

/-- A successful classification extracted the template name of every eligible claim. -/
theorem classifyLoop_extract {σ : Type} (env : PvcEnv σ) (cls : CollaSet) (id : String)
    (H : GoMap String) (l : List PersistentVolumeClaim) :
    ∀ (n0 o0 n o : GoMap PersistentVolumeClaim),
    classifyLoop env cls id H l n0 o0 = .ok (n, o) →
    ∀ pvc ∈ l, ∀ hash, eligibleHash env id pvc = some hash →
      ∃ k, env.ExtractPvcTmpName cls pvc = .ok k := by
  induction l with
  | nil => intro n0 o0 n o _ pvc hp; simp at hp
  | cons c rest ih =>
    intro n0 o0 n o h pvc hp hash he
    unfold classifyLoop at h
    cases hs : classifyStep env cls id H c n0 o0 with
    | error e => rw [hs] at h; simp at h
    | ok p =>
      obtain ⟨n1, o1⟩ := p
      rw [hs] at h
      simp only at h
      rcases List.mem_cons.mp hp with e | e
      · subst e
        rw [classifyStep_eq, he] at hs
        simp only at hs
        cases hx : env.ExtractPvcTmpName cls pvc with
        | error e => rw [hx] at hs; simp at hs
        | ok k => exact ⟨k, rfl⟩
      · exact ih n1 o1 n o h pvc e hash he

theorem PvcTmpHashMapping_get_undeclared {σ : Type} (env : PvcEnv σ)
    (ts : List PersistentVolumeClaim) :
    ∀ (acc H : GoMap String), PvcTmpHashMapping env ts acc = .ok H →
    ∀ k, k ∉ ts.map (·.Name) → mapGet H k = mapGet acc k := by
  induction ts with
  | nil =>
    intro acc H h k _
    simp only [PvcTmpHashMapping, Except.ok.injEq] at h
    rw [h]
  | cons t rest ih =>
    intro acc H h k hk
    unfold PvcTmpHashMapping at h
    cases hh : env.PvcTmpHash t with
    | error e => rw [hh] at h; simp at h
    | ok hash =>
      rw [hh] at h
      simp only at h
      simp only [List.map_cons, List.mem_cons, not_or] at hk
      rw [ih _ H h k hk.2, mapGet_mapSet_ne _ _ _ _ hk.1]

/-- A claim of an undeclared template name enters the current set only with the empty
string as its template-hash label. -/
theorem classifyPodPvcs_undeclared_current {σ : Type} (env : PvcEnv σ) (cls : CollaSet)
    (id : String) (existing : List PersistentVolumeClaim)
    (n o : GoMap PersistentVolumeClaim)
    (hc : classifyPodPvcs env cls id existing = .ok (n, o)) (k : String)
    (pvc : PersistentVolumeClaim) (hk : (k, pvc) ∈ n)
    (hdecl : k ∉ cls.VolumeClaimTemplates.map (·.Name)) :
    eligibleHash env id pvc = some "" := by
  obtain ⟨H, hH, _, _, _, _⟩ := classifyPodPvcs_ok env cls id existing n o hc
  have hl := lastMatch_some _ _ _ ((mem_newPvcs_iff env cls id existing H n o hH hc k pvc).mp hk)
  have hcur := hl.2
  unfold isCurrent at hcur
  cases he : eligibleHash env id pvc with
  | none => rw [he] at hcur; simp at hcur
  | some hash =>
    rw [he] at hcur
    simp only [Bool.and_eq_true, decide_eq_true_eq] at hcur
    have hget := PvcTmpHashMapping_get_undeclared env _ [] H hH k hdecl
    have : mapGetD H k "" = "" := by
      unfold mapGetD
      rw [hget]
      rfl
    rw [← hcur.2, this]

/-- The order of expectations within a list of calls that satisfies
`expectedAfterSuccess`. -/
theorem expectationNextFrom_of_expected (cls : CollaSet) :
    ∀ (m : Nat) (evs : List PvcEvent), evs.length ≤ m →
    expectedAfterSuccess cls evs = true →
    ∀ prev, expectationNextFrom prev evs = true := by
  intro m
  induction m with
  | zero =>
    intro evs hlen _ prev
    have : evs = [] := List.length_eq_zero.mp (Nat.le_zero.mp hlen)
    subst this
    rfl
  | succ m ih =>
    intro evs hlen h prev
    match evs, hlen, h with
    | [], _, _ => rfl
    | [ev], _, h =>
      cases ev with
      | Create claim result =>
        cases result with
        | error e => simp [expectationNextFrom, isSuccess, isExpectation]
        | ok created => simp [expectedAfterSuccess] at h
      | Delete claim err =>
        cases err with
        | some e => simp [expectationNextFrom, isSuccess, isExpectation]
        | none => simp [expectedAfterSuccess] at h
      | ExpectCreate c kind name err => simp [expectedAfterSuccess] at h
      | ExpectDelete c kind name err => simp [expectedAfterSuccess] at h
    | ev1 :: ev2 :: rest, hlen, h =>
      have hrest : rest.length ≤ m := by
        simp only [List.length_cons] at hlen
        omega
      cases ev1 with
      | Create claim result =>
        cases result with
        | error e => cases ev2 <;> simp [expectedAfterSuccess] at h
        | ok created =>
          cases ev2 with
          | ExpectCreate c kind name err =>
            simp only [expectedAfterSuccess, Bool.and_eq_true, decide_eq_true_eq] at h
            obtain ⟨⟨⟨_, hkind⟩, hname⟩, hr⟩ := h
            subst hkind hname
            simp [expectationNextFrom, isSuccess, isExpectation, expects, ih rest hrest hr]
          | Create _ _ => simp [expectedAfterSuccess] at h
          | Delete _ _ => simp [expectedAfterSuccess] at h
          | ExpectDelete _ _ _ _ => simp [expectedAfterSuccess] at h
      | Delete pvc err =>
        cases err with
        | some e => cases ev2 <;> simp [expectedAfterSuccess] at h
        | none =>
          cases ev2 with
          | ExpectDelete c kind name err =>
            simp only [expectedAfterSuccess, Bool.and_eq_true, decide_eq_true_eq] at h
            obtain ⟨⟨⟨_, hkind⟩, hname⟩, hr⟩ := h
            subst hkind hname
            simp [expectationNextFrom, isSuccess, isExpectation, expects, ih rest hrest hr]
          | Create _ _ => simp [expectedAfterSuccess] at h
          | Delete _ _ => simp [expectedAfterSuccess] at h
          | ExpectCreate _ _ _ _ => simp [expectedAfterSuccess] at h
      | ExpectCreate c kind name err => cases ev2 <;> simp [expectedAfterSuccess] at h
      | ExpectDelete c kind name err => cases ev2 <;> simp [expectedAfterSuccess] at h

theorem expectationNext_of_expected (cls : CollaSet) (evs : List PvcEvent)
    (h : expectedAfterSuccess cls evs = true) : expectationNext evs = true :=
  expectationNextFrom_of_expected cls evs.length evs (Nat.le_refl _) h none

theorem provisionUpdatedPvc_expected {σ : Type} (env : PvcEnv σ) (cls : CollaSet)
    (id : String) (existing : List PersistentVolumeClaim) (s : σ) :
    expectedAfterSuccess cls (provisionUpdatedPvc env cls id existing s).events = true ∧
    ∀ claim e, PvcEvent.Create claim (.error e)
        ∈ (provisionUpdatedPvc env cls id existing s).events →
      (provisionUpdatedPvc env cls id existing s).result
        = .error ("fail to create pvc for id " ++ id ++ ": " ++ e) := by
  unfold provisionUpdatedPvc
  cases classifyPodPvcs env cls id existing with
  | error e => simp [expectedAfterSuccess]
  | ok p =>
    obtain ⟨n, o⟩ := p
    exact provisionLoop_expected env cls id _ n s

/-! ## The claims on claim provisioning and classification -/

/-- C2 (retention respected, Retain): when the when-scaled policy of the CollaSet is
Retain, then over any number of sync cycles, whatever claims each cycle observes and
whether or not a current replacement exists, every claim `DeletePodUnusedPvcs` issues a
delete for has a template name that is not declared: no claim whose template name is
still declared is deleted. -/
theorem DeletePodUnusedPvcs_retain_keeps_declared {σ : Type} (env : PvcEnv σ)
    (cls : CollaSet) (pod : Pod) (cycles : List (List PersistentVolumeClaim)) (s : σ)
    (hpol : env.PvcPolicyWhenScaled cls = PersistentVolumeClaimRetentionPolicyType.Retain) :
    ∀ pvc ∈ deletesOf (DeletePodUnusedPvcsCycles env cls pod cycles s),
      ∃ k, env.ExtractPvcTmpName cls pvc = .ok k ∧
        k ∉ cls.VolumeClaimTemplates.map (·.Name) := by
  induction cycles generalizing s with
  | nil =>
    intro pvc h
    simp [DeletePodUnusedPvcsCycles, deletesOf] at h
  | cons existing later ih =>
    intro pvc h
    unfold DeletePodUnusedPvcsCycles at h
    rw [deletesOf_append, List.mem_append] at h
    rcases h with h | h
    · obtain ⟨id, n, o, k, _, hc, hk, hcase⟩ :=
        DeletePodUnusedPvcs_deletes env cls pod existing s pvc h
      refine ⟨k, (mem_oldPvcs_extract env cls id existing n o hc k pvc hk).2, ?_⟩
      rcases hcase with hcase | hcase
      · exact hcase
      · exact absurd hpol hcase.1
    · exact ih _ pvc h

/-- C2, at a concrete input: policy Retain, the template `data` is declared, instance
`0` has a stale and a current claim for it, and three cycles observe both; the first
cycle also observes a claim of the undeclared template `logs`. -/
theorem DeletePodUnusedPvcs_retain_keeps_declared_witness :
    (exampleEnv [] []).PvcPolicyWhenScaled
        (exampleSet [exampleTemplate "data" "v2"]
          (some PersistentVolumeClaimRetentionPolicyType.Retain))
      = PersistentVolumeClaimRetentionPolicyType.Retain ∧
    ∀ pvc ∈ deletesOf (DeletePodUnusedPvcsCycles (exampleEnv [] [])
        (exampleSet [exampleTemplate "data" "v2"]
          (some PersistentVolumeClaimRetentionPolicyType.Retain)) examplePod
        [[exampleClaim "web-data-a" "0" "v1", exampleClaim "web-data-b" "0" "v2",
          exampleClaim "web-logs-c" "0" "v1"],
         [exampleClaim "web-data-a" "0" "v1", exampleClaim "web-data-b" "0" "v2"],
         [exampleClaim "web-data-a" "0" "v1", exampleClaim "web-data-b" "0" "v2"]] 0),
      ∃ k, (exampleEnv [] []).ExtractPvcTmpName
          (exampleSet [exampleTemplate "data" "v2"]
            (some PersistentVolumeClaimRetentionPolicyType.Retain)) pvc = .ok k ∧
        k ∉ (exampleSet [exampleTemplate "data" "v2"]
          (some PersistentVolumeClaimRetentionPolicyType.Retain)).VolumeClaimTemplates.map
            (·.Name) :=
  ⟨by decide,
   DeletePodUnusedPvcs_retain_keeps_declared (exampleEnv [] [])
    (exampleSet [exampleTemplate "data" "v2"]
      (some PersistentVolumeClaimRetentionPolicyType.Retain)) examplePod _ 0 (by decide)⟩

/-- The stale claims of a list sit in the stale set when no two of them share a
template name. -/
theorem mem_oldPvcs_of_stale {σ : Type} (env : PvcEnv σ) (cls : CollaSet) (id : String)
    (existing : List PersistentVolumeClaim) (H : GoMap String)
    (n o : GoMap PersistentVolumeClaim)
    (hH : PvcTmpHashMapping env cls.VolumeClaimTemplates [] = .ok H)
    (hc : classifyPodPvcs env cls id existing = .ok (n, o))
    (hone : ∀ c1 ∈ existing, ∀ c2 ∈ existing, staleName env cls id H c1 ≠ none →
      staleName env cls id H c1 = staleName env cls id H c2 → c1 = c2)
    (pvc : PersistentVolumeClaim) (hmem : pvc ∈ existing) (k : String)
    (hk : staleName env cls id H pvc = some k) : (k, pvc) ∈ o := by
  apply (mem_oldPvcs_iff env cls id existing H n o hH hc k pvc).mpr
  apply lastMatch_unique _ _ _ hmem ((isStale_iff env cls id H k pvc).mpr hk)
  intro b hb hsb
  have hbk := (isStale_iff env cls id H k b).mp hsb
  exact hone b hb pvc hmem (by rw [hbk]; simp) (by rw [hbk, hk])

/-- C3 (retention respected, Delete), as amended: when the policy is Delete, no two
stale claims of the pod's instance share a template name, every store delete succeeds
and every expectation is recorded without error, `DeletePodUnusedPvcs` issues a delete
for a stale claim whose template name is still declared if and only if
`classifyPodPvcs` found a current claim for that template name; a stale claim without
a current replacement is kept. -/
theorem DeletePodUnusedPvcs_delete_replaced {σ : Type} (env : PvcEnv σ) (cls : CollaSet)
    (pod : Pod) (existing : List PersistentVolumeClaim) (s : σ) (id : String)
    (H : GoMap String)
    (hpol : env.PvcPolicyWhenScaled cls = PersistentVolumeClaimRetentionPolicyType.Delete)
    (hid : podInstanceID env pod = some id)
    (hH : PvcTmpHashMapping env cls.VolumeClaimTemplates [] = .ok H)
    (hone : ∀ c1 ∈ existing, ∀ c2 ∈ existing, staleName env cls id H c1 ≠ none →
      staleName env cls id H c1 = staleName env cls id H c2 → c1 = c2)
    (hdel : ∀ s pvc, (env.Delete s pvc).1 = none)
    (hexp : ∀ s c kind name, (env.ExpectDelete s c kind name).1 = none) :
    ∀ pvc ∈ existing, ∀ k, staleName env cls id H pvc = some k →
      k ∈ cls.VolumeClaimTemplates.map (·.Name) →
      (pvc ∈ deletesOf (DeletePodUnusedPvcs env cls pod existing s).events ↔
        ∃ n o, classifyPodPvcs env cls id existing = .ok (n, o) ∧ mapHas n k = true) := by
  intro pvc hmem k hk hdecl
  constructor
  · intro h
    obtain ⟨id1, n, o, k1, hid1, hc, hk1, hcase⟩ :=
      DeletePodUnusedPvcs_deletes env cls pod existing s pvc h
    rw [hid] at hid1
    cases hid1
    have hx := (mem_oldPvcs_extract env cls id existing n o hc k1 pvc hk1).2
    rw [staleName_extract env cls id H k pvc hk] at hx
    cases hx
    rcases hcase with hcase | hcase
    · exact absurd hdecl hcase
    · exact ⟨n, o, hc, hcase.2⟩
  · rintro ⟨n, o, hc, hhas⟩
    have hk1 := mem_oldPvcs_of_stale env cls id existing H n o hH hc hone pvc hmem k hk
    apply DeletePodUnusedPvcs_deletes_all env cls pod existing s id n o hid hc hdel hexp k pvc hk1
    right
    exact ⟨by rw [hpol]; decide, hhas⟩

/-- C3 as amended, at a concrete input: policy Delete, the template `data` is declared,
instance `0` has the stale claim `web-data-a` and the current claim `web-data-b`. -/
theorem DeletePodUnusedPvcs_delete_replaced_witness :
    (exampleEnv [] []).PvcPolicyWhenScaled (exampleSet [exampleTemplate "data" "v2"] none)
      = PersistentVolumeClaimRetentionPolicyType.Delete ∧
    staleName (exampleEnv [] []) (exampleSet [exampleTemplate "data" "v2"] none) "0"
      [("data", "v2")] (exampleClaim "web-data-a" "0" "v1") = some "data" ∧
    (exampleClaim "web-data-a" "0" "v1" ∈
        deletesOf (DeletePodUnusedPvcs (exampleEnv [] [])
          (exampleSet [exampleTemplate "data" "v2"] none) examplePod
          [exampleClaim "web-data-a" "0" "v1", exampleClaim "web-data-b" "0" "v2"] 0).events ↔
      ∃ n o, classifyPodPvcs (exampleEnv [] [])
          (exampleSet [exampleTemplate "data" "v2"] none) "0"
          [exampleClaim "web-data-a" "0" "v1", exampleClaim "web-data-b" "0" "v2"]
          = .ok (n, o) ∧ mapHas n "data" = true) ∧
    exampleClaim "web-data-a" "0" "v1" ∈
      deletesOf (DeletePodUnusedPvcs (exampleEnv [] [])
        (exampleSet [exampleTemplate "data" "v2"] none) examplePod
        [exampleClaim "web-data-a" "0" "v1", exampleClaim "web-data-b" "0" "v2"] 0).events :=
  ⟨by decide, by decide,
   DeletePodUnusedPvcs_delete_replaced (exampleEnv [] [])
    (exampleSet [exampleTemplate "data" "v2"] none) examplePod
    [exampleClaim "web-data-a" "0" "v1", exampleClaim "web-data-b" "0" "v2"] 0 "0"
    [("data", "v2")] (by decide) (by decide) (by decide) (by decide)
    (fun _ _ => rfl) (fun _ _ _ _ => rfl)
    (exampleClaim "web-data-a" "0" "v1") (by decide) "data" (by decide) (by decide),
   by decide⟩

/-- C3 as stated fails: policy Delete, the templates `data` and `logs` are declared,
instance `0` has one stale and one current claim for each, and every store delete
succeeds; recording the expectation for the deleted `web-data-a` fails, the call returns
that error, and the stale `web-logs-c` is not deleted although its replacement exists. -/
theorem DeletePodUnusedPvcs_delete_replaced_counterexample :
    (∀ s pvc, ((exampleEnv [] ["web-data-a"]).Delete s pvc).1 = none) ∧
    (exampleEnv [] ["web-data-a"]).PvcPolicyWhenScaled
        (exampleSet [exampleTemplate "data" "v2", exampleTemplate "logs" "v2"] none)
      = PersistentVolumeClaimRetentionPolicyType.Delete ∧
    PvcTmpHashMapping (exampleEnv [] ["web-data-a"])
        [exampleTemplate "data" "v2", exampleTemplate "logs" "v2"] []
      = .ok [("data", "v2"), ("logs", "v2")] ∧
    (∀ c1 ∈ [exampleClaim "web-data-a" "0" "v1", exampleClaim "web-data-b" "0" "v2",
              exampleClaim "web-logs-c" "0" "v1", exampleClaim "web-logs-d" "0" "v2"],
      ∀ c2 ∈ [exampleClaim "web-data-a" "0" "v1", exampleClaim "web-data-b" "0" "v2",
              exampleClaim "web-logs-c" "0" "v1", exampleClaim "web-logs-d" "0" "v2"],
      staleName (exampleEnv [] ["web-data-a"])
          (exampleSet [exampleTemplate "data" "v2", exampleTemplate "logs" "v2"] none) "0"
          [("data", "v2"), ("logs", "v2")] c1 ≠ none →
      staleName (exampleEnv [] ["web-data-a"])
          (exampleSet [exampleTemplate "data" "v2", exampleTemplate "logs" "v2"] none) "0"
          [("data", "v2"), ("logs", "v2")] c1
        = staleName (exampleEnv [] ["web-data-a"])
          (exampleSet [exampleTemplate "data" "v2", exampleTemplate "logs" "v2"] none) "0"
          [("data", "v2"), ("logs", "v2")] c2 → c1 = c2) ∧
    staleName (exampleEnv [] ["web-data-a"])
        (exampleSet [exampleTemplate "data" "v2", exampleTemplate "logs" "v2"] none) "0"
        [("data", "v2"), ("logs", "v2")] (exampleClaim "web-logs-c" "0" "v1") = some "logs" ∧
    "logs" ∈ (exampleSet [exampleTemplate "data" "v2", exampleTemplate "logs" "v2"]
        none).VolumeClaimTemplates.map (·.Name) ∧
    (∃ n o, classifyPodPvcs (exampleEnv [] ["web-data-a"])
        (exampleSet [exampleTemplate "data" "v2", exampleTemplate "logs" "v2"] none) "0"
        [exampleClaim "web-data-a" "0" "v1", exampleClaim "web-data-b" "0" "v2",
         exampleClaim "web-logs-c" "0" "v1", exampleClaim "web-logs-d" "0" "v2"]
        = .ok (n, o) ∧ mapHas n "logs" = true) ∧
    exampleClaim "web-logs-c" "0" "v1" ∉
      deletesOf (DeletePodUnusedPvcs (exampleEnv [] ["web-data-a"])
        (exampleSet [exampleTemplate "data" "v2", exampleTemplate "logs" "v2"] none) examplePod
        [exampleClaim "web-data-a" "0" "v1", exampleClaim "web-data-b" "0" "v2",
         exampleClaim "web-logs-c" "0" "v1", exampleClaim "web-logs-d" "0" "v2"] 0).events ∧
    (DeletePodUnusedPvcs (exampleEnv [] ["web-data-a"])
        (exampleSet [exampleTemplate "data" "v2", exampleTemplate "logs" "v2"] none) examplePod
        [exampleClaim "web-data-a" "0" "v1", exampleClaim "web-data-b" "0" "v2",
         exampleClaim "web-logs-c" "0" "v1", exampleClaim "web-logs-d" "0" "v2"] 0).result
      = some "expectation refused" := by
  refine ⟨fun _ _ => rfl, by decide, by decide, by decide, by decide, by decide, ?_, by decide,
    by decide⟩
  exact ⟨[("data", exampleClaim "web-data-b" "0" "v2"), ("logs", exampleClaim "web-logs-d" "0" "v2")],
    [("data", exampleClaim "web-data-a" "0" "v1"), ("logs", exampleClaim "web-logs-c" "0" "v1")],
    by decide, by decide⟩

/-- C4 (orphans are always deleted), as amended: for every retention policy, when
every store delete succeeds and every expectation is recorded without error,
`DeletePodUnusedPvcs` issues a delete for every claim of the pod's instance that
`classifyPodPvcs` placed in the stale set under a template name that is not among the
declared volume claim templates; and when no two stale claims of the instance share a
template name, these are all the stale existing claims of an undeclared template name. -/
theorem DeletePodUnusedPvcs_deletes_orphans {σ : Type} (env : PvcEnv σ) (cls : CollaSet)
    (pod : Pod) (existing : List PersistentVolumeClaim) (s : σ) (id : String)
    (n o : GoMap PersistentVolumeClaim)
    (hid : podInstanceID env pod = some id)
    (hc : classifyPodPvcs env cls id existing = .ok (n, o))
    (hdel : ∀ s pvc, (env.Delete s pvc).1 = none)
    (hexp : ∀ s c kind name, (env.ExpectDelete s c kind name).1 = none) :
    (∀ k pvc, (k, pvc) ∈ o → k ∉ cls.VolumeClaimTemplates.map (·.Name) →
      pvc ∈ deletesOf (DeletePodUnusedPvcs env cls pod existing s).events) ∧
    (∀ H, PvcTmpHashMapping env cls.VolumeClaimTemplates [] = .ok H →
      (∀ c1 ∈ existing, ∀ c2 ∈ existing, staleName env cls id H c1 ≠ none →
        staleName env cls id H c1 = staleName env cls id H c2 → c1 = c2) →
      ∀ pvc ∈ existing, ∀ k, staleName env cls id H pvc = some k →
        k ∉ cls.VolumeClaimTemplates.map (·.Name) →
        pvc ∈ deletesOf (DeletePodUnusedPvcs env cls pod existing s).events) := by
  have h1 : ∀ k pvc, (k, pvc) ∈ o → k ∉ cls.VolumeClaimTemplates.map (·.Name) →
      pvc ∈ deletesOf (DeletePodUnusedPvcs env cls pod existing s).events :=
    fun k pvc hk hdecl =>
      DeletePodUnusedPvcs_deletes_all env cls pod existing s id n o hid hc hdel hexp k pvc hk
        (Or.inl hdecl)
  refine ⟨h1, ?_⟩
  intro H hH hone pvc hmem k hk hdecl
  exact h1 k pvc (mem_oldPvcs_of_stale env cls id existing H n o hH hc hone pvc hmem k hk) hdecl

/-- C4 as amended, at a concrete input: policy Retain, only the template `data` is
declared, and instance `0` has the claim `web-logs-c` of the removed template `logs`. -/
theorem DeletePodUnusedPvcs_deletes_orphans_witness :
    staleName (exampleEnv [] [])
      (exampleSet [exampleTemplate "data" "v2"]
        (some PersistentVolumeClaimRetentionPolicyType.Retain)) "0"
      [("data", "v2")] (exampleClaim "web-logs-c" "0" "v1") = some "logs" ∧
    "logs" ∉ (exampleSet [exampleTemplate "data" "v2"]
        (some PersistentVolumeClaimRetentionPolicyType.Retain)).VolumeClaimTemplates.map
          (·.Name) ∧
    exampleClaim "web-logs-c" "0" "v1" ∈
      deletesOf (DeletePodUnusedPvcs (exampleEnv [] [])
        (exampleSet [exampleTemplate "data" "v2"]
          (some PersistentVolumeClaimRetentionPolicyType.Retain)) examplePod
        [exampleClaim "web-data-b" "0" "v2", exampleClaim "web-logs-c" "0" "v1"] 0).events :=
  ⟨by decide, by decide,
   (DeletePodUnusedPvcs_deletes_orphans (exampleEnv [] [])
    (exampleSet [exampleTemplate "data" "v2"]
      (some PersistentVolumeClaimRetentionPolicyType.Retain)) examplePod
    [exampleClaim "web-data-b" "0" "v2", exampleClaim "web-logs-c" "0" "v1"] 0 "0"
    [("data", exampleClaim "web-data-b" "0" "v2")]
    [("logs", exampleClaim "web-logs-c" "0" "v1")]
    (by decide) (by decide) (fun _ _ => rfl) (fun _ _ _ _ => rfl)).1
    "logs" (exampleClaim "web-logs-c" "0" "v1") (by decide) (by decide)⟩

/-- C4 as stated fails: only the template `data` is declared, instance `0` has stale
claims of the removed templates `logs` and `cache`, and every store delete succeeds;
recording the expectation for the deleted `web-logs-c` fails, the call returns that
error, and the orphan `web-cache-d` is not deleted. -/
theorem DeletePodUnusedPvcs_deletes_orphans_counterexample :
    (∀ s pvc, ((exampleEnv [] ["web-logs-c"]).Delete s pvc).1 = none) ∧
    (∀ c1 ∈ [exampleClaim "web-logs-c" "0" "v1", exampleClaim "web-cache-d" "0" "v1"],
      ∀ c2 ∈ [exampleClaim "web-logs-c" "0" "v1", exampleClaim "web-cache-d" "0" "v1"],
      staleName (exampleEnv [] ["web-logs-c"]) (exampleSet [exampleTemplate "data" "v2"] none)
          "0" [("data", "v2")] c1 ≠ none →
      staleName (exampleEnv [] ["web-logs-c"]) (exampleSet [exampleTemplate "data" "v2"] none)
          "0" [("data", "v2")] c1
        = staleName (exampleEnv [] ["web-logs-c"])
          (exampleSet [exampleTemplate "data" "v2"] none) "0" [("data", "v2")] c2 → c1 = c2) ∧
    classifyPodPvcs (exampleEnv [] ["web-logs-c"]) (exampleSet [exampleTemplate "data" "v2"] none)
        "0" [exampleClaim "web-logs-c" "0" "v1", exampleClaim "web-cache-d" "0" "v1"]
      = .ok ([], [("logs", exampleClaim "web-logs-c" "0" "v1"),
                  ("cache", exampleClaim "web-cache-d" "0" "v1")]) ∧
    "cache" ∉ (exampleSet [exampleTemplate "data" "v2"] none).VolumeClaimTemplates.map (·.Name) ∧
    exampleClaim "web-cache-d" "0" "v1" ∉
      deletesOf (DeletePodUnusedPvcs (exampleEnv [] ["web-logs-c"])
        (exampleSet [exampleTemplate "data" "v2"] none) examplePod
        [exampleClaim "web-logs-c" "0" "v1", exampleClaim "web-cache-d" "0" "v1"] 0).events ∧
    (DeletePodUnusedPvcs (exampleEnv [] ["web-logs-c"])
        (exampleSet [exampleTemplate "data" "v2"] none) examplePod
        [exampleClaim "web-logs-c" "0" "v1", exampleClaim "web-cache-d" "0" "v1"] 0).result
      = some "expectation refused" :=
  ⟨fun _ _ => rfl, by decide, by decide, by decide, by decide, by decide⟩

/-! ## The claims on classification -/

/-- The sets `classifyPodPvcs` returns, by the comparison the code makes: every claim of
the current set is an existing eligible claim the code files as current, every claim of
the stale set one it files as stale, no claim is in both; every eligible existing claim
is filed as one of the two, and the set has an entry under its template name, which is
the claim itself whenever no other claim is filed alike under that name. -/
theorem classifyPodPvcs_sets {σ : Type} (env : PvcEnv σ) (cls : CollaSet) (id : String)
    (existing : List PersistentVolumeClaim) (H : GoMap String)
    (n o : GoMap PersistentVolumeClaim)
    (hH : PvcTmpHashMapping env cls.VolumeClaimTemplates [] = .ok H)
    (hc : classifyPodPvcs env cls id existing = .ok (n, o)) :
    (∀ k pvc, (k, pvc) ∈ n → pvc ∈ existing ∧ currentName env cls id H pvc = some k) ∧
    (∀ k pvc, (k, pvc) ∈ o → pvc ∈ existing ∧ staleName env cls id H pvc = some k) ∧
    (∀ pvc, ¬ ((∃ k, (k, pvc) ∈ n) ∧ (∃ k, (k, pvc) ∈ o))) ∧
    (∀ pvc ∈ existing, ∀ hash, eligibleHash env id pvc = some hash →
      ∃ k, env.ExtractPvcTmpName cls pvc = .ok k ∧
        ((mapGetD H k "" = hash ∧ currentName env cls id H pvc = some k ∧
            (∃ c, (k, c) ∈ n) ∧ (∀ k1, (k1, pvc) ∉ o) ∧
            ((∀ c ∈ existing, currentName env cls id H c = some k → c = pvc) → (k, pvc) ∈ n)) ∨
         (mapGetD H k "" ≠ hash ∧ staleName env cls id H pvc = some k ∧
            (∃ c, (k, c) ∈ o) ∧ (∀ k1, (k1, pvc) ∉ n) ∧
            ((∀ c ∈ existing, staleName env cls id H c = some k → c = pvc) → (k, pvc) ∈ o)))) := by
  have hnew : ∀ k pvc, (k, pvc) ∈ n → pvc ∈ existing ∧ currentName env cls id H pvc = some k := by
    intro k pvc h
    have hl := lastMatch_some _ _ _ ((mem_newPvcs_iff env cls id existing H n o hH hc k pvc).mp h)
    exact ⟨hl.1, (isCurrent_iff env cls id H k pvc).mp hl.2⟩
  have hold : ∀ k pvc, (k, pvc) ∈ o → pvc ∈ existing ∧ staleName env cls id H pvc = some k := by
    intro k pvc h
    have hl := lastMatch_some _ _ _ ((mem_oldPvcs_iff env cls id existing H n o hH hc k pvc).mp h)
    exact ⟨hl.1, (isStale_iff env cls id H k pvc).mp hl.2⟩
  have hexcl : ∀ pvc k1 k2, currentName env cls id H pvc = some k1 →
      staleName env cls id H pvc = some k2 → False := by
    intro pvc k1 k2 h1 h2
    unfold currentName at h1
    unfold staleName at h2
    cases he : eligibleHash env id pvc with
    | none => rw [he] at h1; simp at h1
    | some hash =>
      rw [he] at h1 h2
      simp only at h1 h2
      cases hx : env.ExtractPvcTmpName cls pvc with
      | error e => rw [hx] at h1; simp at h1
      | ok k =>
        rw [hx] at h1 h2
        simp only at h1 h2
        by_cases hh : mapGetD H k "" = hash
        · simp [hh] at h2
        · simp [hh] at h1
  refine ⟨hnew, hold, ?_, ?_⟩
  · rintro pvc ⟨⟨k1, h1⟩, ⟨k2, h2⟩⟩
    exact hexcl pvc k1 k2 (hnew k1 pvc h1).2 (hold k2 pvc h2).2
  · intro pvc hmem hash he
    have hloop : classifyLoop env cls id H existing [] [] = .ok (n, o) := by
      unfold classifyPodPvcs at hc
      rw [hH] at hc
      exact hc
    obtain ⟨k, hx⟩ := classifyLoop_extract env cls id H existing [] [] n o hloop pvc hmem hash he
    refine ⟨k, hx, ?_⟩
    rcases currentName_or_staleName env cls id H pvc hash k he hx with ⟨hh, hcur, hst⟩ | ⟨hh, hst, hcur⟩
    · left
      refine ⟨hh, hcur, ?_, ?_, ?_⟩
      · obtain ⟨b, hb⟩ := lastMatch_isSome (isCurrent env cls id H k) existing pvc hmem
          ((isCurrent_iff env cls id H k pvc).mpr hcur)
        exact ⟨b, (mem_newPvcs_iff env cls id existing H n o hH hc k b).mpr hb⟩
      · intro k1 h1
        have := (hold k1 pvc h1).2
        rw [hst] at this
        cases this
      · intro huniq
        apply (mem_newPvcs_iff env cls id existing H n o hH hc k pvc).mpr
        apply lastMatch_unique _ _ _ hmem ((isCurrent_iff env cls id H k pvc).mpr hcur)
        intro b hb hcb
        exact huniq b hb ((isCurrent_iff env cls id H k b).mp hcb)
    · right
      refine ⟨hh, hst, ?_, ?_, ?_⟩
      · obtain ⟨b, hb⟩ := lastMatch_isSome (isStale env cls id H k) existing pvc hmem
          ((isStale_iff env cls id H k pvc).mpr hst)
        exact ⟨b, (mem_oldPvcs_iff env cls id existing H n o hH hc k b).mpr hb⟩
      · intro k1 h1
        have := (hnew k1 pvc h1).2
        rw [hcur] at this
        cases this
      · intro huniq
        apply (mem_oldPvcs_iff env cls id existing H n o hH hc k pvc).mpr
        apply lastMatch_unique _ _ _ hmem ((isStale_iff env cls id H k pvc).mpr hst)
        intro b hb hcb
        exact huniq b hb ((isStale_iff env cls id H k b).mp hcb)

/-- The single-value lookup of the live hash agrees with the comma-ok lookup, unless the
template name is undeclared and the hash is the empty string. -/
theorem lookup_live_iff (H : GoMap String) (k hash : String)
    (h : hash = "" → mapGet H k ≠ none) :
    mapGetD H k "" = hash ↔ mapGet H k = some hash := by
  unfold mapGetD
  cases hg : mapGet H k with
  | none =>
    simp only
    constructor
    · intro he
      exact absurd hg (h he.symm)
    · intro he
      cases he
  | some v => simp

/-- The classification of the code is that of the specification for a claim that is
not, at once, of an undeclared template name and labelled with the empty hash. -/
theorem currentName_eq_live {σ : Type} (env : PvcEnv σ) (cls : CollaSet) (id : String)
    (H : GoMap String) (pvc : PersistentVolumeClaim)
    (h : ∀ k, eligibleHash env id pvc = some "" → env.ExtractPvcTmpName cls pvc = .ok k →
      mapGet H k ≠ none) :
    currentName env cls id H pvc = liveCurrentName env cls id H pvc ∧
    staleName env cls id H pvc = liveStaleName env cls id H pvc := by
  unfold currentName staleName liveCurrentName liveStaleName
  cases he : eligibleHash env id pvc with
  | none => exact ⟨rfl, rfl⟩
  | some hash =>
    cases hx : env.ExtractPvcTmpName cls pvc with
    | error e => exact ⟨rfl, rfl⟩
    | ok k =>
      have hiff := lookup_live_iff H k hash (fun h0 => h k (by rw [he, h0]) hx)
      by_cases hh : mapGet H k = some hash
      · simp [hh, hiff.mpr hh]
      · have hd : ¬ mapGetD H k "" = hash := fun h1 => hh (hiff.mp h1)
        simp [hh, hd]

/-- C5 (classification partitions the observed claims), as amended: when
`classifyPodPvcs` returns no error and no eligible claim of an undeclared template name
carries the empty string as its hash, every claim of the current set is an existing
eligible claim whose hash is the live hash of the declared template of its name, every
claim of the stale set is an existing eligible claim whose template name is undeclared
or whose hash differs from the live hash, and no claim is in both; every eligible
existing claim is of exactly one of the two kinds, and the set of its kind has an entry
under its template name, which is the claim itself whenever no other eligible claim of
the same kind has that template name (each set keeps one claim per template name, the
last of the list). -/
theorem classifyPodPvcs_partition {σ : Type} (env : PvcEnv σ) (cls : CollaSet) (id : String)
    (existing : List PersistentVolumeClaim) (H : GoMap String)
    (n o : GoMap PersistentVolumeClaim)
    (hH : PvcTmpHashMapping env cls.VolumeClaimTemplates [] = .ok H)
    (hc : classifyPodPvcs env cls id existing = .ok (n, o))
    (hdecl : ∀ pvc ∈ existing, ∀ k, eligibleHash env id pvc = some "" →
      env.ExtractPvcTmpName cls pvc = .ok k → mapGet H k ≠ none) :
    (∀ k pvc, (k, pvc) ∈ n → pvc ∈ existing ∧ liveCurrentName env cls id H pvc = some k) ∧
    (∀ k pvc, (k, pvc) ∈ o → pvc ∈ existing ∧ liveStaleName env cls id H pvc = some k) ∧
    (∀ pvc, ¬ ((∃ k, (k, pvc) ∈ n) ∧ (∃ k, (k, pvc) ∈ o))) ∧
    (∀ pvc ∈ existing, ∀ hash, eligibleHash env id pvc = some hash →
      ∃ k, env.ExtractPvcTmpName cls pvc = .ok k ∧
        ((mapGet H k = some hash ∧ liveCurrentName env cls id H pvc = some k ∧
            (∃ c, (k, c) ∈ n) ∧ (∀ k1, (k1, pvc) ∉ o) ∧
            ((∀ c ∈ existing, liveCurrentName env cls id H c = some k → c = pvc) →
              (k, pvc) ∈ n)) ∨
         (mapGet H k ≠ some hash ∧ liveStaleName env cls id H pvc = some k ∧
            (∃ c, (k, c) ∈ o) ∧ (∀ k1, (k1, pvc) ∉ n) ∧
            ((∀ c ∈ existing, liveStaleName env cls id H c = some k → c = pvc) →
              (k, pvc) ∈ o)))) := by
  obtain ⟨h1, h2, h3, h4⟩ := classifyPodPvcs_sets env cls id existing H n o hH hc
  have hcur : ∀ c ∈ existing, currentName env cls id H c = liveCurrentName env cls id H c :=
    fun c hcm => (currentName_eq_live env cls id H c (hdecl c hcm)).1
  have hst : ∀ c ∈ existing, staleName env cls id H c = liveStaleName env cls id H c :=
    fun c hcm => (currentName_eq_live env cls id H c (hdecl c hcm)).2
  refine ⟨?_, ?_, h3, ?_⟩
  · intro k pvc hm
    obtain ⟨hmem, hn⟩ := h1 k pvc hm
    exact ⟨hmem, by rw [← hcur pvc hmem]; exact hn⟩
  · intro k pvc hm
    obtain ⟨hmem, hn⟩ := h2 k pvc hm
    exact ⟨hmem, by rw [← hst pvc hmem]; exact hn⟩
  · intro pvc hmem hash he
    obtain ⟨k, hx, hcase⟩ := h4 pvc hmem hash he
    have hiff := lookup_live_iff H k hash (fun h0 => hdecl pvc hmem k (by rw [he, h0]) hx)
    refine ⟨k, hx, ?_⟩
    rcases hcase with ⟨hh, hn, hex, hno, huniq⟩ | ⟨hh, hn, hex, hno, huniq⟩
    · left
      refine ⟨hiff.mp hh, by rw [← hcur pvc hmem]; exact hn, hex, hno, ?_⟩
      intro hu
      apply huniq
      intro c hcm hcn
      exact hu c hcm (by rw [← hcur c hcm]; exact hcn)
    · right
      refine ⟨fun h0 => hh (hiff.mpr h0), by rw [← hst pvc hmem]; exact hn, hex, hno, ?_⟩
      intro hu
      apply huniq
      intro c hcm hcn
      exact hu c hcm (by rw [← hst c hcm]; exact hcn)

/-- C5 as amended, at a concrete input: the template `data` is declared and instance
`0` has a stale and a current claim for it, neither with the empty hash. -/
theorem classifyPodPvcs_partition_witness :
    PvcTmpHashMapping (exampleEnv [] []) [exampleTemplate "data" "v2"] [] = .ok [("data", "v2")] ∧
    classifyPodPvcs (exampleEnv [] []) (exampleSet [exampleTemplate "data" "v2"] none) "0"
        [exampleClaim "web-data-a" "0" "v1", exampleClaim "web-data-b" "0" "v2"]
      = .ok ([("data", exampleClaim "web-data-b" "0" "v2")],
             [("data", exampleClaim "web-data-a" "0" "v1")]) ∧
    (∀ k pvc, (k, pvc) ∈ [("data", exampleClaim "web-data-b" "0" "v2")] →
      pvc ∈ [exampleClaim "web-data-a" "0" "v1", exampleClaim "web-data-b" "0" "v2"] ∧
      liveCurrentName (exampleEnv [] []) (exampleSet [exampleTemplate "data" "v2"] none) "0"
        [("data", "v2")] pvc = some k) ∧
    (∀ k pvc, (k, pvc) ∈ [("data", exampleClaim "web-data-a" "0" "v1")] →
      pvc ∈ [exampleClaim "web-data-a" "0" "v1", exampleClaim "web-data-b" "0" "v2"] ∧
      liveStaleName (exampleEnv [] []) (exampleSet [exampleTemplate "data" "v2"] none) "0"
        [("data", "v2")] pvc = some k) ∧
    ∀ pvc, ¬ ((∃ k, (k, pvc) ∈ [("data", exampleClaim "web-data-b" "0" "v2")]) ∧
      (∃ k, (k, pvc) ∈ [("data", exampleClaim "web-data-a" "0" "v1")])) :=
  have h := classifyPodPvcs_partition (exampleEnv [] [])
    (exampleSet [exampleTemplate "data" "v2"] none)
    "0" [exampleClaim "web-data-a" "0" "v1", exampleClaim "web-data-b" "0" "v2"]
    [("data", "v2")] _ _ (by decide) (by decide)
    (by
      intro pvc hmem k he
      simp only [List.mem_cons, List.mem_singleton, List.not_mem_nil, or_false] at hmem
      rcases hmem with hmem | hmem <;> subst hmem <;> exact absurd he (by decide))
  ⟨by decide, by decide, h.1, h.2.1, h.2.2.1⟩

/-- C5 as stated fails: the template `data` is declared with hash `v2` and instance `0`
has the two eligible claims `web-data-a` (hash `v1`) and `web-data-b` (hash `v0`) of it;
the stale set keeps only `web-data-b`, and `web-data-a` is in neither set.  On a claim
whose template name cannot be extracted the call returns an error and no sets.  And the
eligible claim `web-logs-a` of the undeclared template `logs`, whose hash label is the
empty string, is in the current set although no template of its name has a live hash. -/
theorem classifyPodPvcs_partition_counterexample :
    (eligibleHash (exampleEnv [] []) "0" (exampleClaim "web-data-a" "0" "v1") = some "v1" ∧
     classifyPodPvcs (exampleEnv [] []) (exampleSet [exampleTemplate "data" "v2"] none) "0"
        [exampleClaim "web-data-a" "0" "v1", exampleClaim "web-data-b" "0" "v0"]
      = .ok ([], [("data", exampleClaim "web-data-b" "0" "v0")]) ∧
     exampleClaim "web-data-a" "0" "v1" ∉
      (([] : GoMap PersistentVolumeClaim) ++
        [("data", exampleClaim "web-data-b" "0" "v0")]).map Prod.snd) ∧
    (eligibleHash (exampleEnv [] []) "0" (exampleClaim "data" "0" "v1") = some "v1" ∧
     classifyPodPvcs (exampleEnv [] []) (exampleSet [exampleTemplate "data" "v2"] none) "0"
        [exampleClaim "data" "0" "v1"] = .error "pvc has no postfix") ∧
    (eligibleHash (exampleEnv [] []) "0" (exampleClaim "web-logs-a" "0" "") = some "" ∧
     PvcTmpHashMapping (exampleEnv [] []) [exampleTemplate "data" "v2"] []
      = .ok [("data", "v2")] ∧
     mapGet [("data", "v2")] "logs" = none ∧
     liveStaleName (exampleEnv [] []) (exampleSet [exampleTemplate "data" "v2"] none) "0"
        [("data", "v2")] (exampleClaim "web-logs-a" "0" "") = some "logs" ∧
     classifyPodPvcs (exampleEnv [] []) (exampleSet [exampleTemplate "data" "v2"] none) "0"
        [exampleClaim "web-logs-a" "0" ""]
      = .ok ([("logs", exampleClaim "web-logs-a" "0" "")], [])) := by
  decide

/-- C6, the code at the failing input: only the template `data` is declared, and the
claim `web-logs-a` of the undeclared template `logs`, whose template-hash label is the
empty string, is placed in the current set. -/
theorem classifyPodPvcs_undeclared_empty_hash :
    "logs" ∉ (exampleSet [exampleTemplate "data" "v2"] none).VolumeClaimTemplates.map (·.Name) ∧
    (exampleEnv [] []).ExtractPvcTmpName (exampleSet [exampleTemplate "data" "v2"] none)
      (exampleClaim "web-logs-a" "0" "") = .ok "logs" ∧
    classifyPodPvcs (exampleEnv [] []) (exampleSet [exampleTemplate "data" "v2"] none) "0"
        [exampleClaim "web-logs-a" "0" ""]
      = .ok ([("logs", exampleClaim "web-logs-a" "0" "")], []) ∧
    (DeletePodUnusedPvcs (exampleEnv [] []) (exampleSet [exampleTemplate "data" "v2"] none)
      examplePod [exampleClaim "web-logs-a" "0" ""] 0).events = [] := by
  decide

/-! ## The claims on expectations -/

/-- C7 (no expectation for a failed mutation), as amended: in `provisionUpdatedPvc`,
`DeletePodPvcs`, `deleteUnclaimedPvcs` and `deleteOldPvcs` the calls issued are
successful store mutations, each directly followed by exactly one expectation call for
the owning CollaSet, kind Pvc and the name of the mutated claim, possibly ended by one
failed store mutation, after which no expectation is recorded; the three deleting
functions then return the error of the store, and `provisionUpdatedPvc` returns a new
error with the message `fail to create pvc for id <id>: <error of the store>`. -/
theorem expectation_only_after_success {σ : Type} (env : PvcEnv σ) (cls : CollaSet)
    (id : String) (pod : Pod) (existingPvcs pvcs : List PersistentVolumeClaim)
    (newPvcs oldPvcs : GoMap PersistentVolumeClaim) (s : σ) :
    (expectedAfterSuccess cls (provisionUpdatedPvc env cls id existingPvcs s).events = true ∧
      ∀ claim e, PvcEvent.Create claim (.error e)
          ∈ (provisionUpdatedPvc env cls id existingPvcs s).events →
        (provisionUpdatedPvc env cls id existingPvcs s).result
          = .error ("fail to create pvc for id " ++ id ++ ": " ++ e)) ∧
    (expectedAfterSuccess cls (DeletePodPvcs env cls pod pvcs s).events = true ∧
      ∀ pvc e, PvcEvent.Delete pvc (some e) ∈ (DeletePodPvcs env cls pod pvcs s).events →
        (DeletePodPvcs env cls pod pvcs s).result = some e) ∧
    (expectedAfterSuccess cls (deleteUnclaimedPvcs env cls oldPvcs s).events = true ∧
      ∀ pvc e, PvcEvent.Delete pvc (some e) ∈ (deleteUnclaimedPvcs env cls oldPvcs s).events →
        (deleteUnclaimedPvcs env cls oldPvcs s).result = some e) ∧
    (expectedAfterSuccess cls (deleteOldPvcs env cls newPvcs oldPvcs s).events = true ∧
      ∀ pvc e, PvcEvent.Delete pvc (some e)
          ∈ (deleteOldPvcs env cls newPvcs oldPvcs s).events →
        (deleteOldPvcs env cls newPvcs oldPvcs s).result = some e) := by
  refine ⟨provisionUpdatedPvc_expected env cls id existingPvcs s, ?_, ?_, ?_⟩
  · rw [DeletePodPvcs_eq]
    exact deleteEach_expected env cls _ s
  · rw [deleteUnclaimedPvcs_eq]
    exact deleteEach_expected env cls _ s
  · rw [deleteOldPvcs_eq]
    exact deleteEach_expected env cls _ s

/-- C7 as stated fails: the template `data` is declared, instance `0` has no claim and
the store refuses the create; `provisionUpdatedPvc` records no expectation, and what it
returns is not the error of the store but a new error made from its message. -/
theorem expectation_only_after_success_counterexample :
    (provisionUpdatedPvc exampleRefusingEnv (exampleSet [exampleTemplate "data" "v2"] none)
        "0" [] 0).events
      = [PvcEvent.Create
          { Name := "web-data-", Namespace := "default",
            Labels := some [("collaset.kusionstack.io/instance-id", "0"),
                            ("collaset.kusionstack.io/pvc-template-hash", "v2")],
            DeletionTimestamp := none, Spec := "v2" }
          (.error "create refused")] ∧
    (provisionUpdatedPvc exampleRefusingEnv (exampleSet [exampleTemplate "data" "v2"] none)
        "0" [] 0).result
      = .error "fail to create pvc for id 0: create refused" ∧
    (provisionUpdatedPvc exampleRefusingEnv (exampleSet [exampleTemplate "data" "v2"] none)
        "0" [] 0).result
      ≠ .error "create refused" := by
  decide

/-- C8 (order of expectation and mutation), as amended: in `provisionUpdatedPvc`,
`DeletePodPvcs`, `deleteUnclaimedPvcs` and `deleteOldPvcs` the expectation for a claim
is recorded right after its store mutation succeeded: every successful mutation is
directly followed by the expectation call for its claim, and every expectation call
comes directly after the successful mutation it is for. -/
theorem expectation_right_after_mutation {σ : Type} (env : PvcEnv σ) (cls : CollaSet)
    (id : String) (pod : Pod) (existingPvcs pvcs : List PersistentVolumeClaim)
    (newPvcs oldPvcs : GoMap PersistentVolumeClaim) (s : σ) :
    expectationNext (provisionUpdatedPvc env cls id existingPvcs s).events = true ∧
    expectationNext (DeletePodPvcs env cls pod pvcs s).events = true ∧
    expectationNext (deleteUnclaimedPvcs env cls oldPvcs s).events = true ∧
    expectationNext (deleteOldPvcs env cls newPvcs oldPvcs s).events = true := by
  refine ⟨expectationNext_of_expected cls _ (provisionUpdatedPvc_expected env cls id _ s).1,
    expectationNext_of_expected cls _ ?_, expectationNext_of_expected cls _ ?_,
    expectationNext_of_expected cls _ ?_⟩
  · rw [DeletePodPvcs_eq]
    exact (deleteEach_expected env cls _ s).1
  · rw [deleteUnclaimedPvcs_eq]
    exact (deleteEach_expected env cls _ s).1
  · rw [deleteOldPvcs_eq]
    exact (deleteEach_expected env cls _ s).1

/-- C8 as stated fails: the template `data` is declared and instance `0` has no claim;
`provisionUpdatedPvc` issues the store create first and the expectation for the created
claim `web-data-x` second, and `DeletePodPvcs` issues the store delete of `web-data-a`
before its expectation. -/
theorem expectation_before_mutation_counterexample :
    (provisionUpdatedPvc (exampleEnv [] []) (exampleSet [exampleTemplate "data" "v2"] none)
        "0" [] 0).events
      = [PvcEvent.Create
          { Name := "web-data-", Namespace := "default",
            Labels := some [("collaset.kusionstack.io/instance-id", "0"),
                            ("collaset.kusionstack.io/pvc-template-hash", "v2")],
            DeletionTimestamp := none, Spec := "v2" }
          (.ok (exampleClaim "web-data-x" "0" "v2")),
         PvcEvent.ExpectCreate (exampleSet [exampleTemplate "data" "v2"] none)
          ExpectedResourceType.Pvc "web-data-x" none] ∧
    expectationFirst (provisionUpdatedPvc (exampleEnv [] [])
        (exampleSet [exampleTemplate "data" "v2"] none) "0" [] 0).events = false ∧
    (DeletePodPvcs (exampleEnv [] []) (exampleSet [exampleTemplate "data" "v2"] none)
        examplePod [exampleClaim "web-data-a" "0" "v1"] 0).events
      = [PvcEvent.Delete (exampleClaim "web-data-a" "0" "v1") none,
         PvcEvent.ExpectDelete (exampleSet [exampleTemplate "data" "v2"] none)
          ExpectedResourceType.Pvc "web-data-a" none] ∧
    expectationFirst (DeletePodPvcs (exampleEnv [] [])
        (exampleSet [exampleTemplate "data" "v2"] none) examplePod
        [exampleClaim "web-data-a" "0" "v1"] 0).events = false := by
  decide

/-! ## Lemmas on the adapter -/

theorem Outcome.after_eq_returned {σ : Type} (evs : List AdapterEvent)
    (o : Outcome (AdapterRun σ)) (r : AdapterRun σ) (h : o.after evs = .returned r) :
    ∃ r0, o = .returned r0 ∧ r = { r0 with events := evs ++ r0.events } := by
  cases o with
  | panic => simp [Outcome.after] at h
  | returned r0 =>
    simp only [Outcome.after, Outcome.returned.injEq] at h
    exact ⟨r0, rfl, h.symm⟩

theorem pick_sublist {α : Type} (b : Bool) (l : List α) :
    ∀ fs : List Bool, (pick b l fs).Sublist l := by
  induction l with
  | nil => intro fs; simp [pick]
  | cons a rest ih =>
    intro fs
    cases fs with
    | nil => simp [pick]
    | cons f fs =>
      unfold pick
      split
      · exact List.Sublist.cons₂ _ (ih fs)
      · exact List.Sublist.cons _ (ih fs)

theorem pick_perm {α : Type} (l : List α) :
    ∀ fs : List Bool, fs.length = l.length → (pick true l fs ++ pick false l fs).Perm l := by
  induction l with
  | nil => intro fs _; simp [pick]
  | cons a rest ih =>
    intro fs hlen
    cases fs with
    | nil => simp at hlen
    | cons f fs =>
      simp only [List.length_cons, Nat.add_right_cancel_iff] at hlen
      cases f with
      | true =>
        simp only [pick, if_true, Bool.true_eq_false, if_false, List.cons_append]
        exact List.Perm.cons _ (ih fs hlen)
      | false =>
        simp only [pick, if_true, Bool.false_eq_true, if_false]
        exact List.Perm.trans List.perm_middle (List.Perm.cons _ (ih fs hlen))

theorem pick_disjoint {α : Type} (l : List α) :
    ∀ fs : List Bool, l.Nodup → ∀ x ∈ pick true l fs, x ∉ pick false l fs := by
  induction l with
  | nil => intro fs _ x hx; simp [pick] at hx
  | cons a rest ih =>
    intro fs hnd x hx
    cases fs with
    | nil => simp [pick] at hx
    | cons f fs =>
      simp only [List.nodup_cons] at hnd
      cases f with
      | true =>
        simp only [pick, if_true, Bool.true_eq_false, if_false, List.mem_cons] at hx ⊢
        rcases hx with hx | hx
        · subst hx
          exact fun h => hnd.1 ((pick_sublist false rest fs).subset h)
        · exact ih fs hnd.2 x hx
      | false =>
        simp only [pick, if_true, Bool.false_eq_true, if_false, List.mem_cons, not_or] at hx ⊢
        refine ⟨?_, ih fs hnd.2 x hx⟩
        intro e
        subst e
        exact hnd.1 ((pick_sublist true rest fs).subset hx)

theorem take_succ_set {α : Type} (l : List α) (i : Nat) (a : α) (h : i < l.length) :
    (l.set i a).take (i + 1) = l.take i ++ [a] := by
  rw [List.take_succ, List.getElem?_set_self h, List.set_take]
  simp [List.set_eq_of_length_le]

/-- A run of the loop of `UpdateEmployees` that returned: either a pod read failed, or
the error is nil and the two lists returned are what the slices held before, followed
by the employees of the list whose pod update succeeded, respectively failed. -/
theorem updateLoop_returned {σ : Type} (env : AdapterEnv σ) (emp : Employer)
    (l : List IEmployeeStatus) :
    ∀ (su fu : List IEmployeeStatus) (si fi : Nat) (s : σ) (r : AdapterRun σ),
    si + l.length ≤ su.length → fi + l.length ≤ fu.length →
    updateLoop env emp l su fu si fi s = .returned r →
    (∃ ns name e, AdapterEvent.Get ns name (.error e) ∈ r.events) ∨
    (r.result.err = none ∧
      r.result.succeeded = su.take si ++ pick true l (updateOutcomes r.events) ∧
      r.result.failed = fu.take fi ++ pick false l (updateOutcomes r.events) ∧
      (updateOutcomes r.events).length = l.length ∧
      readNames r.events = l.map employeeName) := by
  induction l with
  | nil =>
    intro su fu si fi s r _ _ h
    simp only [updateLoop, Outcome.returned.injEq] at h
    subst h
    right
    simp [pick, updateOutcomes, readNames]
  | cons employee rest ih =>
    intro su fu si fi s r hsu hfu h
    simp only [List.length_cons] at hsu hfu
    unfold updateLoop at h
    split at h
    · cases h
    · rename_i id name statuses
      split at h
      rename_i got s1 hget
      split at h
      · cases h
      · rename_i podEmployeeStatus
        split at h
        · rename_i e
          simp only [Outcome.returned.injEq] at h
          subst h
          left
          exact ⟨emp.Namespace, name, e, List.mem_singleton.mpr rfl⟩
        · rename_i pod
          split at h
          · cases h
          · rename_i extraStatus hextra
            split at h
            · cases h
            · rename_i labels hlabels
              simp only at h
              split at h
              · rename_i e s2 hupd
                obtain ⟨r0, hr0, hr⟩ := Outcome.after_eq_returned _ _ _ h
                have hlen : (fu.set fi (IEmployeeStatus.Status id name
                    (EmployeeStatusesValue.PodEmployeeStatuses podEmployeeStatus))).length
                    = fu.length := List.length_set _ _ _
                rcases ih su _ si (fi + 1) s2 r0 (by omega) (by rw [hlen]; omega) hr0 with hf | hok
                · left
                  obtain ⟨ns, nm, e1, hmem⟩ := hf
                  subst hr
                  exact ⟨ns, nm, e1, List.mem_append_right _ hmem⟩
                · right
                  obtain ⟨herr, hs, hfl, hlen2, hnames⟩ := hok
                  subst hr
                  refine ⟨herr, ?_, ?_, ?_, ?_⟩
                  · simpa [updateOutcomes, pick] using hs
                  · rw [hfl, take_succ_set _ _ _ (by omega)]
                    simp [updateOutcomes, pick]
                  · simp [updateOutcomes, hlen2]
                  · simp [readNames, employeeName, hnames]
              · rename_i s2 hupd
                obtain ⟨r0, hr0, hr⟩ := Outcome.after_eq_returned _ _ _ h
                have hlen : (su.set si (IEmployeeStatus.Status id name
                    (EmployeeStatusesValue.PodEmployeeStatuses podEmployeeStatus))).length
                    = su.length := List.length_set _ _ _
                rcases ih _ fu (si + 1) fi s2 r0 (by rw [hlen]; omega) (by omega) hr0 with hf | hok
                · left
                  obtain ⟨ns, nm, e1, hmem⟩ := hf
                  subst hr
                  exact ⟨ns, nm, e1, List.mem_append_right _ hmem⟩
                · right
                  obtain ⟨herr, hs, hfl, hlen2, hnames⟩ := hok
                  subst hr
                  refine ⟨herr, ?_, ?_, ?_, ?_⟩
                  · rw [hs, take_succ_set _ _ _ (by omega)]
                    simp [updateOutcomes, pick]
                  · simpa [updateOutcomes, pick] using hfl
                  · simp [updateOutcomes, hlen2]
                  · simp [readNames, employeeName, hnames]

/-- The loop of `UpdateEmployees` returns, without a failed read, when the employees are
well typed and their pods can be read and carry a label map. -/
theorem updateLoop_returns {σ : Type} (env : AdapterEnv σ) (emp : Employer)
    (l : List IEmployeeStatus) :
    ∀ (su fu : List IEmployeeStatus) (si fi : Nat) (s : σ),
    (∀ e ∈ l, wellTyped e = true) →
    (∀ s, ∀ e ∈ l, ∃ pod labels,
      (env.Get s emp.Namespace (employeeName e)).1 = .ok pod ∧ pod.Labels = some labels) →
    ∃ r, updateLoop env emp l su fu si fi s = .returned r ∧
      ∀ ns name e, AdapterEvent.Get ns name (.error e) ∉ r.events := by
  induction l with
  | nil =>
    intro su fu si fi s _ _
    exact ⟨_, rfl, by simp⟩
  | cons employee rest ih =>
    intro su fu si fi s hty hget
    have hty1 := hty employee (List.mem_cons_self _ _)
    obtain ⟨pod, labels, hg, hl⟩ := hget s employee (List.mem_cons_self _ _)
    have hty2 : ∀ e ∈ rest, wellTyped e = true := fun e he => hty e (List.mem_cons_of_mem _ he)
    have hget2 : ∀ s, ∀ e ∈ rest, ∃ pod labels,
        (env.Get s emp.Namespace (employeeName e)).1 = .ok pod ∧ pod.Labels = some labels :=
      fun s e he => hget s e (List.mem_cons_of_mem _ he)
    cases employee with
    | nil => simp [wellTyped] at hty1
    | Status id name statuses =>
      cases statuses with
      | Other => simp [wellTyped] at hty1
      | PodEmployeeStatuses ps =>
        obtain ⟨ready, extra⟩ := ps
        cases extra with
        | Other => simp [wellTyped] at hty1
        | PodExtraStatus x =>
          simp only [employeeName] at hg
          unfold updateLoop
          simp only [hg, hl]
          generalize env.UpdatePod _ _ = u
          obtain ⟨res, s2⟩ := u
          cases res with
          | some e =>
            obtain ⟨r0, hr0, hno⟩ := ih su
              (fu.set fi (IEmployeeStatus.Status id name
                (EmployeeStatusesValue.PodEmployeeStatuses ⟨ready, ExtraStatusValue.PodExtraStatus x⟩)))
              si (fi + 1) s2 hty2 hget2
            simp only [hr0]
            refine ⟨_, rfl, ?_⟩
            intro ns nm e1 hmem
            have hmem2 : AdapterEvent.Get ns nm (.error e1) ∈ r0.events := by
              simpa [Outcome.after] using hmem
            exact hno ns nm e1 hmem2
          | none =>
            obtain ⟨r0, hr0, hno⟩ := ih
              (su.set si (IEmployeeStatus.Status id name
                (EmployeeStatusesValue.PodEmployeeStatuses ⟨ready, ExtraStatusValue.PodExtraStatus x⟩)))
              fu (si + 1) fi s2 hty2 hget2
            simp only [hr0]
            refine ⟨_, rfl, ?_⟩
            intro ns nm e1 hmem
            have hmem2 : AdapterEvent.Get ns nm (.error e1) ∈ r0.events := by
              simpa [Outcome.after] using hmem
            exact hno ns nm e1 hmem2

/-- A run of `UpdateEmployees` that returned without a failed read. -/
theorem UpdateEmployees_returned {σ : Type} (env : AdapterEnv σ) (employer : Option Employer)
    (toUpdate : List IEmployeeStatus) (s : σ) (r : AdapterRun σ)
    (h : UpdateEmployees env employer toUpdate s = .returned r)
    (hno : ∀ ns name e, AdapterEvent.Get ns name (.error e) ∉ r.events) :
    (employer = none ∧ r.result.succeeded = [] ∧ r.result.failed = []) ∨
    (r.result.err = none ∧
      r.result.succeeded = pick true toUpdate (updateOutcomes r.events) ∧
      r.result.failed = pick false toUpdate (updateOutcomes r.events) ∧
      (updateOutcomes r.events).length = toUpdate.length ∧
      readNames r.events = toUpdate.map employeeName) := by
  unfold UpdateEmployees at h
  cases employer with
  | none =>
    simp only [Outcome.returned.injEq] at h
    subst h
    exact Or.inl ⟨rfl, rfl, rfl⟩
  | some emp =>
    right
    simp only at h
    split at h
    · rename_i hlen
      have hnil : toUpdate = [] := List.length_eq_zero.mp hlen
      simp only [Outcome.returned.injEq] at h
      subst h
      subst hnil
      simp [pick, updateOutcomes, readNames]
    · rcases updateLoop_returned env emp toUpdate _ _ 0 0 s r (by simp) (by simp) h with hf | hok
      · obtain ⟨ns, name, e, hmem⟩ := hf
        exact absurd hmem (hno ns name e)
      · simpa using hok

/-- A run of `CreateEmployees` that returned: the succeeded list is the input or empty,
the failed list is empty. -/
theorem CreateEmployees_returned {σ : Type} (env : AdapterEnv σ) (employer : Option Employer)
    (toCreate : List IEmployeeStatus) (s : σ) (r : AdapterRun σ)
    (h : CreateEmployees env employer toCreate s = .returned r) :
    (r.result.succeeded = toCreate ∨ r.result.succeeded = []) ∧ r.result.failed = [] := by
  unfold CreateEmployees at h
  cases employer with
  | none =>
    simp only [Outcome.returned.injEq] at h
    subst h
    exact ⟨Or.inr rfl, rfl⟩
  | some emp =>
    simp only at h
    split at h
    · simp only [Outcome.returned.injEq] at h
      subst h
      exact ⟨Or.inl rfl, rfl⟩
    · split at h
      · cases h
      · split at h
        · cases h
        · split at h
          · simp only [Outcome.returned.injEq] at h
            subst h
            exact ⟨Or.inr rfl, rfl⟩
          · simp only [Outcome.returned.injEq] at h
            subst h
            exact ⟨Or.inl rfl, rfl⟩

/-- A run of `DeleteEmployees` that returned: the succeeded list is the input or empty,
the failed list is empty. -/
theorem DeleteEmployees_returned {σ : Type} (env : AdapterEnv σ) (employer : Option Employer)
    (toDelete : List IEmployeeStatus) (s : σ) (r : AdapterRun σ)
    (h : DeleteEmployees env employer toDelete s = .returned r) :
    (r.result.succeeded = toDelete ∨ r.result.succeeded = []) ∧ r.result.failed = [] := by
  unfold DeleteEmployees at h
  cases employer with
  | none =>
    simp only [Outcome.returned.injEq] at h
    subst h
    exact ⟨Or.inr rfl, rfl⟩
  | some emp =>
    simp only at h
    split at h
    · simp only [Outcome.returned.injEq] at h
      subst h
      exact ⟨Or.inl rfl, rfl⟩
    · split at h
      · cases h
      · split at h
        · cases h
        · split at h
          · simp only [Outcome.returned.injEq] at h
            subst h
            exact ⟨Or.inr rfl, rfl⟩
          · simp only [Outcome.returned.injEq] at h
            subst h
            exact ⟨Or.inl rfl, rfl⟩

/-! ## The claims on the adapter -/

/-- C9 (partial-failure isolation in `UpdateEmployees`), as amended: for a non-nil
employer and a list of well-typed employees whose pods can all be read and carry a
label map, the call returns a nil error; the pod of every employee is read and an update
attempted, in input order, a failed update not stopping the later ones; the succeeded
list is exactly the employees whose pod update succeeded and the failed list exactly
those whose pod update failed, both in input order and together a rearrangement of
`toUpdate`; the two lists have no element in common when `toUpdate` has no repeated
element. -/
theorem UpdateEmployees_partial_failure {σ : Type} (env : AdapterEnv σ) (emp : Employer)
    (toUpdate : List IEmployeeStatus) (s : σ)
    (hty : ∀ e ∈ toUpdate, wellTyped e = true)
    (hget : ∀ s, ∀ e ∈ toUpdate, ∃ pod labels,
      (env.Get s emp.Namespace (employeeName e)).1 = .ok pod ∧ pod.Labels = some labels) :
    ∃ r, UpdateEmployees env (some emp) toUpdate s = .returned r ∧
      r.result.err = none ∧
      readNames r.events = toUpdate.map employeeName ∧
      (updateOutcomes r.events).length = toUpdate.length ∧
      r.result.succeeded = pick true toUpdate (updateOutcomes r.events) ∧
      r.result.failed = pick false toUpdate (updateOutcomes r.events) ∧
      r.result.succeeded.Sublist toUpdate ∧ r.result.failed.Sublist toUpdate ∧
      (r.result.succeeded ++ r.result.failed).Perm toUpdate ∧
      (toUpdate.Nodup → ∀ x ∈ r.result.succeeded, x ∉ r.result.failed) := by
  have hret : ∃ r, UpdateEmployees env (some emp) toUpdate s = .returned r ∧
      ∀ ns name e, AdapterEvent.Get ns name (.error e) ∉ r.events := by
    unfold UpdateEmployees
    simp only
    split
    · exact ⟨_, rfl, by simp⟩
    · exact updateLoop_returns env emp toUpdate _ _ 0 0 s hty hget
  obtain ⟨r, hr, hno⟩ := hret
  rcases UpdateEmployees_returned env (some emp) toUpdate s r hr hno with hnil | hok
  · simp at hnil
  · obtain ⟨herr, hs, hf, hlen, hnames⟩ := hok
    refine ⟨r, hr, herr, hnames, hlen, hs, hf, ?_, ?_, ?_, ?_⟩
    · rw [hs]; exact pick_sublist _ _ _
    · rw [hf]; exact pick_sublist _ _ _
    · rw [hs, hf]; exact pick_perm _ _ hlen
    · intro hnd
      rw [hs, hf]
      exact pick_disjoint _ _ hnd

/-- C9 as amended, at a concrete input: the employees `a`, `b`, `c`, the update of the
pod of `b` failing; the call returns succeeded `[a, c]` and failed `[b]`. -/
theorem UpdateEmployees_partial_failure_witness :
    (∀ e ∈ [exampleEmployee "a", exampleEmployee "b", exampleEmployee "c"],
      wellTyped e = true) ∧
    (UpdateEmployees (exampleAdapterEnv (some []) ["b"] 10) (some exampleService)
        [exampleEmployee "a", exampleEmployee "b", exampleEmployee "c"] 0).result?
      = some ⟨[exampleEmployee "a", exampleEmployee "c"], [exampleEmployee "b"], none⟩ ∧
    ∃ r, UpdateEmployees (exampleAdapterEnv (some []) ["b"] 10) (some exampleService)
        [exampleEmployee "a", exampleEmployee "b", exampleEmployee "c"] 0 = .returned r ∧
      r.result.err = none ∧
      readNames r.events
        = [exampleEmployee "a", exampleEmployee "b", exampleEmployee "c"].map employeeName ∧
      (updateOutcomes r.events).length
        = [exampleEmployee "a", exampleEmployee "b", exampleEmployee "c"].length ∧
      r.result.succeeded
        = pick true [exampleEmployee "a", exampleEmployee "b", exampleEmployee "c"]
            (updateOutcomes r.events) ∧
      r.result.failed
        = pick false [exampleEmployee "a", exampleEmployee "b", exampleEmployee "c"]
            (updateOutcomes r.events) ∧
      r.result.succeeded.Sublist
        [exampleEmployee "a", exampleEmployee "b", exampleEmployee "c"] ∧
      r.result.failed.Sublist [exampleEmployee "a", exampleEmployee "b", exampleEmployee "c"] ∧
      (r.result.succeeded ++ r.result.failed).Perm
        [exampleEmployee "a", exampleEmployee "b", exampleEmployee "c"] ∧
      ([exampleEmployee "a", exampleEmployee "b", exampleEmployee "c"].Nodup →
        ∀ x ∈ r.result.succeeded, x ∉ r.result.failed) :=
  ⟨by decide, by decide,
   UpdateEmployees_partial_failure (exampleAdapterEnv (some []) ["b"] 10) exampleService
    [exampleEmployee "a", exampleEmployee "b", exampleEmployee "c"] 0 (by decide)
    (fun _ _ _ => ⟨_, _, rfl, rfl⟩)⟩

/-- C9 as stated fails: the list holds the well-typed employee `a` twice, its pod can be
read and carries a label map, the first update of the pod succeeds and the second one
fails; `a` is both in the succeeded and in the failed list. -/
theorem UpdateEmployees_partial_failure_counterexample :
    (∀ e ∈ [exampleEmployee "a", exampleEmployee "a"], wellTyped e = true) ∧
    (∀ s name, ((exampleAdapterEnv (some []) [] 1).Get s "default" name).1
      = .ok { Name := name, Namespace := "default", Labels := some [],
              DeletionTimestamp := none, Volumes := [] }) ∧
    (UpdateEmployees (exampleAdapterEnv (some []) [] 1) (some exampleService)
        [exampleEmployee "a", exampleEmployee "a"] 0).result?
      = some ⟨[exampleEmployee "a"], [exampleEmployee "a"], none⟩ :=
  ⟨by decide, fun _ _ => rfl, by decide⟩

/-- C10 (succeeded and failed are subsets of the input), as amended: whenever
`CreateEmployees` or `DeleteEmployees` returns, the succeeded list is the input list or
empty and the failed list is empty; whenever `UpdateEmployees` returns and no pod read
failed, every element of the succeeded list and of the failed list is an element of
the input list, and no element is in both when the input list has no repeated element.
`CreateEmployees` and `DeleteEmployees` do return when no employee is the nil interface
and the employer, if not nil, has an annotation map. -/
theorem employees_results_within_input {σ : Type} (env : AdapterEnv σ)
    (employer : Option Employer) (l : List IEmployeeStatus) (s : σ) :
    (∀ r, CreateEmployees env employer l s = .returned r →
      (∀ x ∈ r.result.succeeded, x ∈ l) ∧ r.result.failed = []) ∧
    (∀ r, DeleteEmployees env employer l s = .returned r →
      (∀ x ∈ r.result.succeeded, x ∈ l) ∧ r.result.failed = []) ∧
    (∀ r, UpdateEmployees env employer l s = .returned r →
      (∀ ns name e, AdapterEvent.Get ns name (.error e) ∉ r.events) →
      (∀ x ∈ r.result.succeeded, x ∈ l) ∧ (∀ x ∈ r.result.failed, x ∈ l) ∧
      (l.Nodup → ∀ x ∈ r.result.succeeded, x ∉ r.result.failed)) ∧
    (employeeNames l ≠ none → (∀ emp, employer = some emp → emp.Annotations ≠ none) →
      (∃ r, CreateEmployees env employer l s = .returned r) ∧
      (∃ r, DeleteEmployees env employer l s = .returned r)) := by
  refine ⟨?_, ?_, ?_, ?_⟩
  · intro r h
    obtain ⟨hs, hf⟩ := CreateEmployees_returned env employer l s r h
    refine ⟨?_, hf⟩
    rcases hs with hs | hs <;> rw [hs] <;> simp
  · intro r h
    obtain ⟨hs, hf⟩ := DeleteEmployees_returned env employer l s r h
    refine ⟨?_, hf⟩
    rcases hs with hs | hs <;> rw [hs] <;> simp
  · intro r h hno
    rcases UpdateEmployees_returned env employer l s r h hno with ⟨_, hs, hf⟩ | hok
    · rw [hs, hf]
      simp
    · obtain ⟨_, hs, hf, _, _⟩ := hok
      rw [hs, hf]
      exact ⟨fun x hx => (pick_sublist _ _ _).subset hx,
        fun x hx => (pick_sublist _ _ _).subset hx, fun hnd => pick_disjoint _ _ hnd⟩
  · intro hnames hanno
    cases employer with
    | none => exact ⟨⟨_, rfl⟩, ⟨_, rfl⟩⟩
    | some emp =>
      have ha := hanno emp rfl
      cases hn : employeeNames l with
      | none => exact absurd hn hnames
      | some names =>
        cases han : emp.Annotations with
        | none => exact absurd han ha
        | some anno =>
          constructor
          · unfold CreateEmployees
            simp only [hn, han]
            split
            · exact ⟨_, rfl⟩
            · split <;> exact ⟨_, rfl⟩
          · unfold DeleteEmployees
            simp only [hn, han]
            split
            · exact ⟨_, rfl⟩
            · split <;> exact ⟨_, rfl⟩

/-- C10 as stated fails: when the read of the pod of the only employee `a` fails,
`UpdateEmployees` returns the two slices at their full length, each holding the nil
interface, which is not an element of the input and is in both lists; and when the
input holds `a` twice and only the first update succeeds, `a` is in both lists. -/
theorem employees_results_within_input_counterexample :
    (UpdateEmployees exampleUnreadableEnv (some exampleService) [exampleEmployee "a"] 0).result?
      = some ⟨[IEmployeeStatus.nil], [IEmployeeStatus.nil], some "connection refused"⟩ ∧
    IEmployeeStatus.nil ∉ [exampleEmployee "a"] ∧
    (UpdateEmployees (exampleAdapterEnv (some []) [] 1) (some exampleService)
        [exampleEmployee "a", exampleEmployee "a"] 0).result?
      = some ⟨[exampleEmployee "a"], [exampleEmployee "a"], none⟩ := by
  decide

/-! ## Lemmas on what the deleting methods touch -/

theorem eligibleHash_some {σ : Type} (env : PvcEnv σ) (id : String)
    (pvc : PersistentVolumeClaim) (hash : String)
    (h : eligibleHash env id pvc = some hash) :
    pvc.DeletionTimestamp = none ∧ ∃ labels, pvc.Labels = some labels ∧
      mapGet labels env.PodInstanceIDLabelKey = some id ∧
      mapGet labels env.PvcTemplateHashLabelKey = some hash := by
  unfold eligibleHash at h
  by_cases hd : pvc.DeletionTimestamp = none
  · simp only [hd, ne_eq, not_true_eq_false, if_false] at h
    cases hl : pvc.Labels with
    | none => rw [hl] at h; simp at h
    | some labels =>
      rw [hl] at h
      simp only at h
      by_cases hi : mapGet labels env.PodInstanceIDLabelKey = some id
      · simp only [hi, if_true] at h
        exact ⟨hd, labels, rfl, hi, h⟩
      · simp [hi] at h
  · simp [hd] at h

theorem staleName_eligible {σ : Type} (env : PvcEnv σ) (cls : CollaSet) (id : String)
    (H : GoMap String) (k : String) (pvc : PersistentVolumeClaim)
    (h : staleName env cls id H pvc = some k) :
    ∃ hash, eligibleHash env id pvc = some hash := by
  unfold staleName at h
  cases he : eligibleHash env id pvc with
  | none => rw [he] at h; simp at h
  | some hash => exact ⟨hash, rfl⟩

theorem currentName_staleName_exclusive {σ : Type} (env : PvcEnv σ) (cls : CollaSet)
    (id : String) (H : GoMap String) (pvc : PersistentVolumeClaim) (k1 k2 : String)
    (h1 : currentName env cls id H pvc = some k1)
    (h2 : staleName env cls id H pvc = some k2) : False := by
  unfold currentName at h1
  unfold staleName at h2
  cases he : eligibleHash env id pvc with
  | none => rw [he] at h1; simp at h1
  | some hash =>
    rw [he] at h1 h2
    simp only at h1 h2
    cases hx : env.ExtractPvcTmpName cls pvc with
    | error e => rw [hx] at h1; simp at h1
    | ok k =>
      rw [hx] at h1 h2
      simp only at h1 h2
      by_cases hh : mapGetD H k "" = hash
      · simp [hh] at h2
      · simp [hh] at h1

/-- The calls of `DeletePodUnusedPvcs` for a pod without an instance id: none. -/
theorem DeletePodUnusedPvcs_no_id {σ : Type} (env : PvcEnv σ) (cls : CollaSet) (pod : Pod)
    (existing : List PersistentVolumeClaim) (s : σ) (h : podInstanceID env pod = none) :
    (DeletePodUnusedPvcs env cls pod existing s).events = [] ∧
    (DeletePodUnusedPvcs env cls pod existing s).result = none := by
  unfold DeletePodUnusedPvcs
  unfold podInstanceID at h
  cases hl : pod.Labels with
  | none => exact ⟨rfl, rfl⟩
  | some labels =>
    rw [hl] at h
    simp only at h ⊢
    rw [h]
    exact ⟨rfl, rfl⟩

/-- Every claim `DeletePodPvcs` issues a delete for has a label map, as has the pod, and
the two single-value lookups of the instance-id label agree. -/
theorem DeletePodPvcs_deletes {σ : Type} (env : PvcEnv σ) (cls : CollaSet) (pod : Pod)
    (pvcs : List PersistentVolumeClaim) (s : σ) (pvc : PersistentVolumeClaim)
    (h : pvc ∈ deletesOf (DeletePodPvcs env cls pod pvcs s).events) :
    pvc ∈ pvcs ∧ pvc.Labels ≠ none ∧ pod.Labels ≠ none ∧
      mapGetD (pvc.Labels.getD []) env.PodInstanceIDLabelKey ""
        = mapGetD (pod.Labels.getD []) env.PodInstanceIDLabelKey "" := by
  rw [DeletePodPvcs_eq] at h
  have hm := deleteEach_deletes_mem env cls _ s pvc h
  rw [List.mem_filter] at hm
  obtain ⟨hmem, hsame⟩ := hm
  unfold sameInstance at hsame
  simp only [Bool.and_eq_true, Bool.not_eq_eq_eq_not, Bool.not_true, decide_eq_false_iff_not,
    not_or, decide_eq_true_eq] at hsame
  exact ⟨hmem, hsame.1.1, hsame.1.2, hsame.2⟩

/-! ## The claims on what the deleting methods touch -/

/-- C19 (`DeletePodUnusedPvcs` touches only stale claims of the pod's instance): every
claim it issues a delete for is one of the existing claims, was placed in the stale set
by `classifyPodPvcs` for the pod's instance id and is in no entry of the current set;
it is not terminating, carries the instance-id label with the pod's value and carries a
template-hash label.  For a pod without the instance-id label no call is issued. -/
theorem DeletePodUnusedPvcs_only_stale {σ : Type} (env : PvcEnv σ) (cls : CollaSet)
    (pod : Pod) (existing : List PersistentVolumeClaim) (s : σ) :
    (∀ pvc ∈ deletesOf (DeletePodUnusedPvcs env cls pod existing s).events,
      ∃ id n o k labels hash, podInstanceID env pod = some id ∧
        classifyPodPvcs env cls id existing = .ok (n, o) ∧ (k, pvc) ∈ o ∧
        (∀ k1, (k1, pvc) ∉ n) ∧ pvc ∈ existing ∧
        pvc.DeletionTimestamp = none ∧ pvc.Labels = some labels ∧
        mapGet labels env.PodInstanceIDLabelKey = some id ∧
        mapGet labels env.PvcTemplateHashLabelKey = some hash) ∧
    (podInstanceID env pod = none →
      (DeletePodUnusedPvcs env cls pod existing s).events = []) := by
  refine ⟨?_, fun h => (DeletePodUnusedPvcs_no_id env cls pod existing s h).1⟩
  intro pvc h
  obtain ⟨id, n, o, k, hid, hc, hk, _⟩ := DeletePodUnusedPvcs_deletes env cls pod existing s pvc h
  obtain ⟨H, hH, _, _, _, _⟩ := classifyPodPvcs_ok env cls id existing n o hc
  have hl := lastMatch_some _ _ _ ((mem_oldPvcs_iff env cls id existing H n o hH hc k pvc).mp hk)
  have hst := (isStale_iff env cls id H k pvc).mp hl.2
  obtain ⟨hash, he⟩ := staleName_eligible env cls id H k pvc hst
  obtain ⟨hd, labels, hlab, hinst, hhash⟩ := eligibleHash_some env id pvc hash he
  refine ⟨id, n, o, k, labels, hash, hid, hc, hk, ?_, hl.1, hd, hlab, hinst, hhash⟩
  intro k1 hk1
  have hl1 := lastMatch_some _ _ _
    ((mem_newPvcs_iff env cls id existing H n o hH hc k1 pvc).mp hk1)
  exact currentName_staleName_exclusive env cls id H pvc k1 k
    ((isCurrent_iff env cls id H k1 pvc).mp hl1.2) hst

/-- C19, at a concrete input: policy Delete, the template `data` is declared, the pod is
of instance `0`; the existing claims are a stale and a current claim of instance `0`, a
stale claim of instance `1`, and a claim without labels; only the first is deleted. -/
theorem DeletePodUnusedPvcs_only_stale_witness :
    deletesOf (DeletePodUnusedPvcs (exampleEnv [] [])
        (exampleSet [exampleTemplate "data" "v2"] none) examplePod
        [exampleClaim "web-data-a" "0" "v1", exampleClaim "web-data-b" "0" "v2",
         exampleClaim "web-data-c" "1" "v1", exampleTemplate "web-data-d" "v1"] 0).events
      = [exampleClaim "web-data-a" "0" "v1"] ∧
    ((∀ pvc ∈ deletesOf (DeletePodUnusedPvcs (exampleEnv [] [])
          (exampleSet [exampleTemplate "data" "v2"] none) examplePod
          [exampleClaim "web-data-a" "0" "v1", exampleClaim "web-data-b" "0" "v2",
           exampleClaim "web-data-c" "1" "v1", exampleTemplate "web-data-d" "v1"] 0).events,
      ∃ id n o k labels hash, podInstanceID (exampleEnv [] []) examplePod = some id ∧
        classifyPodPvcs (exampleEnv [] []) (exampleSet [exampleTemplate "data" "v2"] none) id
          [exampleClaim "web-data-a" "0" "v1", exampleClaim "web-data-b" "0" "v2",
           exampleClaim "web-data-c" "1" "v1", exampleTemplate "web-data-d" "v1"]
          = .ok (n, o) ∧ (k, pvc) ∈ o ∧
        (∀ k1, (k1, pvc) ∉ n) ∧
        pvc ∈ [exampleClaim "web-data-a" "0" "v1", exampleClaim "web-data-b" "0" "v2",
           exampleClaim "web-data-c" "1" "v1", exampleTemplate "web-data-d" "v1"] ∧
        pvc.DeletionTimestamp = none ∧ pvc.Labels = some labels ∧
        mapGet labels (exampleEnv [] []).PodInstanceIDLabelKey = some id ∧
        mapGet labels (exampleEnv [] []).PvcTemplateHashLabelKey = some hash) ∧
     (podInstanceID (exampleEnv [] []) examplePod = none →
      (DeletePodUnusedPvcs (exampleEnv [] [])
        (exampleSet [exampleTemplate "data" "v2"] none) examplePod
        [exampleClaim "web-data-a" "0" "v1", exampleClaim "web-data-b" "0" "v2",
         exampleClaim "web-data-c" "1" "v1", exampleTemplate "web-data-d" "v1"] 0).events
        = [])) :=
  ⟨by decide,
   DeletePodUnusedPvcs_only_stale (exampleEnv [] [])
    (exampleSet [exampleTemplate "data" "v2"] none) examplePod _ 0⟩

/-- C20, the code at the failing input: the pod carries labels but no instance-id
label, and so does the claim `db-data`; `DeletePodPvcs` compares the two single-value
lookups, both the empty string, and deletes the claim. -/
theorem DeletePodPvcs_deletes_unlabelled :
    mapGet (exampleUnlabelledPod.Labels.getD []) (exampleEnv [] []).PodInstanceIDLabelKey
      = none ∧
    mapGet ((exampleForeignClaim "db-data").Labels.getD [])
      (exampleEnv [] []).PodInstanceIDLabelKey = none ∧
    (DeletePodPvcs (exampleEnv [] []) (exampleSet [] none) exampleUnlabelledPod
        [exampleForeignClaim "db-data"] 0).events
      = [PvcEvent.Delete (exampleForeignClaim "db-data") none,
         PvcEvent.ExpectDelete (exampleSet [] none) ExpectedResourceType.Pvc "db-data" none] := by
  decide

/-! ## Lemmas on mounting -/

theorem filter_key_of_nodup {V : Type} (l : List (String × V)) (k : String) (v : V)
    (hnd : (l.map Prod.fst).Nodup) (h : (k, v) ∈ l) :
    l.filter (fun kv => decide (kv.1 = k)) = [(k, v)] := by
  induction l with
  | nil => simp at h
  | cons kv rest ih =>
    obtain ⟨k0, v0⟩ := kv
    simp only [List.map_cons, List.nodup_cons] at hnd
    rcases List.mem_cons.mp h with h1 | h1
    · cases h1
      have hrest : rest.filter (fun kv => decide (kv.1 = k)) = [] := by
        rw [List.filter_eq_nil_iff]
        intro kv hkv hk
        simp only [decide_eq_true_eq] at hk
        apply hnd.1
        rw [← hk]
        exact List.mem_map_of_mem Prod.fst hkv
      simp [List.filter_cons, hrest]
    · have hne : ¬ k0 = k := by
        intro e
        subst e
        exact hnd.1 (List.mem_map_of_mem Prod.fst h1)
      simp only [List.filter_cons, hne, decide_False, Bool.false_eq_true, if_false]
      exact ih hnd.2 h1

theorem podInstanceID_eq {σ : Type} (env : PvcEnv σ) (pod : Pod) :
    mapGet (pod.Labels.getD []) env.PodInstanceIDLabelKey = podInstanceID env pod := by
  unfold podInstanceID
  cases pod.Labels <;> rfl

/-- A successful `CreatePodPvcs` on a pod of instance `id`: the provisioning succeeded
with a map `m1` and the store `s1`, and the volumes of the pod are the claim volumes of
the entries of `m1` followed by the former volumes of other names. -/
theorem CreatePodPvcs_ok {σ : Type} (env : PvcEnv σ) (cls : CollaSet) (pod pod2 : Pod)
    (existing : List PersistentVolumeClaim) (s : σ) (id : String)
    (hid : podInstanceID env pod = some id)
    (h : (CreatePodPvcs env cls pod existing s).result = (none, pod2)) :
    ∃ m1, (provisionUpdatedPvc env cls id existing s).result = .ok m1 ∧
      (CreatePodPvcs env cls pod existing s).events
        = (provisionUpdatedPvc env cls id existing s).events ∧
      pod2 = { pod with
        Volumes :=
          (env.range (provisionUpdatedPvc env cls id existing s).store m1).map
              (fun kv => claimVolume kv.1 kv.2) ++
            pod.Volumes.filter (fun v => !mapHas m1 v.Name) } := by
  unfold CreatePodPvcs at h ⊢
  rw [podInstanceID_eq, hid] at h ⊢
  simp only at h ⊢
  generalize provisionUpdatedPvc env cls id existing s = r at h ⊢
  obtain ⟨res, s1, evs⟩ := r
  cases res with
  | error e => simp at h
  | ok m1 =>
    simp only [Prod.mk.injEq, true_and] at h
    exact ⟨m1, rfl, rfl, h.symm⟩

/-- The hash mapping has an entry for every declared template name. -/
theorem PvcTmpHashMapping_declared {σ : Type} (env : PvcEnv σ) :
    ∀ (ts : List PersistentVolumeClaim) (acc H : GoMap String),
      PvcTmpHashMapping env ts acc = .ok H →
      (∀ k, mapGet acc k ≠ none → mapGet H k ≠ none) ∧ ∀ t ∈ ts, mapGet H t.Name ≠ none
  | [], acc, H, h => by
    simp only [PvcTmpHashMapping, Except.ok.injEq] at h
    subst h
    exact ⟨fun _ hk => hk, fun _ ht => absurd ht (List.not_mem_nil _)⟩
  | pvcTmp :: rest, acc, H, h => by
    simp only [PvcTmpHashMapping] at h
    cases hh : env.PvcTmpHash pvcTmp with
    | error e => rw [hh] at h; cases h
    | ok hash =>
      rw [hh] at h
      simp only at h
      obtain ⟨h1, h2⟩ := PvcTmpHashMapping_declared env rest _ H h
      have hset : ∀ k, mapGet acc k ≠ none ∨ k = pvcTmp.Name →
          mapGet (mapSet acc pvcTmp.Name hash) k ≠ none := by
        intro k hk
        rw [mapGet_mapSet]
        by_cases hkn : k = pvcTmp.Name
        · simp [hkn]
        · rcases hk with hk | hk
          · simpa [hkn] using hk
          · exact absurd hk hkn
      refine ⟨fun k hk => h1 k (hset k (Or.inl hk)), ?_⟩
      intro t ht
      rcases List.mem_cons.mp ht with ht | ht
      · rw [ht]
        exact h1 _ (hset _ (Or.inr rfl))
      · exact h2 t ht

/-- For templates of pairwise distinct names, the hash mapping gives under the name of
a declared template the hash of that template. -/
theorem PvcTmpHashMapping_get {σ : Type} (env : PvcEnv σ) :
    ∀ (ts : List PersistentVolumeClaim) (acc H : GoMap String),
      PvcTmpHashMapping env ts acc = .ok H → (ts.map (·.Name)).Nodup →
      (∀ k, k ∉ ts.map (·.Name) → mapGet H k = mapGet acc k) ∧
      ∀ t ∈ ts, ∃ hash, env.PvcTmpHash t = .ok hash ∧ mapGet H t.Name = some hash
  | [], acc, H, h, _ => by
    simp only [PvcTmpHashMapping, Except.ok.injEq] at h
    subst h
    exact ⟨fun _ _ => rfl, fun _ ht => absurd ht (List.not_mem_nil _)⟩
  | pvcTmp :: rest, acc, H, h, hnd => by
    simp only [PvcTmpHashMapping] at h
    simp only [List.map_cons, List.nodup_cons] at hnd
    cases hh : env.PvcTmpHash pvcTmp with
    | error e => rw [hh] at h; cases h
    | ok hash =>
      rw [hh] at h
      simp only at h
      obtain ⟨h1, h2⟩ := PvcTmpHashMapping_get env rest _ H h hnd.2
      refine ⟨?_, ?_⟩
      · intro k hk
        simp only [List.map_cons, List.mem_cons, not_or] at hk
        rw [h1 k hk.2, mapGet_mapSet_ne _ _ _ _ hk.1]
      · intro t ht
        rcases List.mem_cons.mp ht with ht | ht
        · subst ht
          refine ⟨hash, hh, ?_⟩
          rw [h1 _ hnd.1, mapGet_mapSet_self]
        · exact h2 t ht

/-! ## The claim on mounting -/

/-- C12 (mounting prefers the current claim), as amended: after a successful
`CreatePodPvcs` on a pod carrying the instance-id label, for a CollaSet whose declared
templates have pairwise distinct names, for every declared template the volumes of the
pod named after the template are exactly one, a persistent-volume-claim volume with
`ReadOnly = false`; its claim name is the name of the claim `classifyPodPvcs` holds as
current under the name of the template, an existing claim of the instance whose hash
label is the hash of this template and which is in no entry of the stale set; or else,
when there is none, the name of the claim the store returned for the create of the claim
built from this template. -/
theorem CreatePodPvcs_mounts_current {σ : Type} (env : PvcEnv σ) (cls : CollaSet)
    (pod pod2 : Pod) (existing : List PersistentVolumeClaim) (s : σ) (id : String)
    (hid : podInstanceID env pod = some id)
    (hnames : (cls.VolumeClaimTemplates.map (·.Name)).Nodup)
    (h : (CreatePodPvcs env cls pod existing s).result = (none, pod2)) :
    ∃ H newPvcs oldPvcs,
      PvcTmpHashMapping env cls.VolumeClaimTemplates [] = .ok H ∧
      classifyPodPvcs env cls id existing = .ok (newPvcs, oldPvcs) ∧
      ∀ t ∈ cls.VolumeClaimTemplates, ∃ c,
        pod2.Volumes.filter (fun v => decide (v.Name = t.Name))
          = [{ Name := t.Name
               PersistentVolumeClaim := some { ClaimName := c.Name, ReadOnly := false }
               Other := "" }] ∧
        (∀ c0, mapGet newPvcs t.Name = some c0 →
          c = c0 ∧ c ∈ existing ∧ liveCurrentName env cls id H c = some t.Name ∧
          (∃ hash, env.PvcTmpHash t = .ok hash ∧ eligibleHash env id c = some hash) ∧
          ∀ k, (k, c) ∉ oldPvcs) ∧
        (mapGet newPvcs t.Name = none →
          ∃ claim, env.BuildPvcWithHash cls t id = .ok claim ∧
            (claim, Except.ok c) ∈
              createsOf (CreatePodPvcs env cls pod existing s).events) := by
  obtain ⟨m1, hm1, hev, hpod⟩ := CreatePodPvcs_ok env cls pod pod2 existing s id hid h
  have hprov := hm1
  unfold provisionUpdatedPvc at hprov
  cases hc : classifyPodPvcs env cls id existing with
  | error e => rw [hc] at hprov; simp at hprov
  | ok p =>
    obtain ⟨newPvcs, oldPvcs⟩ := p
    rw [hc] at hprov
    simp only at hprov
    obtain ⟨H, hH, _, _, hnd, _⟩ := classifyPodPvcs_ok env cls id existing newPvcs oldPvcs hc
    obtain ⟨ha, hb, hn, used, hsub, _, _, hcov, hf⟩ :=
      provisionLoop_ok env cls id cls.VolumeClaimTemplates newPvcs s m1 hprov
    have hevs : (provisionUpdatedPvc env cls id existing s).events
        = (provisionLoop env cls id cls.VolumeClaimTemplates newPvcs s).events := by
      unfold provisionUpdatedPvc
      rw [hc]
    refine ⟨H, newPvcs, oldPvcs, hH, rfl, ?_⟩
    intro t ht
    obtain ⟨c, hcget⟩ := (mapHas_iff m1 t.Name).mp (hb t ht)
    refine ⟨c, ?_, ?_, ?_⟩
    · rw [hpod]
      simp only [List.filter_append, List.filter_filter]
      have hkept : pod.Volumes.filter
          (fun v => decide (v.Name = t.Name) && !mapHas m1 v.Name) = [] := by
        rw [List.filter_eq_nil_iff]
        intro v _ hv
        simp only [Bool.and_eq_true, decide_eq_true_eq, Bool.not_eq_eq_eq_not, Bool.not_true]
          at hv
        rw [hv.1, (mapHas_iff m1 t.Name).mpr ⟨c, hcget⟩] at hv
        simp at hv
      rw [hkept, List.append_nil, List.filter_map]
      have hperm := env.range_perm (provisionUpdatedPvc env cls id existing s).store m1
      have hndr : ((env.range (provisionUpdatedPvc env cls id existing s).store m1).map
          Prod.fst).Nodup := (hperm.map Prod.fst).nodup_iff.mpr (hn hnd)
      have hmem : (t.Name, c) ∈ env.range (provisionUpdatedPvc env cls id existing s).store m1 :=
        hperm.mem_iff.mpr (mem_of_mapGet m1 t.Name c hcget)
      have hfil := filter_key_of_nodup _ t.Name c hndr hmem
      have hfun : ((fun v : Volume => decide (v.Name = t.Name)) ∘
          fun kv : String × PersistentVolumeClaim => claimVolume kv.1 kv.2)
          = fun kv => decide (kv.1 = t.Name) := by
        funext kv
        simp [claimVolume]
      rw [hfun, hfil]
      simp [claimVolume]
    · intro c0 hc0
      have h0 := ha _ _ hc0
      rw [hcget] at h0
      have hcc : c = c0 := Option.some.inj h0
      subst hcc
      have hl1 := lastMatch_some _ _ _
        ((mem_newPvcs_iff env cls id existing H newPvcs oldPvcs hH hc t.Name c).mp
          (mem_of_mapGet _ _ _ hc0))
      have hcur := (isCurrent_iff env cls id H t.Name c).mp hl1.2
      have hdeclared := (PvcTmpHashMapping_declared env _ _ H hH).2 t ht
      have hx : env.ExtractPvcTmpName cls c = .ok t.Name := by
        unfold currentName at hcur
        cases he : eligibleHash env id c with
        | none => rw [he] at hcur; simp at hcur
        | some hash =>
          rw [he] at hcur
          simp only at hcur
          cases hx : env.ExtractPvcTmpName cls c with
          | error e => rw [hx] at hcur; simp at hcur
          | ok k =>
            rw [hx] at hcur
            simp only at hcur
            split at hcur
            · injection hcur with hk
              rw [hk]
            · cases hcur
      have hlive := (currentName_eq_live env cls id H c (fun k _ hk => by
        rw [hx] at hk
        injection hk with hk
        rw [← hk]
        exact hdeclared)).1
      have hlc : liveCurrentName env cls id H c = some t.Name := by
        rw [← hlive]
        exact hcur
      have hhash : ∃ hash, env.PvcTmpHash t = .ok hash ∧ eligibleHash env id c = some hash := by
        obtain ⟨hash, hth, hget⟩ := (PvcTmpHashMapping_get env _ _ H hH hnames).2 t ht
        refine ⟨hash, hth, ?_⟩
        unfold liveCurrentName at hlc
        cases he : eligibleHash env id c with
        | none => rw [he] at hlc; simp at hlc
        | some h0 =>
          rw [he, hx] at hlc
          simp only at hlc
          split at hlc
          · rename_i hm
            rw [hget] at hm
            rw [hm]
          · cases hlc
      refine ⟨rfl, hl1.1, hlc, hhash, ?_⟩
      intro k hk
      have hl2 := lastMatch_some _ _ _
        ((mem_oldPvcs_iff env cls id existing H newPvcs oldPvcs hH hc k c).mp hk)
      exact currentName_staleName_exclusive env cls id H c t.Name k hcur
        ((isStale_iff env cls id H k c).mp hl2.2)
    · intro hnone1
      obtain ⟨u, hu, hname⟩ := hcov t ht hnone1
      have hut : u = t :=
        List.inj_on_of_nodup_map hnames (hsub.subset hu) ht hname
      subst hut
      obtain ⟨cr, hcr, hbuild, created, hcreated, hget⟩ := forall₂_exists_of_mem _ _ _ hf u hu
      rw [hcget] at hget
      cases hget
      refine ⟨cr.1, hbuild, ?_⟩
      rw [hev, hevs, ← hcreated]
      exact hcr

/-- C12 as amended, at a concrete input: the templates `data` and `logs` are declared,
instance `0` has the stale claim `web-data-a`, which the pod mounts, and the current
claim `web-logs-b`; afterwards the pod mounts the created `web-data-x` and
`web-logs-b`. -/
theorem CreatePodPvcs_mounts_current_witness :
    podInstanceID (exampleEnv [] []) exampleMountedPod = some "0" ∧
    (CreatePodPvcs (exampleEnv [] [])
        (exampleSet [exampleTemplate "data" "v2", exampleTemplate "logs" "v2"] none)
        exampleMountedPod
        [exampleClaim "web-data-a" "0" "v1", exampleClaim "web-logs-b" "0" "v2"] 0).result
      = (none, exampleRemountedPod) ∧
    ∃ H newPvcs oldPvcs,
      PvcTmpHashMapping (exampleEnv [] [])
        (exampleSet [exampleTemplate "data" "v2", exampleTemplate "logs" "v2"]
          none).VolumeClaimTemplates [] = .ok H ∧
      classifyPodPvcs (exampleEnv [] [])
        (exampleSet [exampleTemplate "data" "v2", exampleTemplate "logs" "v2"] none) "0"
        [exampleClaim "web-data-a" "0" "v1", exampleClaim "web-logs-b" "0" "v2"]
        = .ok (newPvcs, oldPvcs) ∧
      ∀ t ∈ (exampleSet [exampleTemplate "data" "v2", exampleTemplate "logs" "v2"]
          none).VolumeClaimTemplates, ∃ c,
        exampleRemountedPod.Volumes.filter (fun v => decide (v.Name = t.Name))
          = [{ Name := t.Name
               PersistentVolumeClaim := some { ClaimName := c.Name, ReadOnly := false }
               Other := "" }] ∧
        (∀ c0, mapGet newPvcs t.Name = some c0 →
          c = c0 ∧
          c ∈ [exampleClaim "web-data-a" "0" "v1", exampleClaim "web-logs-b" "0" "v2"] ∧
          liveCurrentName (exampleEnv [] [])
            (exampleSet [exampleTemplate "data" "v2", exampleTemplate "logs" "v2"] none) "0"
            H c = some t.Name ∧
          (∃ hash, (exampleEnv [] []).PvcTmpHash t = .ok hash ∧
            eligibleHash (exampleEnv [] []) "0" c = some hash) ∧
          ∀ k, (k, c) ∉ oldPvcs) ∧
        (mapGet newPvcs t.Name = none →
          ∃ claim,
            (exampleEnv [] []).BuildPvcWithHash
              (exampleSet [exampleTemplate "data" "v2", exampleTemplate "logs" "v2"] none)
              t "0" = .ok claim ∧
            (claim, Except.ok c) ∈
              createsOf (CreatePodPvcs (exampleEnv [] [])
                (exampleSet [exampleTemplate "data" "v2", exampleTemplate "logs" "v2"] none)
                exampleMountedPod
                [exampleClaim "web-data-a" "0" "v1", exampleClaim "web-logs-b" "0" "v2"]
                0).events) :=
  ⟨by decide, by decide,
   CreatePodPvcs_mounts_current (exampleEnv [] [])
    (exampleSet [exampleTemplate "data" "v2", exampleTemplate "logs" "v2"] none)
    exampleMountedPod exampleRemountedPod
    [exampleClaim "web-data-a" "0" "v1", exampleClaim "web-logs-b" "0" "v2"] 0 "0"
    (by decide) (by decide) (by decide)⟩

/-- C12 as stated fails: two templates named `data` are declared, with the hashes `v1`
and `v2`; the live hash of `data` is `v2`, that of the last one. For the pod of instance
`0` without claims `CreatePodPvcs` succeeds, creates one claim, `web-data-x`, from the
first template, and mounts it as the volume `data`; `classifyPodPvcs` files that claim
as stale. -/
theorem CreatePodPvcs_mounts_current_counterexample :
    PvcTmpHashMapping (exampleEnv [] [])
      [exampleTemplate "data" "v1", exampleTemplate "data" "v2"] [] = .ok [("data", "v2")] ∧
    (CreatePodPvcs (exampleEnv [] [])
        (exampleSet [exampleTemplate "data" "v1", exampleTemplate "data" "v2"] none)
        examplePod [] 0).result
      = (none, { examplePod with
          Volumes :=
            [{ Name := "data"
               PersistentVolumeClaim := some { ClaimName := "web-data-x", ReadOnly := false }
               Other := "" }] }) ∧
    (createsOf (CreatePodPvcs (exampleEnv [] [])
        (exampleSet [exampleTemplate "data" "v1", exampleTemplate "data" "v2"] none)
        examplePod [] 0).events).map Prod.snd
      = [.ok (exampleClaim "web-data-x" "0" "v1")] ∧
    classifyPodPvcs (exampleEnv [] [])
        (exampleSet [exampleTemplate "data" "v1", exampleTemplate "data" "v2"] none) "0"
        [exampleClaim "web-data-x" "0" "v1"]
      = .ok ([], [("data", exampleClaim "web-data-x" "0" "v1")]) := by
  decide

/-! ## The claims on the contract of the adapter -/

/-- The mutating methods return an error for the nil employer, whatever the input. -/
theorem mutating_nil_employer {σ : Type} (env : AdapterEnv σ) (l : List IEmployeeStatus)
    (s : σ) :
    (CreateEmployees env none l s).result? = some ⟨[], [], some "employer is nil"⟩ ∧
    (UpdateEmployees env none l s).result? = some ⟨[], [], some "employer is nil"⟩ ∧
    (DeleteEmployees env none l s).result? = some ⟨[], [], some "employer is nil"⟩ :=
  ⟨rfl, rfl, rfl⟩

/-- The observing methods return an error, and read nothing, for an employer that is
not a Service. -/
theorem observing_wrong_employer {σ : Type} (env : ObserverEnv σ) (employer : Option Employer)
    (s : σ) (h : ∀ svc, employer = some svc → svc.Kind ≠ "Service") :
    (GetExpectEmployeeStatus env employer s).result = .error "expect employer kind is Service" ∧
    (GetCurrentEmployeeStatus env employer s).result = .error "expect employer kind is Service" ∧
    (GetCurrentEmployeeStatus env employer s).events = [] := by
  cases employer with
  | none => exact ⟨rfl, rfl, rfl⟩
  | some svc =>
    have hk := h svc rfl
    simp [GetExpectEmployeeStatus, GetCurrentEmployeeStatus, hk]

/-- C17: `UpdateEmployees` aborts with a panic, returning nothing, for an employee whose
statuses are not `PodEmployeeStatuses`, and for an employee of a readable pod whose extra
status is not a `PodExtraStatus`; the employer is a Service and the store serves every
call. -/
theorem UpdateEmployees_panics_on_foreign_status :
    (UpdateEmployees (exampleAdapterEnv (some []) [] 9) (some exampleService)
      [exampleForeignEmployee "web-0"] 0).result? = none ∧
    (UpdateEmployees (exampleAdapterEnv (some []) [] 9) (some exampleService)
      [exampleBareEmployee "web-0"] 0).result? = none := by
  decide

/-- C16: for the employee `web-0` with traffic desired off at weight 0 and a pod labelled
`demo-traffic-on = "true"`, `demo-traffic-weight = "100"`, `UpdateEmployees` reports the
employee as succeeded, and the pod it wrote to the store still carries
`demo-traffic-on = "true"`, next to `demo-traffic-weight = "0"`. -/
theorem UpdateEmployees_leaves_traffic_on :
    (UpdateEmployees
        (exampleAdapterEnv (some [("demo-traffic-on", "true"), ("demo-traffic-weight", "100")])
          [] 9)
        (some exampleService) [exampleIdleEmployee "web-0"] 0).result?
      = some ⟨[exampleIdleEmployee "web-0"], [], none⟩ ∧
    ∃ r, UpdateEmployees
        (exampleAdapterEnv (some [("demo-traffic-on", "true"), ("demo-traffic-weight", "100")])
          [] 9)
        (some exampleService) [exampleIdleEmployee "web-0"] 0 = .returned r ∧
      r.events =
        [AdapterEvent.Get "default" "web-0"
           (.ok (examplePodNamed "web-0"
             (some [("demo-traffic-on", "true"), ("demo-traffic-weight", "100")]))),
         AdapterEvent.UpdatePod
           (examplePodNamed "web-0"
             (some [("demo-traffic-on", "true"), ("demo-traffic-weight", "0")])) none] :=
  ⟨by decide, _, rfl, by decide⟩

/-! ## Lemmas on the observing methods -/

theorem expectLoop_ok {σ : Type} (env : ObserverEnv σ) (st : Pod → PodEmployeeStatuses) :
    ∀ pods : List Pod,
      (∀ pod ∈ pods, IsZero pod.DeletionTimestamp = true →
        env.GetCommonPodEmployeeStatus pod = .ok (st pod)) →
      expectLoop env pods =
        .ok ((pods.filter (fun pod => IsZero pod.DeletionTimestamp)).map
          (fun pod => expectStatus pod (st pod)))
  | [], _ => rfl
  | pod :: rest, h => by
    have ih := expectLoop_ok env st rest (fun p hp => h p (List.mem_cons_of_mem _ hp))
    cases hz : IsZero pod.DeletionTimestamp with
    | false => simp [expectLoop, hz, ih]
    | true =>
      have hp := h pod (List.mem_cons_self _ _) hz
      simp [expectLoop, hz, ih, hp]

theorem expectStatus_eq (pod : Pod) (v : PodEmployeeStatuses) :
    expectStatus pod v =
      IEmployeeStatus.Status pod.Name pod.Name
        (EmployeeStatusesValue.PodEmployeeStatuses
          ⟨v.LifecycleReady,
           ExtraStatusValue.PodExtraStatus
             ⟨v.LifecycleReady, if v.LifecycleReady = true then 100 else 0⟩⟩) := by
  cases hv : v.LifecycleReady <;> simp [expectStatus, hv]

theorem currentLoop_spec {σ : Type} (env : ObserverEnv σ) (ns : String)
    (st : Pod → PodEmployeeStatuses) :
    ∀ (names : List String) (s : σ),
      (∀ n name pod, AdapterEvent.Get n name (.ok pod) ∈ (currentLoop env ns names s).events →
        env.GetCommonPodEmployeeStatus pod = .ok (st pod)) →
      (∀ n name e, AdapterEvent.Get n name (.error e) ∈ (currentLoop env ns names s).events →
        env.IsNotFound e = false → (currentLoop env ns names s).result = .error e) ∧
      ((∀ n name e, AdapterEvent.Get n name (.error e) ∈ (currentLoop env ns names s).events →
          env.IsNotFound e = true) →
        readNames (currentLoop env ns names s).events = names ∧
        (currentLoop env ns names s).result =
          .ok (foundStatuses env st (currentLoop env ns names s).events))
  | [], s, _ => by
    simp [currentLoop, readNames, foundStatuses]
  | podName :: rest, s, hst => by
    rcases hg : env.Get s ns podName with ⟨got, s1⟩
    have ih := currentLoop_spec env ns st rest s1
    cases got with
    | error e =>
      cases hnf : env.IsNotFound e with
      | false =>
        have heq : currentLoop env ns (podName :: rest) s =
            ⟨.error e, s1, [AdapterEvent.Get ns podName (.error e)]⟩ := by
          simp [currentLoop, hg, hnf]
        rw [heq]
        refine ⟨?_, ?_⟩
        · intro n name e2 hmem _
          simp at hmem
          rw [hmem.2.2]
        · intro hall
          have := hall ns podName e (by simp)
          rw [hnf] at this
          exact absurd this (by simp)
      | true =>
        have heq : currentLoop env ns (podName :: rest) s =
            { currentLoop env ns rest s1 with
              events := AdapterEvent.Get ns podName (.error e) ::
                (currentLoop env ns rest s1).events } := by
          simp [currentLoop, hg, hnf]
        rw [heq] at hst ⊢
        have ih2 := ih (fun n name pod hm => hst n name pod (List.mem_cons_of_mem _ hm))
        refine ⟨?_, ?_⟩
        · intro n name e2 hmem hf
          simp only [List.mem_cons] at hmem
          rcases hmem with hmem | hmem
          · injection hmem with _ _ h3
            injection h3 with h3
            rw [h3, hnf] at hf
            exact absurd hf (by simp)
          · exact ih2.1 n name e2 hmem hf
        · intro hall
          have := ih2.2 (fun n name e2 hm => hall n name e2 (List.mem_cons_of_mem _ hm))
          simp only [readNames, foundStatuses]
          exact ⟨by rw [this.1], this.2⟩
    | ok pod =>
      cases hh : env.GetCommonPodEmployeeStatus pod with
      | error e =>
        have heq : currentLoop env ns (podName :: rest) s =
            ⟨.error e, s1, [AdapterEvent.Get ns podName (.ok pod)]⟩ := by
          simp [currentLoop, hg, hh]
        rw [heq] at hst
        have := hst ns podName pod (by simp)
        rw [hh] at this
        cases this
      | ok v =>
        have hv : v = st pod := by
          have hmem : AdapterEvent.Get ns podName (.ok pod) ∈
              (currentLoop env ns (podName :: rest) s).events := by
            simp only [currentLoop, hg, hh]
            cases (currentLoop env ns rest s1).result <;> simp
          have := hst ns podName pod hmem
          rw [hh] at this
          injection this
        subst hv
        cases hr : (currentLoop env ns rest s1).result with
        | error e =>
          have heq : currentLoop env ns (podName :: rest) s =
              ⟨.error e, (currentLoop env ns rest s1).store,
                AdapterEvent.Get ns podName (.ok pod) :: (currentLoop env ns rest s1).events⟩ := by
            simp [currentLoop, hg, hh, hr]
          rw [heq] at hst ⊢
          have ih2 := ih (fun n name pod hm => hst n name pod (List.mem_cons_of_mem _ hm))
          rw [hr] at ih2
          refine ⟨?_, ?_⟩
          · intro n name e2 hmem hf
            simp only [List.mem_cons] at hmem
            rcases hmem with hmem | hmem
            · injection hmem with _ _ h3
              cases h3
            · exact ih2.1 n name e2 hmem hf
          · intro hall
            have := ih2.2 (fun n name e2 hm => hall n name e2 (List.mem_cons_of_mem _ hm))
            cases this.2
        | ok current =>
          have heq : currentLoop env ns (podName :: rest) s =
              ⟨.ok (currentStatus env podName pod (st pod) :: current),
                (currentLoop env ns rest s1).store,
                AdapterEvent.Get ns podName (.ok pod) :: (currentLoop env ns rest s1).events⟩ := by
            simp [currentLoop, hg, hh, hr]
          rw [heq] at hst ⊢
          have ih2 := ih (fun n name pod hm => hst n name pod (List.mem_cons_of_mem _ hm))
          rw [hr] at ih2
          refine ⟨?_, ?_⟩
          · intro n name e2 hmem hf
            simp only [List.mem_cons] at hmem
            rcases hmem with hmem | hmem
            · injection hmem with _ _ h3
              cases h3
            · exact absurd (ih2.1 n name e2 hmem hf) (by simp)
          · intro hall
            have := ih2.2 (fun n name e2 hm => hall n name e2 (List.mem_cons_of_mem _ hm))
            simp only [readNames, foundStatuses]
            refine ⟨by rw [this.1], ?_⟩
            have h2 := this.2
            injection h2 with h2
            rw [h2]

/-- The loop of `GetExpectEmployeeStatus` returns the error of the first pod without a
deletion time whose common statuses cannot be computed. -/
theorem expectLoop_error {σ : Type} (env : ObserverEnv σ) (pod : Pod) (after : List Pod)
    (e : String) (hz : IsZero pod.DeletionTimestamp = true)
    (he : env.GetCommonPodEmployeeStatus pod = .error e) :
    ∀ before : List Pod,
      (∀ p ∈ before, IsZero p.DeletionTimestamp = true →
        ∃ v, env.GetCommonPodEmployeeStatus p = .ok v) →
      expectLoop env (before ++ pod :: after) = .error e
  | [], _ => by
    simp [expectLoop, hz, he]
  | p :: rest, h => by
    have ih := expectLoop_error env pod after e hz he rest
      (fun q hq => h q (List.mem_cons_of_mem _ hq))
    cases hp : IsZero p.DeletionTimestamp with
    | false => simp [expectLoop, hp, ih]
    | true =>
      obtain ⟨v, hv⟩ := h p (List.mem_cons_self _ _) hp
      simp [expectLoop, hp, hv, ih]

/-- The loop of `GetCurrentEmployeeStatus` returns the error of a failed read that is
not a not-found error, and the error of the common statuses of a pod read. -/
theorem currentLoop_errors {σ : Type} (env : ObserverEnv σ) (ns : String) :
    ∀ (names : List String) (s : σ),
      (∀ n name e, AdapterEvent.Get n name (.error e) ∈ (currentLoop env ns names s).events →
        env.IsNotFound e = false → (currentLoop env ns names s).result = .error e) ∧
      (∀ n name pod e, AdapterEvent.Get n name (.ok pod) ∈ (currentLoop env ns names s).events →
        env.GetCommonPodEmployeeStatus pod = .error e →
        (currentLoop env ns names s).result = .error e)
  | [], s => by
    simp [currentLoop]
  | podName :: rest, s => by
    rcases hg : env.Get s ns podName with ⟨got, s1⟩
    obtain ⟨ih1, ih2⟩ := currentLoop_errors env ns rest s1
    cases got with
    | error e =>
      cases hnf : env.IsNotFound e with
      | false =>
        have heq : currentLoop env ns (podName :: rest) s =
            ⟨.error e, s1, [AdapterEvent.Get ns podName (.error e)]⟩ := by
          simp [currentLoop, hg, hnf]
        rw [heq]
        refine ⟨?_, ?_⟩
        · intro n name e2 hmem _
          simp only [List.mem_singleton, AdapterEvent.Get.injEq, Except.error.injEq] at hmem
          rw [hmem.2.2]
        · intro n name pod e2 hmem
          simp at hmem
      | true =>
        have heq : currentLoop env ns (podName :: rest) s =
            { currentLoop env ns rest s1 with
              events := AdapterEvent.Get ns podName (.error e) ::
                (currentLoop env ns rest s1).events } := by
          simp [currentLoop, hg, hnf]
        rw [heq]
        refine ⟨?_, ?_⟩
        · intro n name e2 hmem hf
          simp only [List.mem_cons] at hmem
          rcases hmem with hmem | hmem
          · injection hmem with _ _ h3
            injection h3 with h3
            rw [h3, hnf] at hf
            cases hf
          · exact ih1 n name e2 hmem hf
        · intro n name pod e2 hmem hh
          simp only [List.mem_cons] at hmem
          rcases hmem with hmem | hmem
          · injection hmem with _ _ h3
            cases h3
          · exact ih2 n name pod e2 hmem hh
    | ok pod =>
      cases hh : env.GetCommonPodEmployeeStatus pod with
      | error e =>
        have heq : currentLoop env ns (podName :: rest) s =
            ⟨.error e, s1, [AdapterEvent.Get ns podName (.ok pod)]⟩ := by
          simp [currentLoop, hg, hh]
        rw [heq]
        refine ⟨?_, ?_⟩
        · intro n name e2 hmem
          simp at hmem
        · intro n name p e2 hmem hp
          simp only [List.mem_singleton, AdapterEvent.Get.injEq, Except.ok.injEq] at hmem
          rw [hmem.2.2, hh] at hp
          injection hp with hp
          rw [hp]
      | ok v =>
        cases hr : (currentLoop env ns rest s1).result with
        | error e =>
          have heq : currentLoop env ns (podName :: rest) s =
              ⟨.error e, (currentLoop env ns rest s1).store,
                AdapterEvent.Get ns podName (.ok pod) :: (currentLoop env ns rest s1).events⟩ := by
            simp [currentLoop, hg, hh, hr]
          rw [heq]
          rw [hr] at ih1 ih2
          refine ⟨?_, ?_⟩
          · intro n name e2 hmem hf
            simp only [List.mem_cons] at hmem
            rcases hmem with hmem | hmem
            · injection hmem with _ _ h3
              cases h3
            · exact ih1 n name e2 hmem hf
          · intro n name p e2 hmem hp
            simp only [List.mem_cons] at hmem
            rcases hmem with hmem | hmem
            · injection hmem with _ _ h3
              injection h3 with h3
              rw [h3, hh] at hp
              cases hp
            · exact ih2 n name p e2 hmem hp
        | ok current =>
          have heq : currentLoop env ns (podName :: rest) s =
              ⟨.ok (currentStatus env podName pod v :: current),
                (currentLoop env ns rest s1).store,
                AdapterEvent.Get ns podName (.ok pod) :: (currentLoop env ns rest s1).events⟩ := by
            simp [currentLoop, hg, hh, hr]
          rw [heq]
          rw [hr] at ih1 ih2
          refine ⟨?_, ?_⟩
          · intro n name e2 hmem hf
            simp only [List.mem_cons] at hmem
            rcases hmem with hmem | hmem
            · injection hmem with _ _ h3
              cases h3
            · exact absurd (ih1 n name e2 hmem hf) (by simp)
          · intro n name p e2 hmem hp
            simp only [List.mem_cons] at hmem
            rcases hmem with hmem | hmem
            · injection hmem with _ _ h3
              injection h3 with h3
              rw [h3, hh] at hp
              cases hp
            · exact absurd (ih2 n name p e2 hmem hp) (by simp)

/-! ## The claims on the observing methods -/

/-- C15 (amended): for a Service whose pods can be listed, when the common statuses of
every listed pod without a deletion time can be computed, `GetExpectEmployeeStatus`
returns, with no error, exactly one status per listed pod whose deletion timestamp is
unset or the zero time, in list order, with employee id and name equal to the pod name,
the lifecycle-readiness flag of the pod, and the extra status `TrafficOn = true`,
`TrafficWeight = 100` when that flag is true, `TrafficOn = false`, `TrafficWeight = 0`
when it is false; and when the common statuses of some such pod cannot be computed, it
returns the error of the first such pod in list order, and no status. -/
theorem GetExpectEmployeeStatus_follows_readiness {σ : Type} (env : ObserverEnv σ)
    (svc : Employer) (s s1 : σ) (pods : List Pod)
    (hsvc : svc.Kind = "Service")
    (hlist : env.List s svc.Namespace svc.Selector = (.ok pods, s1)) :
    (∀ st : Pod → PodEmployeeStatuses,
      (∀ pod ∈ pods, IsZero pod.DeletionTimestamp = true →
        env.GetCommonPodEmployeeStatus pod = .ok (st pod)) →
      (GetExpectEmployeeStatus env (some svc) s).result =
        .ok ((pods.filter (fun pod => IsZero pod.DeletionTimestamp)).map
          (fun pod =>
            IEmployeeStatus.Status pod.Name pod.Name
              (EmployeeStatusesValue.PodEmployeeStatuses
                ⟨(st pod).LifecycleReady,
                 ExtraStatusValue.PodExtraStatus
                   ⟨(st pod).LifecycleReady,
                    if (st pod).LifecycleReady = true then 100 else 0⟩⟩)))) ∧
    (∀ (before : List Pod) (pod : Pod) (after : List Pod) (e : String),
      pods = before ++ pod :: after →
      IsZero pod.DeletionTimestamp = true →
      env.GetCommonPodEmployeeStatus pod = .error e →
      (∀ p ∈ before, IsZero p.DeletionTimestamp = true →
        ∃ v, env.GetCommonPodEmployeeStatus p = .ok v) →
      (GetExpectEmployeeStatus env (some svc) s).result = .error e) := by
  refine ⟨?_, ?_⟩
  · intro st hst
    have h := expectLoop_ok env st pods hst
    simp only [expectStatus_eq] at h
    simp [GetExpectEmployeeStatus, hsvc, hlist, h]
  · intro before pod after e hp hz he hb
    have h := expectLoop_error env pod after e hz he before hb
    rw [← hp] at h
    simp [GetExpectEmployeeStatus, hsvc, hlist, h]

/-- C15 (witness): of the pods `web-0`, ready, `web-1`, not ready, and `web-2`, being
deleted, the first two get a status, switched on at weight 100 and off at weight 0. -/
theorem GetExpectEmployeeStatus_follows_readiness_witness :
    (GetExpectEmployeeStatus
        (exampleObserverEnv
          [examplePodNamed "web-0" none, examplePodNamed "web-1" none,
           exampleTerminatingPod "web-2" 7] [] [] ["web-1"])
        (some exampleService) 0).result =
      .ok [IEmployeeStatus.Status "web-0" "web-0"
             (EmployeeStatusesValue.PodEmployeeStatuses
               ⟨true, ExtraStatusValue.PodExtraStatus ⟨true, 100⟩⟩),
           IEmployeeStatus.Status "web-1" "web-1"
             (EmployeeStatusesValue.PodEmployeeStatuses
               ⟨false, ExtraStatusValue.PodExtraStatus ⟨false, 0⟩⟩)] :=
  ((GetExpectEmployeeStatus_follows_readiness
    (exampleObserverEnv
      [examplePodNamed "web-0" none, examplePodNamed "web-1" none,
       exampleTerminatingPod "web-2" 7] [] [] ["web-1"])
    exampleService 0 0
    [examplePodNamed "web-0" none, examplePodNamed "web-1" none,
     exampleTerminatingPod "web-2" 7]
    rfl rfl).1 (exampleStatuses ["web-1"]) (by decide)).trans (by decide)

/-- C15 (counterexample): the Service selects the pods `web-0` and `web-1`, neither
being deleted; the common statuses of `web-1` cannot be computed, and
`GetExpectEmployeeStatus` returns that error and no status, none for `web-0` either. -/
theorem GetExpectEmployeeStatus_counterexample :
    (GetExpectEmployeeStatus
        (exampleObserverEnv [examplePodNamed "web-0" none, examplePodNamed "web-1" none]
          [] ["web-1"] [])
        (some exampleService) 0).result = .error "no status" := by
  decide

/-- C18 (amended): for a Service, `GetCurrentEmployeeStatus` returns an empty result
without reading any pod when the annotation `demo-added-pods` is empty; otherwise a
failed read whose error is not a not-found error makes the call return that error and no
statuses, and so does an error of the common statuses of a pod read; and when every
failed read is a not-found error and the common statuses of every pod read can be
computed, the call reads each listed name once, in listed order, and returns, with no
error, the statuses of the pods read successfully, in that order. -/
theorem GetCurrentEmployeeStatus_skips_not_found {σ : Type} (env : ObserverEnv σ)
    (svc : Employer) (s : σ) (hsvc : svc.Kind = "Service") :
    (addedPods (some svc) = "" →
      (GetCurrentEmployeeStatus env (some svc) s).result = .ok [] ∧
      (GetCurrentEmployeeStatus env (some svc) s).events = []) ∧
    (addedPods (some svc) ≠ "" →
      (∀ n name e,
        AdapterEvent.Get n name (.error e) ∈ (GetCurrentEmployeeStatus env (some svc) s).events →
        env.IsNotFound e = false →
        (GetCurrentEmployeeStatus env (some svc) s).result = .error e) ∧
      (∀ n name pod e,
        AdapterEvent.Get n name (.ok pod) ∈ (GetCurrentEmployeeStatus env (some svc) s).events →
        env.GetCommonPodEmployeeStatus pod = .error e →
        (GetCurrentEmployeeStatus env (some svc) s).result = .error e) ∧
      (∀ st : Pod → PodEmployeeStatuses,
        (∀ n name pod,
          AdapterEvent.Get n name (.ok pod) ∈
            (GetCurrentEmployeeStatus env (some svc) s).events →
          env.GetCommonPodEmployeeStatus pod = .ok (st pod)) →
        (∀ n name e,
          AdapterEvent.Get n name (.error e) ∈
            (GetCurrentEmployeeStatus env (some svc) s).events →
          env.IsNotFound e = true) →
        readNames (GetCurrentEmployeeStatus env (some svc) s).events =
          stringsSplit (addedPods (some svc)) ∧
        (GetCurrentEmployeeStatus env (some svc) s).result =
          .ok (foundStatuses env st (GetCurrentEmployeeStatus env (some svc) s).events))) := by
  refine ⟨?_, ?_⟩
  · intro ha
    simp only [addedPods] at ha
    simp [GetCurrentEmployeeStatus, hsvc, ha]
  · intro ha
    simp only [addedPods] at ha
    have heq : GetCurrentEmployeeStatus env (some svc) s =
        currentLoop env svc.Namespace
          (stringsSplit (mapGetD (svc.Annotations.getD []) "demo-added-pods" "")) s := by
      simp [GetCurrentEmployeeStatus, hsvc, ha]
    rw [heq]
    obtain ⟨h1, h2⟩ := currentLoop_errors env svc.Namespace
      (stringsSplit (mapGetD (svc.Annotations.getD []) "demo-added-pods" "")) s
    refine ⟨h1, h2, ?_⟩
    intro st hst hnf
    exact (currentLoop_spec env svc.Namespace st _ s hst).2 hnf

/-- C18 (witness): the annotation lists `web-0`, `web-1` and `web-2`; the pod `web-1` is
not found, and the call returns the statuses of `web-0`, labelled on at weight 100, and
`web-2`, without labels. -/
theorem GetCurrentEmployeeStatus_skips_not_found_witness :
    (GetCurrentEmployeeStatus
        (exampleObserverEnv
          [examplePodNamed "web-0"
             (some [("demo-traffic-on", "true"), ("demo-traffic-weight", "100")]),
           examplePodNamed "web-2" none] [] [] [])
        (some (exampleServiceListing "web-0,web-1,web-2")) 0).result =
      .ok [IEmployeeStatus.Status "web-0" "web-0"
             (EmployeeStatusesValue.PodEmployeeStatuses
               ⟨true, ExtraStatusValue.PodExtraStatus ⟨true, 100⟩⟩),
           IEmployeeStatus.Status "web-2" "web-2"
             (EmployeeStatusesValue.PodEmployeeStatuses
               ⟨true, ExtraStatusValue.PodExtraStatus ⟨false, 0⟩⟩)] :=
  ((((GetCurrentEmployeeStatus_skips_not_found
    (exampleObserverEnv
      [examplePodNamed "web-0"
         (some [("demo-traffic-on", "true"), ("demo-traffic-weight", "100")]),
       examplePodNamed "web-2" none] [] [] [])
    (exampleServiceListing "web-0,web-1,web-2") 0 rfl).2 (by decide)).2.2
    (exampleStatuses []) (fun _ _ _ _ => rfl)
    (by
      intro n name e hmem
      have hev : (GetCurrentEmployeeStatus
          (exampleObserverEnv
            [examplePodNamed "web-0"
               (some [("demo-traffic-on", "true"), ("demo-traffic-weight", "100")]),
             examplePodNamed "web-2" none] [] [] [])
          (some (exampleServiceListing "web-0,web-1,web-2")) 0).events =
          [AdapterEvent.Get "default" "web-0"
             (.ok (examplePodNamed "web-0"
               (some [("demo-traffic-on", "true"), ("demo-traffic-weight", "100")]))),
           AdapterEvent.Get "default" "web-1" (.error "not found"),
           AdapterEvent.Get "default" "web-2" (.ok (examplePodNamed "web-2" none))] := by
        decide
      rw [hev] at hmem
      simp at hmem
      rw [hmem.2.2]
      decide)).2).trans (by decide)

/-- C18 (counterexample): the annotation lists the pod `web-0`, which exists and is read
without error; its common statuses cannot be computed, and `GetCurrentEmployeeStatus`
returns that error instead of a status. -/
theorem GetCurrentEmployeeStatus_counterexample :
    (GetCurrentEmployeeStatus
        (exampleObserverEnv [examplePodNamed "web-0" none] [] ["web-0"] [])
        (some (exampleServiceListing "web-0")) 0).result = .error "no status" ∧
    (GetCurrentEmployeeStatus
        (exampleObserverEnv [examplePodNamed "web-0" none] [] ["web-0"] [])
        (some (exampleServiceListing "web-0")) 0).events =
      [AdapterEvent.Get "default" "web-0" (.ok (examplePodNamed "web-0" none))] := by
  decide

/-! ## Lemmas on joining and splitting names -/

theorem stringsJoin_singleton (a : String) : stringsJoin [a] = a := rfl

/-- C25, the code at the failing inputs: for the Service `demo` without an annotation
map and the employee `web-0`, `CreateEmployees` aborts with a panic and returns
nothing, although the store accepts every update; for a pod `web-0` read without a
label map, `UpdateEmployees` aborts with a panic, whether traffic is desired on or
off. -/
theorem CreateEmployees_panics_without_annotations :
    (CreateEmployees (exampleAdapterEnv (some []) [] 9)
      (some { exampleService with Annotations := none })
      [exampleEmployee "web-0"] 0).result? = none ∧
    (UpdateEmployees (exampleAdapterEnv none [] 9) (some exampleService)
      [exampleEmployee "web-0"] 0).result? = none ∧
    (UpdateEmployees (exampleAdapterEnv none [] 9) (some exampleService)
      [exampleIdleEmployee "web-0"] 0).result? = none := by
  decide

/-! ## Lemmas on `SetPvcsOwnerRef` -/

theorem setClaims_eq :
    ∀ (claims : List PersistentVolumeClaim) (i : Nat)
      (claimPvcs filled : List (Option PersistentVolumeClaim)),
      i ≤ claimPvcs.length →
      setClaims claims i claimPvcs = some filled →
      i + claims.length ≤ claimPvcs.length ∧
      filled = claimPvcs.take i ++ claims.map some ++ claimPvcs.drop (i + claims.length)
  | [], i, claimPvcs, filled, hi, h => by
    simp only [setClaims, Option.some.injEq] at h
    subst h
    simpa using hi
  | mt :: rest, i, claimPvcs, filled, _, h => by
    simp only [setClaims] at h
    split at h
    · rename_i hi
      obtain ⟨hlen, hf⟩ := setClaims_eq rest (i + 1) _ filled
        (by rw [List.length_set]; omega) h
      rw [List.length_set] at hlen
      refine ⟨by simp only [List.length_cons]; omega, ?_⟩
      have harith : i + 1 + rest.length = i + (rest.length + 1) := by omega
      rw [hf, take_succ_set _ _ _ hi, List.drop_set_of_lt _ _ (by omega), harith]
      simp
    · cases h

/-- What `SetPvcsOwnerRef` returns when it returns without an error for a selector with
match labels: the adopted claims, followed by a nil pointer for every claim offered and
not adopted. -/
theorem SetPvcsOwnerRef_returned {σ : Type} (env : RefEnv σ) (cls : CollaSet)
    (pvcs : List PersistentVolumeClaim) (s : σ) (r : OwnerRefs σ)
    (hsel : cls.MatchLabels ≠ none)
    (h : SetPvcsOwnerRef env cls pvcs s = .returned r) (herr : r.err = none) :
    ∃ claims, (env.ClaimOwned s cls pvcs).1 = .ok claims ∧
      claims.length ≤ pvcs.length ∧
      r.claims = claims.map some ++ List.replicate (pvcs.length - claims.length) none := by
  unfold SetPvcsOwnerRef at h
  cases hm : cls.MatchLabels with
  | none => exact absurd hm hsel
  | some labels =>
    simp only [hm] at h
    cases hn : env.NewRefManager cls with
    | some e =>
      simp only [hn, Outcome.returned.injEq] at h
      subst h
      simp at herr
    | none =>
      simp only [hn] at h
      rcases hc : env.ClaimOwned s cls pvcs with ⟨res, s1⟩
      rw [hc] at h
      cases res with
      | error e =>
        simp only [Outcome.returned.injEq] at h
        subst h
        simp at herr
      | ok claims =>
        simp only at h
        cases hs : setClaims claims 0 (List.replicate pvcs.length none) with
        | none => simp [hs] at h
        | some filled =>
          simp only [hs, Outcome.returned.injEq] at h
          subst h
          obtain ⟨hlen, hf⟩ := setClaims_eq _ _ _ _ (Nat.zero_le _) hs
          simp only [List.length_replicate, Nat.zero_add] at hlen
          refine ⟨claims, rfl, hlen, ?_⟩
          simp only [hf, List.take_zero, List.nil_append, Nat.zero_add, List.drop_replicate]

/-! ## The claim on `SetPvcsOwnerRef` -/

/-- C24, the code at the failing inputs: for the CollaSet `web` without match labels and
the claim `web-data-a`, `SetPvcsOwnerRef` returns a list of one nil pointer; for the
CollaSet `web` with the selector `app = web` and the claims `web-data-a` and
`web-data-b`, of which the ownership manager adopts `web-data-b` only, it returns the
adopted claim followed by a nil pointer. -/
theorem SetPvcsOwnerRef_returns_nil_entries :
    (∃ r, SetPvcsOwnerRef (exampleRefEnv []) (exampleSet [] none)
        [exampleClaim "web-data-a" "0" "v1"] 0 = .returned r ∧
      r.claims = [none] ∧ r.err = none) ∧
    (∃ r, SetPvcsOwnerRef (exampleRefEnv ["web-data-b"]) exampleSelectingSet
        [exampleClaim "web-data-a" "0" "v1", exampleClaim "web-data-b" "0" "v1"] 0
        = .returned r ∧
      r.claims = [some (exampleClaim "web-data-b" "0" "v1"), none] ∧ r.err = none) :=
  ⟨⟨_, rfl, by decide, by decide⟩, ⟨_, rfl, by decide, by decide⟩⟩

/-! ## Lemmas on the webhook -/

theorem ownedLoop_eq (cls : CollaSet) :
    ∀ (refs : List OwnerReference) (owned : Bool),
      ownedLoop cls refs owned = (owned || refs.any (fun ref => decide (ref.Name = cls.Name)))
  | [], owned => by simp [ownedLoop]
  | ref :: rest, owned => by
    rw [ownedLoop, ownedLoop_eq cls rest]
    by_cases h : ref.Name = cls.Name
    · simp [h]
    · simp [h]

theorem ownedLoop_iff (cls : CollaSet) (refs : List OwnerReference) :
    ownedLoop cls refs false = true ↔ ∃ ref ∈ refs, ref.Name = cls.Name := by
  rw [ownedLoop_eq]
  simp

theorem SetDefaultCollaSet_frame {σ : Type} (env : WebhookEnv σ) (cls : CollaSet) :
    (SetDefaultCollaSet env cls).Name = cls.Name ∧
    (SetDefaultCollaSet env cls).Namespace = cls.Namespace ∧
    (SetDefaultCollaSet env cls).PodToDelete = cls.PodToDelete := by
  unfold SetDefaultCollaSet SetDefaultCollaSetUpdateStrategy SetDefaultPodSpec
  simp only
  refine ⟨?_, ?_, ?_⟩ <;> (split <;> split <;> rfl)

/-- The loop of the handler over the pods to delete: a failed read is answered with an
error, 400 for a pod not found and 500 otherwise; a pod read that carries no owner
reference with the name of the CollaSet is answered with the error 400; and when no read
failed and every pod read carries such an owner reference, every named pod was read, in
order, and the response is the final one. -/
theorem podToDeleteLoop_spec {σ : Type} (env : WebhookEnv σ) (cls : CollaSet)
    (final : Response) :
    ∀ (names : List String) (s : σ),
      (∀ ns name e,
        AdapterEvent.Get ns name (.error e) ∈ (podToDeleteLoop env cls final names s).events →
        (podToDeleteLoop env cls final names s).response.Allowed = false ∧
        (podToDeleteLoop env cls final names s).response.Code =
          if env.IsNotFound e = true then 400 else 500) ∧
      (∀ ns name pod,
        AdapterEvent.Get ns name (.ok pod) ∈ (podToDeleteLoop env cls final names s).events →
        (∀ ref ∈ pod.OwnerReferences, ref.Name ≠ cls.Name) →
        (podToDeleteLoop env cls final names s).response.Allowed = false ∧
        (podToDeleteLoop env cls final names s).response.Code = 400) ∧
      ((∀ ns name e,
          AdapterEvent.Get ns name (.error e) ∉ (podToDeleteLoop env cls final names s).events) →
        (∀ ns name pod,
          AdapterEvent.Get ns name (.ok pod) ∈ (podToDeleteLoop env cls final names s).events →
          ∃ ref ∈ pod.OwnerReferences, ref.Name = cls.Name) →
        (podToDeleteLoop env cls final names s).response = final ∧
        readNames (podToDeleteLoop env cls final names s).events = names)
  | [], s => by
    simp [podToDeleteLoop, readNames]
  | podName :: rest, s => by
    rcases hg : env.Get s cls.Namespace podName with ⟨got, s1⟩
    cases got with
    | error e =>
      have heq : (podToDeleteLoop env cls final (podName :: rest) s).events =
          [AdapterEvent.Get cls.Namespace podName (.error e)] ∧
          (podToDeleteLoop env cls final (podName :: rest) s).response.Allowed = false ∧
          (podToDeleteLoop env cls final (podName :: rest) s).response.Code =
            if env.IsNotFound e = true then 400 else 500 := by
        cases hnf : env.IsNotFound e <;>
          simp [podToDeleteLoop, hg, hnf, admission.Errored]
      obtain ⟨hev, ha, hc⟩ := heq
      rw [hev]
      refine ⟨?_, ?_, ?_⟩
      · intro ns name e2 hmem
        simp only [List.mem_singleton, AdapterEvent.Get.injEq, Except.error.injEq] at hmem
        rw [hmem.2.2]
        exact ⟨ha, hc⟩
      · intro ns name pod hmem
        simp at hmem
      · intro hno
        exact absurd (List.mem_singleton.mpr rfl) (hno cls.Namespace podName e)
    | ok pod =>
      cases ho : ownedLoop cls pod.OwnerReferences false with
      | false =>
        have hnone : ¬ ∃ ref ∈ pod.OwnerReferences, ref.Name = cls.Name := by
          intro hex
          have := (ownedLoop_iff cls pod.OwnerReferences).mpr hex
          rw [ho] at this
          cases this
        have heq : (podToDeleteLoop env cls final (podName :: rest) s).events =
            [AdapterEvent.Get cls.Namespace podName (.ok pod)] ∧
            (podToDeleteLoop env cls final (podName :: rest) s).response.Allowed = false ∧
            (podToDeleteLoop env cls final (podName :: rest) s).response.Code = 400 := by
          simp [podToDeleteLoop, hg, ho, admission.Errored]
        obtain ⟨hev, ha, hc⟩ := heq
        rw [hev]
        refine ⟨?_, ?_, ?_⟩
        · intro ns name e2 hmem
          simp at hmem
        · intro ns name p _ _
          exact ⟨ha, hc⟩
        · intro _ hall
          exact absurd (hall cls.Namespace podName pod (List.mem_singleton.mpr rfl)) hnone
      | true =>
        have hown := (ownedLoop_iff cls pod.OwnerReferences).mp ho
        have heq : podToDeleteLoop env cls final (podName :: rest) s =
            { podToDeleteLoop env cls final rest s1 with
              events := AdapterEvent.Get cls.Namespace podName (.ok pod) ::
                (podToDeleteLoop env cls final rest s1).events } := by
          simp [podToDeleteLoop, hg, ho]
        rw [heq]
        obtain ⟨h1, h2, h3⟩ := podToDeleteLoop_spec env cls final rest s1
        refine ⟨?_, ?_, ?_⟩
        · intro ns name e2 hmem
          simp only [List.mem_cons] at hmem
          rcases hmem with hmem | hmem
          · injection hmem with _ _ hres
            cases hres
          · exact h1 ns name e2 hmem
        · intro ns name p hmem hno
          simp only [List.mem_cons] at hmem
          rcases hmem with hmem | hmem
          · injection hmem with _ _ hres
            injection hres with hres
            subst hres
            obtain ⟨ref, href, hrn⟩ := hown
            exact absurd hrn (hno ref href)
          · exact h2 ns name p hmem hno
        · intro hno hall
          have := h3 (fun ns name e hm => hno ns name e (List.mem_cons_of_mem _ hm))
            (fun ns name p hm => hall ns name p (List.mem_cons_of_mem _ hm))
          exact ⟨this.1, by simp [readNames, this.2]⟩

/-- The handler allows, without a patch and without reading a pod, a request that is
neither a create nor an update. -/
theorem Handle_other_operation {σ : Type} (env : WebhookEnv σ) (req : Request) (s : σ)
    (h : req.Operation ≠ "UPDATE" ∧ req.Operation ≠ "CREATE") :
    (Handle env req s).response = { Allowed := true, Code := 200, Message := "", Patches := none } ∧
    (Handle env req s).events = [] := by
  unfold Handle
  rw [if_pos h]
  exact ⟨rfl, rfl⟩

/-- The handler admits a create or an update only when every pod named to delete was
read and carries an owner reference with the name of the CollaSet; a failed read is
answered with the error 400 for a pod not found and 500 otherwise, a pod without such
an owner reference with the error 400. -/
theorem Handle_create_update {σ : Type} (env : WebhookEnv σ) (req : Request) (s : σ)
    (cls : CollaSet) (h : req.Operation = "UPDATE" ∨ req.Operation = "CREATE")
    (hd : env.Decode req = .ok cls) :
    ((Handle env req s).response.Allowed = true →
      readNames (Handle env req s).events = cls.PodToDelete ∧
      ∀ ns name res, AdapterEvent.Get ns name res ∈ (Handle env req s).events →
        ∃ pod, res = .ok pod ∧ ∃ ref ∈ pod.OwnerReferences, ref.Name = cls.Name) ∧
    (∀ ns name e, AdapterEvent.Get ns name (.error e) ∈ (Handle env req s).events →
      (Handle env req s).response.Allowed = false ∧
      (Handle env req s).response.Code = if env.IsNotFound e = true then 400 else 500) ∧
    (∀ ns name pod, AdapterEvent.Get ns name (.ok pod) ∈ (Handle env req s).events →
      (∀ ref ∈ pod.OwnerReferences, ref.Name ≠ cls.Name) →
      (Handle env req s).response.Allowed = false ∧ (Handle env req s).response.Code = 400) := by
  have hop : ¬ (req.Operation ≠ "UPDATE" ∧ req.Operation ≠ "CREATE") := by
    intro hn
    rcases h with h | h
    · exact hn.1 h
    · exact hn.2 h
  obtain ⟨hname, hns, hpods⟩ := SetDefaultCollaSet_frame env cls
  unfold Handle
  rw [if_neg hop]
  simp only [hd]
  cases hm : env.Marshal (SetDefaultCollaSet env cls) with
  | error e => simp [admission.Errored]
  | ok marshalled =>
    simp only
    rw [hpods]
    generalize env.PatchResponseFromRaw req.Raw marshalled = final
    have hspec := podToDeleteLoop_spec env (SetDefaultCollaSet env cls) final cls.PodToDelete s
    rw [hname] at hspec
    generalize podToDeleteLoop env (SetDefaultCollaSet env cls) final cls.PodToDelete s = r
      at hspec ⊢
    obtain ⟨h1, h2, h3⟩ := hspec
    refine ⟨?_, h1, h2⟩
    intro hallowed
    have hno : ∀ ns name e, AdapterEvent.Get ns name (.error e) ∉ r.events := by
      intro ns name e hmem
      have := (h1 ns name e hmem).1
      rw [hallowed] at this
      cases this
    have hall : ∀ ns name pod, AdapterEvent.Get ns name (.ok pod) ∈ r.events →
        ∃ ref ∈ pod.OwnerReferences, ref.Name = cls.Name := by
      intro ns name pod hmem
      by_contra hnone
      have := (h2 ns name pod hmem (fun ref href hrn => hnone ⟨ref, href, hrn⟩)).1
      rw [hallowed] at this
      cases this
    refine ⟨(h3 hno hall).2, ?_⟩
    intro ns name res hmem
    cases res with
    | error e => exact absurd hmem (hno ns name e)
    | ok pod => exact ⟨pod, rfl, hall ns name pod hmem⟩

/-! ## The claim on the webhook -/

/-- C26, the code at the failing input: the CollaSet `web` names the pod `web-0` to
delete; the pod exists and its only owner reference designates the StatefulSet `web`,
an object of another kind with the same name; the handler compares the names only and
admits the update, with a patch. -/
theorem Handle_admits_foreign_owner :
    (exampleOwnedPod "web-0" "StatefulSet" "web").OwnerReferences.all
      (fun ref => decide (ref.Kind ≠ "CollaSet")) = true ∧
    (Handle
        (exampleWebhookEnv (exampleScalingSet ["web-0"])
          [exampleOwnedPod "web-0" "StatefulSet" "web"] [])
        { Operation := "UPDATE", Raw := "" } 0).response =
      { Allowed := true, Code := 200, Message := "", Patches := some "web" } := by
  decide

/-! ## Lemmas on the volumes of the pod -/

/-- The map `provisionUpdatedPvc` returns holds every template name once. -/
theorem provisionUpdatedPvc_nodup {σ : Type} (env : PvcEnv σ) (cls : CollaSet) (id : String)
    (existing : List PersistentVolumeClaim) (s : σ) (m1 : GoMap PersistentVolumeClaim)
    (h : (provisionUpdatedPvc env cls id existing s).result = .ok m1) :
    (m1.map Prod.fst).Nodup := by
  unfold provisionUpdatedPvc at h
  cases hc : classifyPodPvcs env cls id existing with
  | error e => rw [hc] at h; simp at h
  | ok p =>
    obtain ⟨newPvcs, oldPvcs⟩ := p
    rw [hc] at h
    simp only at h
    obtain ⟨_, _, _, _, hnd, _⟩ := classifyPodPvcs_ok env cls id existing newPvcs oldPvcs hc
    exact (provisionLoop_ok env cls id cls.VolumeClaimTemplates newPvcs s m1 h).2.2.1 hnd

/-- What `CreatePodPvcs` returns, by the label of the pod and the outcome of the
provisioning. -/
theorem CreatePodPvcs_result {σ : Type} (env : PvcEnv σ) (cls : CollaSet) (pod : Pod)
    (existing : List PersistentVolumeClaim) (s : σ) :
    (podInstanceID env pod = none →
      (CreatePodPvcs env cls pod existing s).result = (none, pod)) ∧
    (∀ id e, podInstanceID env pod = some id →
      (provisionUpdatedPvc env cls id existing s).result = .error e →
      (CreatePodPvcs env cls pod existing s).result = (some e, pod)) ∧
    (∀ id m1, podInstanceID env pod = some id →
      (provisionUpdatedPvc env cls id existing s).result = .ok m1 →
      (CreatePodPvcs env cls pod existing s).result =
        (none, { pod with
          Volumes :=
            (env.range (provisionUpdatedPvc env cls id existing s).store m1).map
                (fun kv => claimVolume kv.1 kv.2) ++
              pod.Volumes.filter (fun v => !mapHas m1 v.Name) })) := by
  refine ⟨?_, ?_, ?_⟩
  · intro hid
    unfold CreatePodPvcs
    rw [podInstanceID_eq, hid]
  · intro id e hid hp
    unfold CreatePodPvcs
    rw [podInstanceID_eq, hid]
    simp only
    generalize provisionUpdatedPvc env cls id existing s = r at hp ⊢
    obtain ⟨res, s1, evs⟩ := r
    simp only at hp
    subst hp
    rfl
  · intro id m1 hid hp
    unfold CreatePodPvcs
    rw [podInstanceID_eq, hid]
    simp only
    generalize provisionUpdatedPvc env cls id existing s = r at hp ⊢
    obtain ⟨res, s1, evs⟩ := r
    simp only at hp
    subst hp
    rfl

theorem filter_map_claimVolume (l : GoMap PersistentVolumeClaim) (p : String → Bool) :
    (l.map (fun kv => claimVolume kv.1 kv.2)).filter (fun v => p v.Name) =
      (l.filter (fun kv => p kv.1)).map (fun kv => claimVolume kv.1 kv.2) := by
  induction l with
  | nil => rfl
  | cons kv rest ih =>
    cases hp : p kv.1 <;> simp [List.filter, claimVolume, hp, ih] <;>
      simpa [claimVolume] using ih

/-! ## The claim on the volumes of the pod -/

/-- C22: `CreatePodPvcs` leaves the pod as it is when the pod has no instance-id label,
and when `provisionUpdatedPvc` returns an error, which it passes on. When
`provisionUpdatedPvc` returns the map `pvcsMap`, the call returns no error and changes
the volumes of the pod only: they are one claim volume per entry of `pvcsMap`, in the
order the map is ranged over, followed by the previous volumes whose name is no key of
`pvcsMap`, unchanged and in their previous order; so there are as many volumes as
entries of `pvcsMap` and volumes kept, exactly one volume is named after each key of
`pvcsMap`, the claim volume of its claim, and the volumes named after no key are the
previous ones. -/
theorem CreatePodPvcs_preserves_volumes {σ : Type} (env : PvcEnv σ) (cls : CollaSet)
    (pod : Pod) (existing : List PersistentVolumeClaim) (s : σ) :
    (podInstanceID env pod = none →
      (CreatePodPvcs env cls pod existing s).result = (none, pod)) ∧
    (∀ id e, podInstanceID env pod = some id →
      (provisionUpdatedPvc env cls id existing s).result = .error e →
      (CreatePodPvcs env cls pod existing s).result = (some e, pod)) ∧
    (∀ id pvcsMap, podInstanceID env pod = some id →
      (provisionUpdatedPvc env cls id existing s).result = .ok pvcsMap →
      ∃ mounted : GoMap PersistentVolumeClaim, mounted.Perm pvcsMap ∧
        (CreatePodPvcs env cls pod existing s).result =
          (none, { pod with
            Volumes :=
              mounted.map (fun kv => claimVolume kv.1 kv.2) ++
                pod.Volumes.filter (fun v => !mapHas pvcsMap v.Name) }) ∧
        (CreatePodPvcs env cls pod existing s).result.2.Volumes.length =
          pvcsMap.length + (pod.Volumes.filter (fun v => !mapHas pvcsMap v.Name)).length ∧
        (∀ k c, mapGet pvcsMap k = some c →
          (CreatePodPvcs env cls pod existing s).result.2.Volumes.filter
            (fun v => decide (v.Name = k)) = [claimVolume k c]) ∧
        (CreatePodPvcs env cls pod existing s).result.2.Volumes.filter
            (fun v => !mapHas pvcsMap v.Name) =
          pod.Volumes.filter (fun v => !mapHas pvcsMap v.Name)) := by
  obtain ⟨h1, h2, h3⟩ := CreatePodPvcs_result env cls pod existing s
  refine ⟨h1, h2, ?_⟩
  intro id pvcsMap hid hp
  have hres := h3 id pvcsMap hid hp
  have hnd := provisionUpdatedPvc_nodup env cls id existing s pvcsMap hp
  have hperm := env.range_perm (provisionUpdatedPvc env cls id existing s).store pvcsMap
  generalize env.range (provisionUpdatedPvc env cls id existing s).store pvcsMap = mounted
    at hres hperm
  have hndm : (mounted.map Prod.fst).Nodup := (hperm.map Prod.fst).nodup_iff.mpr hnd
  refine ⟨mounted, hperm, hres, ?_, ?_, ?_⟩
  · rw [hres]
    simp [hperm.length_eq]
  · intro k c hk
    rw [hres]
    simp only [List.filter_append]
    have hmem : (k, c) ∈ mounted := hperm.mem_iff.mpr (mem_of_mapGet pvcsMap k c hk)
    have hkept : (pod.Volumes.filter (fun v => !mapHas pvcsMap v.Name)).filter
        (fun v => decide (v.Name = k)) = [] := by
      rw [List.filter_eq_nil_iff]
      intro v hv hvk
      have hv2 := (List.mem_filter.mp hv).2
      simp only [decide_eq_true_eq] at hvk
      rw [hvk, (mapHas_iff pvcsMap k).mpr ⟨c, hk⟩] at hv2
      cases hv2
    rw [hkept, List.append_nil,
      filter_map_claimVolume mounted (fun name => decide (name = k)),
      filter_key_of_nodup mounted k c hndm hmem]
    rfl
  · rw [hres]
    simp only [List.filter_append, List.filter_filter, Bool.and_self]
    have hnone : (mounted.map (fun kv => claimVolume kv.1 kv.2)).filter
        (fun v => !mapHas pvcsMap v.Name) = [] := by
      rw [List.filter_eq_nil_iff]
      intro v hv hvk
      obtain ⟨kv, hkv, hkv2⟩ := List.mem_map.mp hv
      have hin : (kv.1, kv.2) ∈ pvcsMap := hperm.mem_iff.mp hkv
      have hget := mapGet_of_mem pvcsMap kv.1 kv.2 hnd hin
      rw [← hkv2] at hvk
      simp only [claimVolume] at hvk
      rw [(mapHas_iff pvcsMap kv.1).mpr ⟨kv.2, hget⟩] at hvk
      cases hvk
    rw [hnone, List.nil_append]

/-- C22 (witness): the pod of instance `0` mounts `web-data-a` as `data` next to the
volume `config`; the templates `data` and `logs` are declared, `web-logs-b` is current
and `web-data-a` stale, so `web-data-x` is created; the pod is returned with the volumes
`logs` and `data` mounting `web-logs-b` and `web-data-x`, followed by `config`. -/
theorem CreatePodPvcs_preserves_volumes_witness :
    (CreatePodPvcs (exampleEnv [] [])
        (exampleSet [exampleTemplate "data" "v2", exampleTemplate "logs" "v2"] none)
        exampleMountedPod
        [exampleClaim "web-data-a" "0" "v1", exampleClaim "web-logs-b" "0" "v2"] 0).result.2.Volumes.filter
      (fun v => decide (v.Name = "data")) =
      [claimVolume "data" (exampleClaim "web-data-x" "0" "v2")] :=
  let ⟨_, _, _, _, h, _⟩ :=
    (CreatePodPvcs_preserves_volumes (exampleEnv [] [])
      (exampleSet [exampleTemplate "data" "v2", exampleTemplate "logs" "v2"] none)
      exampleMountedPod
      [exampleClaim "web-data-a" "0" "v1", exampleClaim "web-logs-b" "0" "v2"] 0).2.2 "0"
      [("logs", exampleClaim "web-logs-b" "0" "v2"),
       ("data", exampleClaim "web-data-x" "0" "v2")]
      (by decide) (by decide)
  h "data" (exampleClaim "web-data-x" "0" "v2") (by decide)

/-! ## Lemmas on repeated deletes -/

theorem nodup_values_of_key {V : Type} (f : V → Except String String) :
    ∀ l : List (String × V), (l.map Prod.fst).Nodup → (∀ kv ∈ l, f kv.2 = .ok kv.1) →
      (l.map Prod.snd).Nodup
  | [], _, _ => List.nodup_nil
  | kv :: rest, hnd, hf => by
    simp only [List.map_cons, List.nodup_cons] at hnd ⊢
    refine ⟨?_, nodup_values_of_key f rest hnd.2 (fun x hx => hf x (List.mem_cons_of_mem _ hx))⟩
    intro hmem
    obtain ⟨kv2, hkv2, heq⟩ := List.mem_map.mp hmem
    have h1 := hf kv (List.mem_cons_self _ _)
    have h2 := hf kv2 (List.mem_cons_of_mem _ hkv2)
    rw [heq, h1] at h2
    injection h2 with h2
    apply hnd.1
    rw [h2]
    exact List.mem_map_of_mem _ hkv2

/-- The stale claims `classifyPodPvcs` returns are pairwise distinct. -/
theorem oldPvcs_values_nodup {σ : Type} (env : PvcEnv σ) (cls : CollaSet) (id : String)
    (existing : List PersistentVolumeClaim) (n o : GoMap PersistentVolumeClaim)
    (hc : classifyPodPvcs env cls id existing = .ok (n, o)) : (o.map Prod.snd).Nodup := by
  obtain ⟨_, _, _, _, _, hnd⟩ := classifyPodPvcs_ok env cls id existing n o hc
  apply nodup_values_of_key (env.ExtractPvcTmpName cls) o hnd
  intro kv hkv
  exact (mem_oldPvcs_extract env cls id existing n o hc kv.1 kv.2 hkv).2

theorem unclaimedOf_nodup {σ : Type} (env : PvcEnv σ) (cls : CollaSet)
    (o : GoMap PersistentVolumeClaim) (s : σ) (h : (o.map Prod.snd).Nodup) :
    (unclaimedOf env cls o s).Nodup := by
  unfold unclaimedOf
  have hr : ((env.range s o).map Prod.snd).Nodup :=
    ((env.range_perm s o).map Prod.snd).nodup_iff.mpr h
  exact List.Nodup.sublist ((List.filter_sublist _).map Prod.snd) hr

theorem replacedOf_nodup {σ : Type} (env : PvcEnv σ) (n o : GoMap PersistentVolumeClaim)
    (s : σ) (h : (o.map Prod.snd).Nodup) : (replacedOf env n o s).Nodup := by
  unfold replacedOf
  have hr : ((env.range s o).map Prod.snd).Nodup :=
    ((env.range_perm s o).map Prod.snd).nodup_iff.mpr h
  exact List.Nodup.sublist ((List.filter_sublist _).map Prod.snd) hr

theorem classifyPodPvcs_error_events {σ : Type} (env : PvcEnv σ) (cls : CollaSet) (pod : Pod)
    (existing : List PersistentVolumeClaim) (s : σ) (id e : String)
    (hid : podInstanceID env pod = some id)
    (hc : classifyPodPvcs env cls id existing = .error e) :
    (DeletePodUnusedPvcs env cls pod existing s).events = [] := by
  unfold DeletePodUnusedPvcs
  unfold podInstanceID at hid
  cases hl : pod.Labels with
  | none => rfl
  | some labels =>
    rw [hl] at hid
    simp only at hid
    simp only [hid, hc]

/-- When no claim of the pod's instance carries the empty string as its template-hash
label, `DeletePodUnusedPvcs` issues at most one delete for a claim. -/
theorem DeletePodUnusedPvcs_deletes_nodup {σ : Type} (env : PvcEnv σ) (cls : CollaSet)
    (pod : Pod) (existing : List PersistentVolumeClaim) (s : σ)
    (hhash : ∀ id, podInstanceID env pod = some id →
      ∀ pvc ∈ existing, eligibleHash env id pvc ≠ some "") :
    (deletesOf (DeletePodUnusedPvcs env cls pod existing s).events).Nodup := by
  cases hid : podInstanceID env pod with
  | none =>
    rw [(DeletePodUnusedPvcs_no_id env cls pod existing s hid).1]
    exact List.nodup_nil
  | some id =>
    cases hc : classifyPodPvcs env cls id existing with
    | error e =>
      rw [classifyPodPvcs_error_events env cls pod existing s id e hid hc]
      exact List.nodup_nil
    | ok p =>
      obtain ⟨n, o⟩ := p
      have hvals := oldPvcs_values_nodup env cls id existing n o hc
      obtain ⟨H, hH, _, _, _, hndo⟩ := classifyPodPvcs_ok env cls id existing n o hc
      rw [DeletePodUnusedPvcs_eq env cls pod existing s id n o hid hc]
      obtain ⟨a, ha⟩ := deleteEach_deletes_prefix env cls (unclaimedOf env cls o s) s
      have hU := unclaimedOf_nodup env cls o s hvals
      split
      · rw [ha]
        exact List.Nodup.sublist (List.take_sublist _ _) hU
      · obtain ⟨b, hb⟩ := deleteEach_deletes_prefix env cls
          (replacedOf env n o (deleteEach env cls (unclaimedOf env cls o s) s).store)
          (deleteEach env cls (unclaimedOf env cls o s) s).store
        have hR := replacedOf_nodup env n o
          (deleteEach env cls (unclaimedOf env cls o s) s).store hvals
        rw [Run.after_events, deletesOf_append, ha, hb, List.nodup_append]
        refine ⟨List.Nodup.sublist (List.take_sublist _ _) hU,
          List.Nodup.sublist (List.take_sublist _ _) hR, ?_⟩
        intro pvc h1 h2
        obtain ⟨k1, hk1, hundecl⟩ :=
          (mem_unclaimedOf env cls o s pvc).mp (List.mem_of_mem_take h1)
        obtain ⟨k2, hk2, hhas⟩ :=
          (mem_replacedOf env n o _ pvc).mp (List.mem_of_mem_take h2)
        have e1 := (mem_oldPvcs_extract env cls id existing n o hc k1 pvc hk1).2
        have e2 := (mem_oldPvcs_extract env cls id existing n o hc k2 pvc hk2).2
        rw [e1] at e2
        injection e2 with e2
        subst e2
        obtain ⟨c, hget⟩ := (mapHas_iff n k1).mp hhas
        have hcn := mem_of_mapGet n k1 c hget
        have hempty := classifyPodPvcs_undeclared_current env cls id existing n o hc k1 c hcn
          hundecl
        have hcmem := (lastMatch_some _ _ _
          ((mem_newPvcs_iff env cls id existing H n o hH hc k1 c).mp hcn)).1
        exact hhash id hid c hcmem hempty

/-! ## The claim on repeated deletes -/

/-- C21, the code at the failing input: only the template `data` is declared and the
policy is `Delete`; of the claims of instance `0` named after the undeclared template
`logs`, `web-logs-a` carries the empty template-hash label and is classified current,
`web-logs-b` carries the hash `v1` and is classified stale; `DeletePodUnusedPvcs` issues
two deletes for `web-logs-b`, one in the pass over the unclaimed templates and one in
the pass over the replaced claims. -/
theorem DeletePodUnusedPvcs_deletes_twice :
    classifyPodPvcs (exampleEnv [] []) (exampleSet [exampleTemplate "data" "v2"] none) "0"
        [exampleClaim "web-logs-a" "0" "", exampleClaim "web-logs-b" "0" "v1"]
      = .ok ([("logs", exampleClaim "web-logs-a" "0" "")],
             [("logs", exampleClaim "web-logs-b" "0" "v1")]) ∧
    deletesOf (DeletePodUnusedPvcs (exampleEnv [] [])
        (exampleSet [exampleTemplate "data" "v2"] none) examplePod
        [exampleClaim "web-logs-a" "0" "", exampleClaim "web-logs-b" "0" "v1"] 0).events
      = [exampleClaim "web-logs-b" "0" "v1", exampleClaim "web-logs-b" "0" "v1"] := by
  decide

/-! ## Lemmas on `IsPodPvcTmpChanged` -/

theorem mountedChangedLoop_eq (newHashMapping existingPvcHash : GoMap String) :
    ∀ volumes : List Volume,
      mountedChangedLoop newHashMapping existingPvcHash volumes =
        volumes.any (fun volume =>
          match volume.PersistentVolumeClaim with
          | none => false
          | some source =>
            decide (source.ClaimName ≠ "") &&
              decide (mapGetD newHashMapping volume.Name "" ≠
                mapGetD existingPvcHash source.ClaimName ""))
  | [] => rfl
  | volume :: rest => by
    have ih := mountedChangedLoop_eq newHashMapping existingPvcHash rest
    cases hv : volume.PersistentVolumeClaim with
    | none => simp [mountedChangedLoop, hv, ih]
    | some source =>
      by_cases hn : source.ClaimName = ""
      · simp [mountedChangedLoop, hv, hn, ih]
      · by_cases hh : mapGetD newHashMapping volume.Name "" =
            mapGetD existingPvcHash source.ClaimName ""
        · simp [mountedChangedLoop, hv, hn, hh, ih]
        · simp [mountedChangedLoop, hv, hn, hh]

/-- One step of the first loop of `IsPodPvcTmpChanged` for a pod that carries a
non-empty instance id. -/
theorem existingPvcHashLoop_cons {σ : Type} (env : PvcEnv σ) (pod : Pod) (id : String)
    (hid : podInstanceID env pod = some id) (hne : id ≠ "")
    (pvc : PersistentVolumeClaim) (rest : List PersistentVolumeClaim) (acc : GoMap String) :
    existingPvcHashLoop env pod (pvc :: rest) acc =
      existingPvcHashLoop env pod rest
        (if carriesInstance env id pvc = true then
          match hashLabel env pvc with
          | some hash => mapSet acc pvc.Name hash
          | none => acc
         else acc) := by
  unfold podInstanceID at hid
  cases hpl : pod.Labels with
  | none => rw [hpl] at hid; cases hid
  | some pl =>
    rw [hpl] at hid
    simp only at hid
    have hpod : mapGetD pl env.PodInstanceIDLabelKey "" = id := by
      simp [mapGetD, hid]
    cases hl : pvc.Labels with
    | none => simp [existingPvcHashLoop, hl, carriesInstance]
    | some labels =>
      have hiff : mapGetD labels env.PodInstanceIDLabelKey "" = id ↔
          mapGet labels env.PodInstanceIDLabelKey = some id := by
        unfold mapGetD
        cases hg : mapGet labels env.PodInstanceIDLabelKey with
        | none =>
          simp only
          constructor
          · intro h
            exact absurd h.symm hne
          · intro h
            cases h
        | some v => simp
      by_cases hc : mapGet labels env.PodInstanceIDLabelKey = some id
      · have hd := hiff.mpr hc
        rw [existingPvcHashLoop]
        simp only [hl, hpl, Option.getD_some, hd, hpod, carriesInstance, hc, hashLabel]
        cases mapGet labels env.PvcTemplateHashLabelKey <;> simp
      · have hd : ¬ mapGetD labels env.PodInstanceIDLabelKey "" = id := fun h => hc (hiff.mp h)
        have hd2 : ¬ id = mapGetD labels env.PodInstanceIDLabelKey "" := fun h => hd h.symm
        rw [existingPvcHashLoop]
        simp only [hl, hpl, Option.getD_some, hpod, carriesInstance, hc, hashLabel]
        simp [hd2]

theorem existingPvcHashLoop_get {σ : Type} (env : PvcEnv σ) (pod : Pod) (id : String)
    (hid : podInstanceID env pod = some id) (hne : id ≠ "") (claimName : String) :
    ∀ (l : List PersistentVolumeClaim) (acc : GoMap String),
      mapGet (existingPvcHashLoop env pod l acc) claimName =
        match lastMatch
            (fun pvc => carriesInstance env id pvc && (hashLabel env pvc).isSome &&
              decide (pvc.Name = claimName)) l with
        | some pvc => hashLabel env pvc
        | none => mapGet acc claimName
  | [], acc => by simp [existingPvcHashLoop, lastMatch]
  | pvc :: rest, acc => by
    rw [existingPvcHashLoop_cons env pod id hid hne, existingPvcHashLoop_get env pod id hid hne
      claimName rest]
    simp only [lastMatch]
    cases hlm : lastMatch
        (fun pvc => carriesInstance env id pvc && (hashLabel env pvc).isSome &&
          decide (pvc.Name = claimName)) rest with
    | some b => rfl
    | none =>
      simp only
      by_cases hc : carriesInstance env id pvc = true
      · by_cases hs : (hashLabel env pvc).isSome = true
        · obtain ⟨hash, hh⟩ := Option.isSome_iff_exists.mp hs
          by_cases hn : pvc.Name = claimName
          · simp [hc, hn, hh, mapGet_mapSet_self]
          · have hn2 : claimName ≠ pvc.Name := fun h => hn h.symm
            simp [hc, hn, hh, mapGet_mapSet_ne _ _ _ _ hn2]
        · have hh : hashLabel env pvc = none := by
            cases h : hashLabel env pvc with
            | none => rfl
            | some v => rw [h] at hs; simp at hs
          simp [hc, hh]
      · simp [hc]

/-- For a pod that carries a non-empty instance id, `IsPodPvcTmpChanged` returns true
exactly when some volume of the pod mounts a claim with a non-empty name whose hash
label, looked up among the claims of that instance with a hash label, differs from the
live hash of the template named like the volume. -/
theorem IsPodPvcTmpChanged_eq {σ : Type} (env : PvcEnv σ) (cls : CollaSet) (pod : Pod)
    (existing : List PersistentVolumeClaim) (id : String) (newHashMapping : GoMap String)
    (hid : podInstanceID env pod = some id) (hne : id ≠ "")
    (hH : PvcTmpHashMapping env cls.VolumeClaimTemplates [] = .ok newHashMapping) :
    IsPodPvcTmpChanged env cls pod existing =
      (pod.Volumes.any (volumeChanged env newHashMapping id existing), none) := by
  unfold IsPodPvcTmpChanged
  rw [hH]
  simp only [mountedChangedLoop_eq, Prod.mk.injEq, and_true]
  congr 1
  funext volume
  unfold volumeChanged
  cases volume.PersistentVolumeClaim with
  | none => rfl
  | some source =>
    simp only
    have hget := existingPvcHashLoop_get env pod id hid hne source.ClaimName existing []
    have : mapGetD (existingPvcHashLoop env pod existing []) source.ClaimName "" =
        mountedHash env id existing source.ClaimName := by
      unfold mapGetD mountedHash
      rw [hget]
      cases lastMatch
          (fun pvc => carriesInstance env id pvc && (hashLabel env pvc).isSome &&
            decide (pvc.Name = source.ClaimName)) existing with
      | none => simp [mapGet]
      | some pvc =>
        simp only
        cases hashLabel env pvc <;> rfl
    rw [this]

/-! ## The claim on `IsPodPvcTmpChanged` -/

/-- C23, the code at the failing input: the template `data` is declared with the live
hash `v2`; the claim `web-data-a` carries the template-hash label `v2` and no instance
id, and the pod mounts it as the volume `data`. For the pod with the label `app = batch`
and no instance id, `IsPodPvcTmpChanged` finds the instance-id lookups of the pod and of
the claim equal, both empty, takes the hash label of the claim and answers false; for
the same pod without a label map, and for the same pod of instance `0`, the claim is not
taken and the answer is true. -/
theorem IsPodPvcTmpChanged_without_instance :
    podInstanceID (exampleEnv [] []) (exampleStrayPod (some [("app", "batch")])) = none ∧
    carriesInstance (exampleEnv [] []) "" (exampleStrayClaim "web-data-a" "v2") = false ∧
    IsPodPvcTmpChanged (exampleEnv [] []) (exampleSet [exampleTemplate "data" "v2"] none)
      (exampleStrayPod (some [("app", "batch")])) [exampleStrayClaim "web-data-a" "v2"]
      = (false, none) ∧
    IsPodPvcTmpChanged (exampleEnv [] []) (exampleSet [exampleTemplate "data" "v2"] none)
      (exampleStrayPod none) [exampleStrayClaim "web-data-a" "v2"]
      = (true, none) ∧
    IsPodPvcTmpChanged (exampleEnv [] []) (exampleSet [exampleTemplate "data" "v2"] none)
      (exampleStrayPod (some [("collaset.kusionstack.io/instance-id", "0")]))
      [exampleStrayClaim "web-data-a" "v2"]
      = (true, none) := by
  decide

end Kusion
